import Mathlib

/-!
# tsmonitor: the analyzer-report parser and the snapshot model

A shallow embedding of `internal/tsp/parser.go` and `internal/tsp/models.go`.

* Go strings are lists of Unicode code points (`Str`); the embedding covers
  valid UTF-8 text.
* The seven regular expressions of `parser.go` are values of a small
  regular-expression syntax, run by a backtracking matcher with Go's
  leftmost-first, greedy semantics.
* `time.Now()` is an explicit argument: an instant is a monotonic clock
  reading in nanoseconds.
* Ranging over a Go map visits the entries in an unspecified order; the
  order is an explicit argument (`MapOrder`).
-/

namespace TSMonitor

/-- Go `string`: a list of Unicode code points (valid UTF-8 text). -/
abbrev Str := List Char

/-! ## The `strings` package -/

/-- Go `strings.HasPrefix(s, p)`. -/
def HasPrefix : Str → Str → Bool
  | _, [] => true
  | [], _ :: _ => false
  | c :: s, p :: ps => decide (c = p) && HasPrefix s ps

/-- Go `strings.Contains(s, sub)`. -/
def Contains : Str → Str → Bool
  | [], sub => HasPrefix [] sub
  | c :: s, sub => HasPrefix (c :: s) sub || Contains s sub

/-- Go `strings.ReplaceAll(s, old, new)` for a one-character `old`, which is
how `parser.go` calls it (`","` and `" "`). -/
def ReplaceAll (s : Str) (old : Char) (new : Str) : Str :=
  s.flatMap (fun c => if c = old then new else [c])

/-- Go `strings.Split(s, sep)` for a one-character `sep` (`"\n"` in
`parsePIDs`): always at least one piece. -/
def Split (sep : Char) : Str → List Str
  | [] => [[]]
  | c :: s =>
    if c = sep then [] :: Split sep s
    else
      match Split sep s with
      | [] => [[c]]
      | l :: ls => (c :: l) :: ls

/-- Go `unicode.ToUpper` on one rune (the simple case mapping that
`strings.ToUpper` applies).  ASCII letters are mapped as Go maps them, and so
are the only two non-ASCII runes whose upper case is an ASCII letter, U+0131
(dotless i, to `I`) and U+017F (long s, to `S`).  Every other non-ASCII rune
is kept as it is: Go maps it to some non-ASCII rune, and `parser.go` only
searches the result for ASCII text. -/
def toUpperRune (c : Char) : Char :=
  if 97 ≤ c.toNat ∧ c.toNat ≤ 122 then Char.ofNat (c.toNat - 32)
  else if c.toNat = 0x131 then 'I'
  else if c.toNat = 0x17F then 'S'
  else c

/-- Go `unicode.MaxRune`. -/
def maxRune : Int := 0x10FFFF

/-- Go `unicode.UpperLower`: the delta of a range in which capital and small
letters alternate, the capital ones at the even offsets. -/
def upperLower : Int := maxRune + 1

/-- The lower-case deltas of Go `unicode.CaseRanges`, as ranges: first rune,
last rune, and the delta to the lower case.  Runes outside these ranges are
their own lower case.  The table is the simple lower-case mapping of the
Unicode Character Database, in which versions 14.0.0 and 15.0.0 agree; Go 1.21
and later have the tables of 15.0.0. -/
def caseRanges : List (Nat × Nat × Int) :=
  [ (0x0041, 0x005A, 32), (0x00C0, 0x00D6, 32), (0x00D8, 0x00DE, 32),
    (0x0100, 0x012F, upperLower), (0x0130, 0x0130, -199), (0x0132, 0x0137, upperLower),
    (0x0139, 0x0148, upperLower), (0x014A, 0x0177, upperLower), (0x0178, 0x0178, -121),
    (0x0179, 0x017E, upperLower), (0x0181, 0x0181, 210), (0x0182, 0x0185, upperLower),
    (0x0186, 0x0186, 206), (0x0187, 0x0187, 1), (0x0189, 0x018A, 205),
    (0x018B, 0x018B, 1), (0x018E, 0x018E, 79), (0x018F, 0x018F, 202),
    (0x0190, 0x0190, 203), (0x0191, 0x0191, 1), (0x0193, 0x0193, 205),
    (0x0194, 0x0194, 207), (0x0196, 0x0196, 211), (0x0197, 0x0197, 209),
    (0x0198, 0x0198, 1), (0x019C, 0x019C, 211), (0x019D, 0x019D, 213),
    (0x019F, 0x019F, 214), (0x01A0, 0x01A5, upperLower), (0x01A6, 0x01A6, 218),
    (0x01A7, 0x01A7, 1), (0x01A9, 0x01A9, 218), (0x01AC, 0x01AC, 1),
    (0x01AE, 0x01AE, 218), (0x01AF, 0x01AF, 1), (0x01B1, 0x01B2, 217),
    (0x01B3, 0x01B6, upperLower), (0x01B7, 0x01B7, 219), (0x01B8, 0x01B8, 1),
    (0x01BC, 0x01BC, 1), (0x01C4, 0x01C4, 2), (0x01C5, 0x01C5, 1),
    (0x01C7, 0x01C7, 2), (0x01C8, 0x01C8, 1), (0x01CA, 0x01CA, 2),
    (0x01CB, 0x01DC, upperLower), (0x01DE, 0x01EF, upperLower), (0x01F1, 0x01F1, 2),
    (0x01F2, 0x01F5, upperLower), (0x01F6, 0x01F6, -97), (0x01F7, 0x01F7, -56),
    (0x01F8, 0x021F, upperLower), (0x0220, 0x0220, -130), (0x0222, 0x0233, upperLower),
    (0x023A, 0x023A, 10795), (0x023B, 0x023B, 1), (0x023D, 0x023D, -163),
    (0x023E, 0x023E, 10792), (0x0241, 0x0241, 1), (0x0243, 0x0243, -195),
    (0x0244, 0x0244, 69), (0x0245, 0x0245, 71), (0x0246, 0x024F, upperLower),
    (0x0370, 0x0373, upperLower), (0x0376, 0x0376, 1), (0x037F, 0x037F, 116),
    (0x0386, 0x0386, 38), (0x0388, 0x038A, 37), (0x038C, 0x038C, 64),
    (0x038E, 0x038F, 63), (0x0391, 0x03A1, 32), (0x03A3, 0x03AB, 32),
    (0x03CF, 0x03CF, 8), (0x03D8, 0x03EF, upperLower), (0x03F4, 0x03F4, -60),
    (0x03F7, 0x03F7, 1), (0x03F9, 0x03F9, -7), (0x03FA, 0x03FA, 1),
    (0x03FD, 0x03FF, -130), (0x0400, 0x040F, 80), (0x0410, 0x042F, 32),
    (0x0460, 0x0481, upperLower), (0x048A, 0x04BF, upperLower), (0x04C0, 0x04C0, 15),
    (0x04C1, 0x04CE, upperLower), (0x04D0, 0x052F, upperLower), (0x0531, 0x0556, 48),
    (0x10A0, 0x10C5, 7264), (0x10C7, 0x10C7, 7264), (0x10CD, 0x10CD, 7264),
    (0x13A0, 0x13EF, 38864), (0x13F0, 0x13F5, 8), (0x1C90, 0x1CBA, -3008),
    (0x1CBD, 0x1CBF, -3008), (0x1E00, 0x1E95, upperLower), (0x1E9E, 0x1E9E, -7615),
    (0x1EA0, 0x1EFF, upperLower), (0x1F08, 0x1F0F, -8), (0x1F18, 0x1F1D, -8),
    (0x1F28, 0x1F2F, -8), (0x1F38, 0x1F3F, -8), (0x1F48, 0x1F4D, -8),
    (0x1F59, 0x1F59, -8), (0x1F5B, 0x1F5B, -8), (0x1F5D, 0x1F5D, -8),
    (0x1F5F, 0x1F5F, -8), (0x1F68, 0x1F6F, -8), (0x1F88, 0x1F8F, -8),
    (0x1F98, 0x1F9F, -8), (0x1FA8, 0x1FAF, -8), (0x1FB8, 0x1FB9, -8),
    (0x1FBA, 0x1FBB, -74), (0x1FBC, 0x1FBC, -9), (0x1FC8, 0x1FCB, -86),
    (0x1FCC, 0x1FCC, -9), (0x1FD8, 0x1FD9, -8), (0x1FDA, 0x1FDB, -100),
    (0x1FE8, 0x1FE9, -8), (0x1FEA, 0x1FEB, -112), (0x1FEC, 0x1FEC, -7),
    (0x1FF8, 0x1FF9, -128), (0x1FFA, 0x1FFB, -126), (0x1FFC, 0x1FFC, -9),
    (0x2126, 0x2126, -7517), (0x212A, 0x212A, -8383), (0x212B, 0x212B, -8262),
    (0x2132, 0x2132, 28), (0x2160, 0x216F, 16), (0x2183, 0x2183, 1),
    (0x24B6, 0x24CF, 26), (0x2C00, 0x2C2F, 48), (0x2C60, 0x2C60, 1),
    (0x2C62, 0x2C62, -10743), (0x2C63, 0x2C63, -3814), (0x2C64, 0x2C64, -10727),
    (0x2C67, 0x2C6C, upperLower), (0x2C6D, 0x2C6D, -10780), (0x2C6E, 0x2C6E, -10749),
    (0x2C6F, 0x2C6F, -10783), (0x2C70, 0x2C70, -10782), (0x2C72, 0x2C72, 1),
    (0x2C75, 0x2C75, 1), (0x2C7E, 0x2C7F, -10815), (0x2C80, 0x2CE3, upperLower),
    (0x2CEB, 0x2CEE, upperLower), (0x2CF2, 0x2CF2, 1), (0xA640, 0xA66D, upperLower),
    (0xA680, 0xA69B, upperLower), (0xA722, 0xA72F, upperLower), (0xA732, 0xA76F, upperLower),
    (0xA779, 0xA77C, upperLower), (0xA77D, 0xA77D, -35332), (0xA77E, 0xA787, upperLower),
    (0xA78B, 0xA78B, 1), (0xA78D, 0xA78D, -42280), (0xA790, 0xA793, upperLower),
    (0xA796, 0xA7A9, upperLower), (0xA7AA, 0xA7AA, -42308), (0xA7AB, 0xA7AB, -42319),
    (0xA7AC, 0xA7AC, -42315), (0xA7AD, 0xA7AD, -42305), (0xA7AE, 0xA7AE, -42308),
    (0xA7B0, 0xA7B0, -42258), (0xA7B1, 0xA7B1, -42282), (0xA7B2, 0xA7B2, -42261),
    (0xA7B3, 0xA7B3, 928), (0xA7B4, 0xA7C3, upperLower), (0xA7C4, 0xA7C4, -48),
    (0xA7C5, 0xA7C5, -42307), (0xA7C6, 0xA7C6, -35384), (0xA7C7, 0xA7CA, upperLower),
    (0xA7D0, 0xA7D0, 1), (0xA7D6, 0xA7D9, upperLower), (0xA7F5, 0xA7F5, 1),
    (0xFF21, 0xFF3A, 32), (0x10400, 0x10427, 40), (0x104B0, 0x104D3, 40),
    (0x10570, 0x1057A, 39), (0x1057C, 0x1058A, 39), (0x1058C, 0x10592, 39),
    (0x10594, 0x10595, 39), (0x10C80, 0x10CB2, 64), (0x118A0, 0x118BF, 32),
    (0x16E40, 0x16E5F, 32), (0x1E900, 0x1E921, 34) ]

/-- Go `unicode.to` for `LowerCase`: the range that holds the rune decides.  Go
finds the range by binary search; the ranges are in ascending order and
disjoint, so the first range that holds the rune is that range. -/
def toLowerCase (r : Nat) : List (Nat × Nat × Int) → Nat
  | [] => r
  | (lo, hi, delta) :: rest =>
    if lo ≤ r ∧ r ≤ hi then
      if delta > maxRune then lo + ((r - lo) / 2 * 2 + 1)
      else (r + delta).toNat
    else toLowerCase r rest

/-- Go `unicode.ToLower` on one rune, the mapping that `strings.ToLower`
applies to every rune of a text (the texts of this development are valid
UTF-8): ASCII runes by arithmetic, every other rune through the case ranges. -/
def toLowerRune (c : Char) : Char :=
  if c.toNat ≤ 127 then
    if 65 ≤ c.toNat ∧ c.toNat ≤ 90 then Char.ofNat (c.toNat + 32) else c
  else Char.ofNat (toLowerCase c.toNat caseRanges)

/-- Go `strings.ToUpper`. -/
def ToUpper (s : Str) : Str := s.map toUpperRune

/-- Go `strings.ToLower`. -/
def ToLower (s : Str) : Str := s.map toLowerRune

/-! ## The `regexp` package, for the patterns of `parser.go` -/

/-- The regular-expression syntax the patterns of `parser.go` use: literal
characters, a greedy `+` or `*` over a character class, and the brackets of a
capture group (groups are not nested). -/
inductive Node where
  | lit (c : Char)
  | plus (cls : Char → Bool)
  | star (cls : Char → Bool)
  | gopen
  | gclose

/-- The state of one match attempt: the matched text so far, the text of the
group that is open, and the groups already closed (all most recent first). -/
structure MState where
  whole : Str
  cur : Option Str
  done : List Str

/-- Consume one character. -/
def MState.push (st : MState) (c : Char) : MState :=
  { st with whole := c :: st.whole, cur := st.cur.map (fun g => c :: g) }

/-- Greedy repetition of a class followed by the continuation `k`: the longest
run is tried first, then shorter ones. -/
def loop (cls : Char → Bool) (k : Str → MState → Option MState) :
    Str → MState → Option MState
  | [], st => k [] st
  | c :: s, st =>
    if cls c then
      match loop cls k s (st.push c) with
      | some r => some r
      | none => k (c :: s) st
    else k (c :: s) st

/-- Match a pattern at the start of the text. -/
def run : List Node → Str → MState → Option MState
  | [], _, st => some st
  | Node.lit c :: ns, s, st =>
    match s with
    | [] => none
    | x :: xs => if x = c then run ns xs (st.push x) else none
  | Node.plus cls :: ns, s, st =>
    match s with
    | [] => none
    | x :: xs => if cls x then loop cls (run ns) xs (st.push x) else none
  | Node.star cls :: ns, s, st => loop cls (run ns) s st
  | Node.gopen :: ns, s, st => run ns s { st with cur := some [] }
  | Node.gclose :: ns, s, st =>
    run ns s { st with cur := none, done := (st.cur.getD []).reverse :: st.done }

/-- The submatches of a match that starts at the beginning of the text: the
whole match at index 0, then the groups; empty when there is no match. -/
def matchAt (re : List Node) (s : Str) : List Str :=
  match run re s ⟨[], none, []⟩ with
  | some st => st.whole.reverse :: st.done.reverse
  | none => []

/-- Go `(*Regexp).FindStringSubmatch`: the submatches of the leftmost match,
the empty list (Go: nil) when the text has no match. -/
def FindStringSubmatch (re : List Node) : Str → List Str
  | [] => matchAt re []
  | c :: s =>
    match matchAt re (c :: s) with
    | [] => FindStringSubmatch re s
    | m :: ms => m :: ms

/-- A literal piece of a pattern. -/
def lits (s : String) : List Node := s.toList.map Node.lit

/-- The class `\d`. -/
def isDigit (c : Char) : Bool := decide (48 ≤ c.toNat ∧ c.toNat ≤ 57)

/-- The class `[\d,]`. -/
def isDigitOrComma (c : Char) : Bool := isDigit c || decide (c = ',')

/-- The class `[0-9A-F]`. -/
def isHex (c : Char) : Bool := isDigit c || decide (65 ≤ c.toNat ∧ c.toNat ≤ 70)

/-- The class `\w`. -/
def isWord (c : Char) : Bool :=
  isDigit c || decide (65 ≤ c.toNat ∧ c.toNat ≤ 90) ||
    decide (97 ≤ c.toNat ∧ c.toNat ≤ 122) || decide (c = '_')

/-- The class `[^)]`. -/
def notRParen (c : Char) : Bool := decide (c ≠ ')')

/-- The class `[^"]`. -/
def notQuote (c : Char) : Bool := decide (c ≠ '"')

/-- Pattern `TS bitrate: ([\d,]+) bits/s, net bitrate: ([\d,]+) bits/s`. -/
def bitrateRegex : List Node :=
  lits "TS bitrate: " ++ [Node.gopen, Node.plus isDigitOrComma, Node.gclose] ++
  lits " bits/s, net bitrate: " ++ [Node.gopen, Node.plus isDigitOrComma, Node.gclose] ++
  lits " bits/s"

/-- Pattern
`Elementary stream: type (0x[0-9A-F]+) \(([^)]+)\), PID: (0x[0-9A-F]+) \((\d+)\)`. -/
def elementaryStreamRegex : List Node :=
  lits "Elementary stream: type " ++
  [Node.gopen] ++ lits "0x" ++ [Node.plus isHex, Node.gclose] ++
  lits " (" ++ [Node.gopen, Node.plus notRParen, Node.gclose] ++
  lits "), PID: " ++
  [Node.gopen] ++ lits "0x" ++ [Node.plus isHex, Node.gclose] ++
  lits " (" ++ [Node.gopen, Node.plus isDigit, Node.gclose] ++ lits ")"

/-- Pattern `Language: (\w+), Type:`. -/
def languageRegex : List Node :=
  lits "Language: " ++ [Node.gopen, Node.plus isWord, Node.gclose] ++ lits ", Type:"

/-- Pattern `- Descriptor \d+: Subtitling` (declared in `parser.go`, not used
by it). -/
def subtitleRegex : List Node :=
  lits "- Descriptor " ++ [Node.plus isDigit] ++ lits ": Subtitling"

/-- Pattern `Service: "([^"]+)", Provider: "([^"]*)"`. -/
def serviceRegex : List Node :=
  lits "Service: \"" ++ [Node.gopen, Node.plus notQuote, Node.gclose] ++
  lits "\", Provider: \"" ++ [Node.gopen, Node.star notQuote, Node.gclose] ++ lits "\""

/-- Pattern `Transport Stream Id: (0x[0-9A-F]+) \((\d+)\)`. -/
def tsidRegex : List Node :=
  lits "Transport Stream Id: " ++
  [Node.gopen] ++ lits "0x" ++ [Node.plus isHex, Node.gclose] ++
  lits " (" ++ [Node.gopen, Node.plus isDigit, Node.gclose] ++ lits ")"

/-- Pattern `Service type: (0x[0-9A-F]+) \(([^)]+)\)`. -/
def serviceTypeRegex : List Node :=
  lits "Service type: " ++
  [Node.gopen] ++ lits "0x" ++ [Node.plus isHex, Node.gclose] ++
  lits " (" ++ [Node.gopen, Node.plus notRParen, Node.gclose] ++ lits ")"

/-! ## The `strconv` package -/

/-- The two errors of `strconv`: `ErrSyntax` and `ErrRange`. -/
inductive NumErr where
  | ErrSyntax
  | ErrRange
  deriving DecidableEq, Repr

/-- The largest `uint64`. -/
def maxUint64 : Nat := 2 ^ 64 - 1

/-- The largest `int64`. -/
def maxInt64 : Int := 2 ^ 63 - 1

/-- The smallest `int64`. -/
def minInt64 : Int := -(2 ^ 63)

/-- The digit loop of `strconv.ParseUint(s, 10, 64)`, `n` being the `uint64`
accumulator: a byte that is not a decimal digit is a syntax error, an
accumulator at or above the cutoff `maxUint64/10 + 1`, or an addition that
wraps around, is a range error (with value `maxUint64`). -/
def parseUintLoop : Str → Nat → Nat × Option NumErr
  | [], n => (n, none)
  | c :: s, n =>
    if isDigit c then
      if n ≥ maxUint64 / 10 + 1 then (maxUint64, some NumErr.ErrRange)
      else
        let n10 := (n * 10) % 2 ^ 64
        let n1 := (n10 + (c.toNat - 48)) % 2 ^ 64
        if n1 < n10 ∨ n1 > maxUint64 then (maxUint64, some NumErr.ErrRange)
        else parseUintLoop s n1
    else (0, some NumErr.ErrSyntax)

/-- Go `strconv.ParseUint(s, 10, 64)`. -/
def ParseUint (s : Str) : Nat × Option NumErr :=
  match s with
  | [] => (0, some NumErr.ErrSyntax)
  | _ :: _ => parseUintLoop s 0

/-- Go `strconv.ParseInt(s, 10, 64)`: the value and the error (`none` is Go's
nil). -/
def ParseInt (s : Str) : Int × Option NumErr :=
  match s with
  | [] => (0, some NumErr.ErrSyntax)
  | c :: rest =>
    let neg := decide (c = '-')
    let body := if c = '+' ∨ c = '-' then rest else s
    match ParseUint body with
    | (_, some NumErr.ErrSyntax) => (0, some NumErr.ErrSyntax)
    | (un, _) =>
      if ¬ neg ∧ un ≥ 2 ^ 63 then (maxInt64, some NumErr.ErrRange)
      else if neg ∧ un > 2 ^ 63 then (minInt64, some NumErr.ErrRange)
      else if neg then (-(un : Int), none)
      else ((un : Int), none)

/-- Go `strconv.Atoi(s)` where `int` has 64 bits: the value and error of
`ParseInt(s, 10, 0)` (the fast path for short texts computes the same). -/
def Atoi (s : Str) : Int × Option NumErr := ParseInt s

/-- Go `error` values of the parser: a `*strconv.NumError`, or an error
wrapped by `fmt.Errorf("...: %w", err)`. -/
inductive Error where
  | num (kind : NumErr)
  | wrap (msg : String) (inner : Error)
  deriving DecidableEq, Repr

/-- Equality of results is decidable. -/
instance decEqExcept {ε α : Type} [DecidableEq ε] [DecidableEq α] :
    DecidableEq (Except ε α)
  | Except.ok a, Except.ok b =>
    if h : a = b then isTrue (h ▸ rfl) else isFalse (fun e => h (Except.ok.inj e))
  | Except.error a, Except.error b =>
    if h : a = b then isTrue (h ▸ rfl) else isFalse (fun e => h (Except.error.inj e))
  | Except.ok _, Except.error _ => isFalse (fun e => Except.noConfusion e)
  | Except.error _, Except.ok _ => isFalse (fun e => Except.noConfusion e)

/-! ## `models.go` -/

/-- Go `BitrateInfo`. -/
structure BitrateInfo where
  TotalBPS : Int
  NetBPS : Int
  deriving DecidableEq, Repr

/-- Go `PIDInfo`; the field `Type` is `PIDType` here. -/
structure PIDInfo where
  PID : Str
  PIDDecimal : Int
  PIDType : Str
  Codec : Str
  Language : Str
  IsSubtitle : Bool
  SubtitleType : Str
  deriving DecidableEq, Repr

/-- Go `ServiceInfo`. -/
structure ServiceInfo where
  ServiceName : Str
  Provider : Str
  TSID : Str
  ServiceType : Str
  deriving DecidableEq, Repr

/-- Go `StreamMetrics`.  `LastSeen` is an instant in nanoseconds; `CCErrors`
is the map from PID to error count, as a list of entries. -/
structure StreamMetrics where
  StreamURL : Str
  Description : Str
  Status : Bool
  LastSeen : Int
  Bitrate : BitrateInfo
  PIDs : List PIDInfo
  ServiceInfo : ServiceInfo
  CCErrors : List (Str × Int)
  TSID : Str
  deriving DecidableEq, Repr

/-- Go `StreamTypeMap`. -/
def StreamTypeMap : List (Str × Str) :=
  [ ("0x1B".toList, "h264".toList),
    ("0x10".toList, "mpeg4video".toList),
    ("0x24".toList, "hevc".toList),
    ("0x02".toList, "mpeg2video".toList),
    ("0x03".toList, "mpeg1audio".toList),
    ("0x04".toList, "mpeg2audio".toList),
    ("0x0F".toList, "aac".toList),
    ("0x11".toList, "aac_latm".toList),
    ("0x81".toList, "ac3".toList),
    ("0x87".toList, "eac3".toList),
    ("0x06".toList, "private".toList) ]

/-- Reading a Go `map[string]string`: the zero value `""` for an absent key. -/
def mapGet (m : List (Str × Str)) (k : Str) : Str :=
  match m with
  | [] => []
  | (k1, v) :: rest => if k = k1 then v else mapGet rest k

/-- Go `GetPIDType`. -/
def GetPIDType (streamType : Str) : Str :=
  if streamType = "0x1B".toList ∨ streamType = "0x10".toList ∨
      streamType = "0x24".toList ∨ streamType = "0x02".toList then
    "video".toList
  else if streamType = "0x03".toList ∨ streamType = "0x04".toList ∨
      streamType = "0x0F".toList ∨ streamType = "0x11".toList ∨
      streamType = "0x81".toList ∨ streamType = "0x87".toList then
    "audio".toList
  else if streamType = "0x06".toList then "data".toList
  else "other".toList

/-- Go `time.Time.Sub` on clock readings in nanoseconds: the difference,
saturated to the range of `time.Duration` (an `int64`). -/
def timeSub (t u : Int) : Int :=
  if t - u > maxInt64 then maxInt64
  else if t - u < minInt64 then minInt64
  else t - u

/-- The freshness threshold of `UpdateStatus`: `5 * time.Second`. -/
def timeout : Int := 5 * 1000000000

/-- Go `(*StreamMetrics).UpdateStatus`, with the reading of `time.Now()` as
the argument `now`. -/
def UpdateStatus (now : Int) (s : StreamMetrics) : StreamMetrics :=
  { s with
    Status := decide (s.Bitrate.TotalBPS > 0) &&
      decide (timeSub now s.LastSeen < timeout) &&
      decide (s.PIDs.length > 0) }

/-! ## `parser.go` -/

/-- Element `i` of a submatch slice (`matches[i]` in Go). -/
def sub (ms : List Str) (i : Nat) : Str := ms.getD i []

/-- Go `parseBitrate`. -/
def parseBitrate (output : Str) (metrics : StreamMetrics) : Except Error StreamMetrics :=
  let ms := FindStringSubmatch bitrateRegex output
  if ms.length = 0 then Except.ok metrics
  else
    let totalStr := ReplaceAll (sub ms 1) ',' []
    let netStr := ReplaceAll (sub ms 2) ',' []
    match ParseInt totalStr with
    | (_, some e) => Except.error (Error.wrap "failed to parse total bitrate" (Error.num e))
    | (total, none) =>
      match ParseInt netStr with
      | (_, some e) => Except.error (Error.wrap "failed to parse net bitrate" (Error.num e))
      | (net, none) =>
        Except.ok { metrics with Bitrate := { TotalBPS := total, NetBPS := net } }

/-- A Go `map[string]PIDInfo`: its entries, in the order of insertion, with
distinct keys. -/
abbrev PidMap := List (Str × PIDInfo)

/-- The test `_, exists := pidMap[k]`. -/
def mapHas (m : PidMap) (k : Str) : Bool := m.any (fun e => decide (e.1 = k))

/-- The assignment `pidMap[k] = v`. -/
def mapSet : PidMap → Str → PIDInfo → PidMap
  | [], k, v => [(k, v)]
  | (k1, v1) :: rest, k, v =>
    if k1 = k then (k1, v) :: rest else (k1, v1) :: mapSet rest k v

/-- The order in which a `range` over a Go map visits the entries: the
language leaves it unspecified, so it is any rearrangement of them. -/
structure MapOrder where
  range : PidMap → PidMap
  perm : ∀ m, (range m).Perm m

/-- The language code of a line: `languageRegex.FindStringSubmatch(line)`,
assigned to `pid.Language` when there is a match. -/
def setLanguage (pid : PIDInfo) (line : Str) : PIDInfo :=
  let langMatches := FindStringSubmatch languageRegex line
  if langMatches.length > 0 then { pid with Language := sub langMatches 1 } else pid

/-- The language step of the inner loop of `parsePIDs`, on line `l`:
`if strings.Contains(l, "Language:") && pid.Language == "" { ... }`. -/
def languageStep (pid : PIDInfo) (l : Str) : PIDInfo :=
  if Contains l "Language:".toList ∧ pid.Language = [] then setLanguage pid l else pid

/-- The subtitle step of the inner loop of `parsePIDs`, on line `l` followed by
the lines `rest`: `if strings.Contains(l, "Subtitling") && !pid.IsSubtitle { ... }`. -/
def subtitleStep (pid : PIDInfo) (l : Str) (rest : List Str) : PIDInfo :=
  if Contains l "Subtitling".toList ∧ pid.IsSubtitle = false then
    let p := { pid with IsSubtitle := true, SubtitleType := "dvb_subtitle".toList }
    match rest with
    | nxt :: _ => if Contains nxt "Language:".toList then setLanguage p nxt else p
    | [] => p
  else pid

/-- The inner loop of `parsePIDs` (`for j := i + 1; ...`), over the lines that
follow the declaration. -/
def scanWindow (pid : PIDInfo) : List Str → PIDInfo
  | [] => pid
  | l :: rest =>
    if Contains l "Elementary stream:".toList then pid
    else scanWindow (subtitleStep (languageStep pid l) l rest) rest

/-- The record `parsePIDs` builds from the submatches of a declaration line,
before the window is scanned. -/
def newPID (ms : List Str) : PIDInfo :=
  let streamType := sub ms 1
  let streamDesc := sub ms 2
  let pidHex := sub ms 3
  let pidDec := sub ms 4
  let pidDecInt := (Atoi pidDec).1
  let codec := mapGet StreamTypeMap streamType
  { PID := pidHex
    PIDDecimal := pidDecInt
    PIDType := GetPIDType streamType
    Codec := if codec = [] then ToLower (ReplaceAll streamDesc ' ' "_".toList) else codec
    Language := []
    IsSubtitle := false
    SubtitleType := [] }

/-- The outer loop of `parsePIDs` (`for i := 0; ...`), over the lines from
`i` on. -/
def scanLines (pidMap : PidMap) : List Str → PidMap
  | [] => pidMap
  | line :: rest =>
    let ms := FindStringSubmatch elementaryStreamRegex line
    if ms.length = 0 then scanLines pidMap rest
    else if mapHas pidMap (sub ms 3) then scanLines pidMap rest
    else scanLines (mapSet pidMap (sub ms 3) (scanWindow (newPID ms) rest)) rest

/-- Go `parsePIDs`; it never fails. -/
def parsePIDs (ord : MapOrder) (output : Str) (metrics : StreamMetrics) :
    Except Error StreamMetrics :=
  let lines := Split '\n' output
  let pidMap := scanLines [] lines
  Except.ok { metrics with PIDs := metrics.PIDs ++ (ord.range pidMap).map Prod.snd }

/-- Go `parseServiceInfo`. -/
def parseServiceInfo (output : Str) (metrics : StreamMetrics) : StreamMetrics :=
  let serviceMatches := FindStringSubmatch serviceRegex output
  let m1 :=
    if serviceMatches.length > 0 then
      { metrics with
        ServiceInfo := { metrics.ServiceInfo with
          ServiceName := sub serviceMatches 1, Provider := sub serviceMatches 2 } }
    else metrics
  let tsidMatches := FindStringSubmatch tsidRegex output
  let m2 :=
    if tsidMatches.length > 0 then
      { m1 with
        ServiceInfo := { m1.ServiceInfo with TSID := sub tsidMatches 1 },
        TSID := sub tsidMatches 1 }
    else m1
  let typeMatches := FindStringSubmatch serviceTypeRegex output
  if typeMatches.length > 0 then
    let serviceType := sub typeMatches 2
    if Contains (ToUpper serviceType) "HD".toList then
      { m2 with ServiceInfo := { m2.ServiceInfo with ServiceType := "HD".toList } }
    else if Contains (ToUpper serviceType) "SD".toList then
      { m2 with ServiceInfo := { m2.ServiceInfo with ServiceType := "SD".toList } }
    else
      { m2 with ServiceInfo := { m2.ServiceInfo with ServiceType := "SD".toList } }
  else m2

/-- Go `ParseOutput`.  `now0` is the reading of `time.Now()` when the
snapshot is built, `now1` the one inside `UpdateStatus`. -/
def ParseOutput (ord : MapOrder) (output streamURL description : Str) (now0 now1 : Int) :
    Except Error StreamMetrics :=
  let metrics : StreamMetrics :=
    { StreamURL := streamURL
      Description := description
      Status := false
      LastSeen := now0
      Bitrate := { TotalBPS := 0, NetBPS := 0 }
      PIDs := []
      ServiceInfo := { ServiceName := [], Provider := [], TSID := [], ServiceType := [] }
      CCErrors := []
      TSID := [] }
  match parseBitrate output metrics with
  | Except.error err => Except.error (Error.wrap "failed to parse bitrate" err)
  | Except.ok m1 =>
    match parsePIDs ord output m1 with
    | Except.error err => Except.error (Error.wrap "failed to parse PIDs" err)
    | Except.ok m2 => Except.ok (UpdateStatus now1 (parseServiceInfo output m2))

/-- The report `testOutput1` of `parser_test.go`. -/
def testOutput1 : Str :=
  ("* bitrate_monitor: 2026/01/26 22:38:39, TS bitrate: 5,077,945 bits/s, net bitrate: 4,758,039 bits/s\n" ++
   "\n" ++
   "* SDT Actual, TID 0x42 (66), PID 0x0011 (17)\n" ++
   "  Transport Stream Id: 0x000C (12)\n" ++
   "  Service: \"Silk Way\", Provider: \"OTCNET\"\n" ++
   "  Service type: 0x19 (Advanced codec HD digital television service)\n" ++
   "\n" ++
   "* PMT, TID 0x02 (2), PID 0x012E (302)\n" ++
   "  Program: 0x03E8 (1000), PCR PID: 0x0066 (102)\n" ++
   "  Elementary stream: type 0x1B (AVC video), PID: 0x0066 (102)\n" ++
   "  Elementary stream: type 0x03 (MPEG-1 Audio), PID: 0x00CA (202)\n" ++
   "  - Descriptor 0: ISO-639 Language (0x0A, 10), 4 bytes\n" ++
   "    Language: rus, Type: 0x00 (undefined)\n" ++
   "  Elementary stream: type 0x03 (MPEG-1 Audio), PID: 0x012F (303)\n" ++
   "  - Descriptor 0: ISO-639 Language (0x0A, 10), 4 bytes\n" ++
   "    Language: kaz, Type: 0x00 (undefined)").toList

/-! ## Notions of the specification -/

/-- The decimal value of a text of digits. -/
def decimalValue (s : Str) : Nat :=
  s.foldl (fun a c => a * 10 + (c.toNat - 48)) 0

/-- The text with every comma deleted. -/
def deleteCommas (s : Str) : Str := s.filter (fun c => decide (c ≠ ','))

/-- The pieces of a text between its occurrences of a separator. -/
def pieces (sep : Char) : Str → List Str
  | [] => [[]]
  | c :: s =>
    if c = sep then [] :: pieces sep s
    else
      match pieces sep s with
      | [] => [[c]]
      | g :: gs => (c :: g) :: gs

/-- A digit group with thousands separators: one to three digits, then any
number of groups of a comma and exactly three digits (`5,077,945`). -/
def isGrouped (s : Str) : Bool :=
  match pieces ',' s with
  | [] => false
  | g :: gs =>
    decide (1 ≤ g.length ∧ g.length ≤ 3) && g.all isDigit &&
      gs.all (fun r => decide (r.length = 3) && r.all isDigit)

/-- A valid base-10 signed 64-bit integer: an optional sign, one or more
digits, and a value from `-2^63` to `2^63 - 1`. -/
def isInt64Text (s : Str) : Bool :=
  match s with
  | [] => false
  | c :: rest =>
    if c = '-' then
      decide (rest ≠ []) && rest.all isDigit && decide (decimalValue rest ≤ 2 ^ 63)
    else if c = '+' then
      decide (rest ≠ []) && rest.all isDigit && decide (decimalValue rest ≤ 2 ^ 63 - 1)
    else
      s.all isDigit && decide (decimalValue s ≤ 2 ^ 63 - 1)

/-- The bitrate pattern matches somewhere in the text, with these two fields. -/
def BitrateMatchIn (output f1 f2 : Str) : Prop :=
  ∃ pre post w, output = pre ++ post ∧ matchAt bitrateRegex post = [w, f1, f2]

/-- The description contains `HD` in some letter case. -/
def containsHD (d : Str) : Bool :=
  Contains d "hd".toList || Contains d "Hd".toList ||
    Contains d "hD".toList || Contains d "HD".toList

/-- The capital letters of Unicode that have a small letter: every character
with a lower-case form other than itself, in code point order. -/
def capitalLetters : Str :=
  ("ABCDEFGHIJKLMNOPQRSTUVWXYZÀÁÂÃÄÅÆÇÈÉÊËÌÍÎÏÐÑÒÓÔÕÖØÙÚÛÜÝÞĀĂĄĆ" ++
   "ĈĊČĎĐĒĔĖĘĚĜĞĠĢĤĦĨĪĬĮİĲĴĶĹĻĽĿŁŃŅŇŊŌŎŐŒŔŖŘŚŜŞŠŢŤŦŨŪŬŮŰŲŴŶŸŹŻŽƁ" ++
   "ƂƄƆƇƉƊƋƎƏƐƑƓƔƖƗƘƜƝƟƠƢƤƦƧƩƬƮƯƱƲƳƵƷƸƼǄǅǇǈǊǋǍǏǑǓǕǗǙǛǞǠǢǤǦǨǪǬǮǱǲ" ++
   "ǴǶǷǸǺǼǾȀȂȄȆȈȊȌȎȐȒȔȖȘȚȜȞȠȢȤȦȨȪȬȮȰȲȺȻȽȾɁɃɄɅɆɈɊɌɎͰͲͶͿΆΈΉΊΌΎΏΑΒΓ" ++
   "ΔΕΖΗΘΙΚΛΜΝΞΟΠΡΣΤΥΦΧΨΩΪΫϏϘϚϜϞϠϢϤϦϨϪϬϮϴϷϹϺϽϾϿЀЁЂЃЄЅІЇЈЉЊЋЌЍЎЏА" ++
   "БВГДЕЖЗИЙКЛМНОПРСТУФХЦЧШЩЪЫЬЭЮЯѠѢѤѦѨѪѬѮѰѲѴѶѸѺѼѾҀҊҌҎҐҒҔҖҘҚҜҞҠ" ++
   "ҢҤҦҨҪҬҮҰҲҴҶҸҺҼҾӀӁӃӅӇӉӋӍӐӒӔӖӘӚӜӞӠӢӤӦӨӪӬӮӰӲӴӶӸӺӼӾԀԂԄԆԈԊԌԎԐԒԔԖԘ" ++
   "ԚԜԞԠԢԤԦԨԪԬԮԱԲԳԴԵԶԷԸԹԺԻԼԽԾԿՀՁՂՃՄՅՆՇՈՉՊՋՌՍՎՏՐՑՒՓՔՕՖႠႡႢႣႤႥႦႧႨႩႪ" ++
   "ႫႬႭႮႯႰႱႲႳႴႵႶႷႸႹႺႻႼႽႾႿჀჁჂჃჄჅჇჍᎠᎡᎢᎣᎤᎥᎦᎧᎨᎩᎪᎫᎬᎭᎮᎯᎰᎱᎲᎳᎴᎵᎶᎷᎸᎹᎺᎻᎼᎽᎾ" ++
   "ᎿᏀᏁᏂᏃᏄᏅᏆᏇᏈᏉᏊᏋᏌᏍᏎᏏᏐᏑᏒᏓᏔᏕᏖᏗᏘᏙᏚᏛᏜᏝᏞᏟᏠᏡᏢᏣᏤᏥᏦᏧᏨᏩᏪᏫᏬᏭᏮᏯᏰᏱᏲᏳᏴᏵᲐᲑᲒᲓᲔ" ++
   "ᲕᲖᲗᲘᲙᲚᲛᲜᲝᲞᲟᲠᲡᲢᲣᲤᲥᲦᲧᲨᲩᲪᲫᲬᲭᲮᲯᲰᲱᲲᲳᲴᲵᲶᲷᲸᲹᲺᲽᲾᲿḀḂḄḆḈḊḌḎḐḒḔḖḘḚḜḞḠḢḤ" ++
   "ḦḨḪḬḮḰḲḴḶḸḺḼḾṀṂṄṆṈṊṌṎṐṒṔṖṘṚṜṞṠṢṤṦṨṪṬṮṰṲṴṶṸṺṼṾẀẂẄẆẈẊẌẎẐẒẔẞẠẢẤ" ++
   "ẦẨẪẬẮẰẲẴẶẸẺẼẾỀỂỄỆỈỊỌỎỐỒỔỖỘỚỜỞỠỢỤỦỨỪỬỮỰỲỴỶỸỺỼỾἈἉἊἋἌἍἎἏἘἙἚἛἜἝἨ" ++
   "ἩἪἫἬἭἮἯἸἹἺἻἼἽἾἿὈὉὊὋὌὍὙὛὝὟὨὩὪὫὬὭὮὯᾈᾉᾊᾋᾌᾍᾎᾏᾘᾙᾚᾛᾜᾝᾞᾟᾨᾩᾪᾫᾬᾭᾮᾯᾸᾹᾺ" ++
   "ΆᾼῈΈῊΉῌῘῙῚΊῨῩῪΎῬῸΌῺΏῼΩKÅℲⅠⅡⅢⅣⅤⅥⅦⅧⅨⅩⅪⅫⅬⅭⅮⅯↃⒶⒷⒸⒹⒺⒻⒼⒽⒾⒿⓀⓁⓂⓃⓄⓅⓆⓇ" ++
   "ⓈⓉⓊⓋⓌⓍⓎⓏⰀⰁⰂⰃⰄⰅⰆⰇⰈⰉⰊⰋⰌⰍⰎⰏⰐⰑⰒⰓⰔⰕⰖⰗⰘⰙⰚⰛⰜⰝⰞⰟⰠⰡⰢⰣⰤⰥⰦⰧⰨⰩⰪⰫⰬⰭⰮⰯⱠⱢⱣⱤ" ++
   "ⱧⱩⱫⱭⱮⱯⱰⱲⱵⱾⱿⲀⲂⲄⲆⲈⲊⲌⲎⲐⲒⲔⲖⲘⲚⲜⲞⲠⲢⲤⲦⲨⲪⲬⲮⲰⲲⲴⲶⲸⲺⲼⲾⳀⳂⳄⳆⳈⳊⳌⳎⳐⳒⳔⳖⳘⳚⳜⳞⳠ" ++
   "ⳢⳫⳭⳲꙀꙂꙄꙆꙈꙊꙌꙎꙐꙒꙔꙖꙘꙚꙜꙞꙠꙢꙤꙦꙨꙪꙬꚀꚂꚄꚆꚈꚊꚌꚎꚐꚒꚔꚖꚘꚚꜢꜤꜦꜨꜪꜬꜮꜲꜴꜶꜸꜺꜼꜾꝀꝂꝄꝆꝈ" ++
   "ꝊꝌꝎꝐꝒꝔꝖꝘꝚꝜꝞꝠꝢꝤꝦꝨꝪꝬꝮꝹꝻꝽꝾꞀꞂꞄꞆꞋꞍꞐꞒꞖꞘꞚꞜꞞꞠꞢꞤꞦꞨꞪꞫꞬꞭꞮꞰꞱꞲꞳꞴꞶꞸꞺꞼꞾꟀꟂꟄꟅ" ++
   "ꟆꟇꟉꟐꟖꟘꟵＡＢＣＤＥＦＧＨＩＪＫＬＭＮＯＰＱＲＳＴＵＶＷＸＹＺ𐐀𐐁𐐂𐐃𐐄𐐅𐐆𐐇𐐈𐐉𐐊𐐋𐐌𐐍𐐎𐐏𐐐𐐑𐐒𐐓𐐔𐐕𐐖𐐗𐐘𐐙𐐚" ++
   "𐐛𐐜𐐝𐐞𐐟𐐠𐐡𐐢𐐣𐐤𐐥𐐦𐐧𐒰𐒱𐒲𐒳𐒴𐒵𐒶𐒷𐒸𐒹𐒺𐒻𐒼𐒽𐒾𐒿𐓀𐓁𐓂𐓃𐓄𐓅𐓆𐓇𐓈𐓉𐓊𐓋𐓌𐓍𐓎𐓏𐓐𐓑𐓒𐓓𐕰𐕱𐕲𐕳𐕴𐕵𐕶𐕷𐕸𐕹𐕺" ++
   "𐕼𐕽𐕾𐕿𐖀𐖁𐖂𐖃𐖄𐖅𐖆𐖇𐖈𐖉𐖊𐖌𐖍𐖎𐖏𐖐𐖑𐖒𐖔𐖕𐲀𐲁𐲂𐲃𐲄𐲅𐲆𐲇𐲈𐲉𐲊𐲋𐲌𐲍𐲎𐲏𐲐𐲑𐲒𐲓𐲔𐲕𐲖𐲗𐲘𐲙𐲚𐲛𐲜𐲝𐲞𐲟𐲠𐲡𐲢𐲣" ++
   "𐲤𐲥𐲦𐲧𐲨𐲩𐲪𐲫𐲬𐲭𐲮𐲯𐲰𐲱𐲲𑢠𑢡𑢢𑢣𑢤𑢥𑢦𑢧𑢨𑢩𑢪𑢫𑢬𑢭𑢮𑢯𑢰𑢱𑢲𑢳𑢴𑢵𑢶𑢷𑢸𑢹𑢺𑢻𑢼𑢽𑢾𑢿𖹀𖹁𖹂𖹃𖹄𖹅𖹆𖹇𖹈𖹉𖹊𖹋𖹌" ++
   "𖹍𖹎𖹏𖹐𖹑𖹒𖹓𖹔𖹕𖹖𖹗𖹘𖹙𖹚𖹛𖹜𖹝𖹞𖹟𞤀𞤁𞤂𞤃𞤄𞤅𞤆𞤇𞤈𞤉𞤊𞤋𞤌𞤍𞤎𞤏𞤐𞤑𞤒𞤓𞤔𞤕𞤖𞤗𞤘𞤙𞤚𞤛𞤜𞤝𞤞𞤟𞤠𞤡").toList

/-- The small letters of the characters of `capitalLetters`, position by
position. -/
def smallLetters : Str :=
  ("abcdefghijklmnopqrstuvwxyzàáâãäåæçèéêëìíîïðñòóôõöøùúûüýþāăąć" ++
   "ĉċčďđēĕėęěĝğġģĥħĩīĭįiĳĵķĺļľŀłńņňŋōŏőœŕŗřśŝşšţťŧũūŭůűųŵŷÿźżžɓ" ++
   "ƃƅɔƈɖɗƌǝəɛƒɠɣɩɨƙɯɲɵơƣƥʀƨʃƭʈưʊʋƴƶʒƹƽǆǆǉǉǌǌǎǐǒǔǖǘǚǜǟǡǣǥǧǩǫǭǯǳǳ" ++
   "ǵƕƿǹǻǽǿȁȃȅȇȉȋȍȏȑȓȕȗșțȝȟƞȣȥȧȩȫȭȯȱȳⱥȼƚⱦɂƀʉʌɇɉɋɍɏͱͳͷϳάέήίόύώαβγ" ++
   "δεζηθικλμνξοπρστυφχψωϊϋϗϙϛϝϟϡϣϥϧϩϫϭϯθϸϲϻͻͼͽѐёђѓєѕіїјљњћќѝўџа" ++
   "бвгдежзийклмнопрстуфхцчшщъыьэюяѡѣѥѧѩѫѭѯѱѳѵѷѹѻѽѿҁҋҍҏґғҕҗҙқҝҟҡ" ++
   "ңҥҧҩҫҭүұҳҵҷҹһҽҿӏӂӄӆӈӊӌӎӑӓӕӗәӛӝӟӡӣӥӧөӫӭӯӱӳӵӷӹӻӽӿԁԃԅԇԉԋԍԏԑԓԕԗԙ" ++
   "ԛԝԟԡԣԥԧԩԫԭԯաբգդեզէըթժիլխծկհձղճմյնշոչպջռսվտրցւփքօֆⴀⴁⴂⴃⴄⴅⴆⴇⴈⴉⴊ" ++
   "ⴋⴌⴍⴎⴏⴐⴑⴒⴓⴔⴕⴖⴗⴘⴙⴚⴛⴜⴝⴞⴟⴠⴡⴢⴣⴤⴥⴧⴭꭰꭱꭲꭳꭴꭵꭶꭷꭸꭹꭺꭻꭼꭽꭾꭿꮀꮁꮂꮃꮄꮅꮆꮇꮈꮉꮊꮋꮌꮍꮎ" ++
   "ꮏꮐꮑꮒꮓꮔꮕꮖꮗꮘꮙꮚꮛꮜꮝꮞꮟꮠꮡꮢꮣꮤꮥꮦꮧꮨꮩꮪꮫꮬꮭꮮꮯꮰꮱꮲꮳꮴꮵꮶꮷꮸꮹꮺꮻꮼꮽꮾꮿᏸᏹᏺᏻᏼᏽაბგდე" ++
   "ვზთიკლმნოპჟრსტუფქღყშჩცძწჭხჯჰჱჲჳჴჵჶჷჸჹჺჽჾჿḁḃḅḇḉḋḍḏḑḓḕḗḙḛḝḟḡḣḥ" ++
   "ḧḩḫḭḯḱḳḵḷḹḻḽḿṁṃṅṇṉṋṍṏṑṓṕṗṙṛṝṟṡṣṥṧṩṫṭṯṱṳṵṷṹṻṽṿẁẃẅẇẉẋẍẏẑẓẕßạảấ" ++
   "ầẩẫậắằẳẵặẹẻẽếềểễệỉịọỏốồổỗộớờởỡợụủứừửữựỳỵỷỹỻỽỿἀἁἂἃἄἅἆἇἐἑἒἓἔἕἠ" ++
   "ἡἢἣἤἥἦἧἰἱἲἳἴἵἶἷὀὁὂὃὄὅὑὓὕὗὠὡὢὣὤὥὦὧᾀᾁᾂᾃᾄᾅᾆᾇᾐᾑᾒᾓᾔᾕᾖᾗᾠᾡᾢᾣᾤᾥᾦᾧᾰᾱὰ" ++
   "άᾳὲέὴήῃῐῑὶίῠῡὺύῥὸόὼώῳωkåⅎⅰⅱⅲⅳⅴⅵⅶⅷⅸⅹⅺⅻⅼⅽⅾⅿↄⓐⓑⓒⓓⓔⓕⓖⓗⓘⓙⓚⓛⓜⓝⓞⓟⓠⓡ" ++
   "ⓢⓣⓤⓥⓦⓧⓨⓩⰰⰱⰲⰳⰴⰵⰶⰷⰸⰹⰺⰻⰼⰽⰾⰿⱀⱁⱂⱃⱄⱅⱆⱇⱈⱉⱊⱋⱌⱍⱎⱏⱐⱑⱒⱓⱔⱕⱖⱗⱘⱙⱚⱛⱜⱝⱞⱟⱡɫᵽɽ" ++
   "ⱨⱪⱬɑɱɐɒⱳⱶȿɀⲁⲃⲅⲇⲉⲋⲍⲏⲑⲓⲕⲗⲙⲛⲝⲟⲡⲣⲥⲧⲩⲫⲭⲯⲱⲳⲵⲷⲹⲻⲽⲿⳁⳃⳅⳇⳉⳋⳍⳏⳑⳓⳕⳗⳙⳛⳝⳟⳡ" ++
   "ⳣⳬⳮⳳꙁꙃꙅꙇꙉꙋꙍꙏꙑꙓꙕꙗꙙꙛꙝꙟꙡꙣꙥꙧꙩꙫꙭꚁꚃꚅꚇꚉꚋꚍꚏꚑꚓꚕꚗꚙꚛꜣꜥꜧꜩꜫꜭꜯꜳꜵꜷꜹꜻꜽꜿꝁꝃꝅꝇꝉ" ++
   "ꝋꝍꝏꝑꝓꝕꝗꝙꝛꝝꝟꝡꝣꝥꝧꝩꝫꝭꝯꝺꝼᵹꝿꞁꞃꞅꞇꞌɥꞑꞓꞗꞙꞛꞝꞟꞡꞣꞥꞧꞩɦɜɡɬɪʞʇʝꭓꞵꞷꞹꞻꞽꞿꟁꟃꞔʂ" ++
   "ᶎꟈꟊꟑꟗꟙꟶａｂｃｄｅｆｇｈｉｊｋｌｍｎｏｐｑｒｓｔｕｖｗｘｙｚ𐐨𐐩𐐪𐐫𐐬𐐭𐐮𐐯𐐰𐐱𐐲𐐳𐐴𐐵𐐶𐐷𐐸𐐹𐐺𐐻𐐼𐐽𐐾𐐿𐑀𐑁𐑂" ++
   "𐑃𐑄𐑅𐑆𐑇𐑈𐑉𐑊𐑋𐑌𐑍𐑎𐑏𐓘𐓙𐓚𐓛𐓜𐓝𐓞𐓟𐓠𐓡𐓢𐓣𐓤𐓥𐓦𐓧𐓨𐓩𐓪𐓫𐓬𐓭𐓮𐓯𐓰𐓱𐓲𐓳𐓴𐓵𐓶𐓷𐓸𐓹𐓺𐓻𐖗𐖘𐖙𐖚𐖛𐖜𐖝𐖞𐖟𐖠𐖡" ++
   "𐖣𐖤𐖥𐖦𐖧𐖨𐖩𐖪𐖫𐖬𐖭𐖮𐖯𐖰𐖱𐖳𐖴𐖵𐖶𐖷𐖸𐖹𐖻𐖼𐳀𐳁𐳂𐳃𐳄𐳅𐳆𐳇𐳈𐳉𐳊𐳋𐳌𐳍𐳎𐳏𐳐𐳑𐳒𐳓𐳔𐳕𐳖𐳗𐳘𐳙𐳚𐳛𐳜𐳝𐳞𐳟𐳠𐳡𐳢𐳣" ++
   "𐳤𐳥𐳦𐳧𐳨𐳩𐳪𐳫𐳬𐳭𐳮𐳯𐳰𐳱𐳲𑣀𑣁𑣂𑣃𑣄𑣅𑣆𑣇𑣈𑣉𑣊𑣋𑣌𑣍𑣎𑣏𑣐𑣑𑣒𑣓𑣔𑣕𑣖𑣗𑣘𑣙𑣚𑣛𑣜𑣝𑣞𑣟𖹠𖹡𖹢𖹣𖹤𖹥𖹦𖹧𖹨𖹩𖹪𖹫𖹬" ++
   "𖹭𖹮𖹯𖹰𖹱𖹲𖹳𖹴𖹵𖹶𖹷𖹸𖹹𖹺𖹻𖹼𖹽𖹾𖹿𞤢𞤣𞤤𞤥𞤦𞤧𞤨𞤩𞤪𞤫𞤬𞤭𞤮𞤯𞤰𞤱𞤲𞤳𞤴𞤵𞤶𞤷𞤸𞤹𞤺𞤻𞤼𞤽𞤾𞤿𞥀𞥁𞥂𞥃").toList

/-- The letter of `ls` at the position that `c` has in `us`; `c` itself when
it does not occur in `us`. -/
def smallOf : Str → Str → Char → Char
  | u :: us, l :: ls, c => if c = u then l else smallOf us ls c
  | _, _, c => c

/-- A character in lower case: the small letter of a capital letter, and every
other character as it is. -/
def lowerCased (c : Char) : Char := smallOf capitalLetters smallLetters c

/-- The second component of the first pair with first component `n`; `n`
itself when there is none. -/
def imageOf : List (Nat × Nat) → Nat → Nat
  | [], n => n
  | (u, l) :: ps, n => if n = u then l else imageOf ps n

/-- The runes of a case range that differ from their lower case, each with its
lower case. -/
def rangePairs (r : Nat × Nat × Int) : List (Nat × Nat) :=
  ((List.range' r.1 (r.2.1 + 1 - r.1)).map (fun n => (n, toLowerCase n [r]))).filter
    (fun p => decide (p.1 ≠ p.2))

/-- The runes of a list of case ranges that differ from their lower case, each
with its lower case. -/
def allPairs (rs : List (Nat × Nat × Int)) : List (Nat × Nat) := rs.flatMap rangePairs

/-- The case ranges are in ascending order, disjoint and above `b`. -/
def sortedFrom : Nat → List (Nat × Nat × Int) → Bool
  | _, [] => true
  | b, (lo, hi, _) :: rest => decide (b < lo) && decide (lo ≤ hi) && sortedFrom hi rest

/-- The normalized description: lower-cased, every space an underscore. -/
def normalizedDesc (d : Str) : Str :=
  d.map (fun c => if c = ' ' then '_' else lowerCased c)

/-- The documented type codes with their semantic class and codec name. -/
def documentedTypes : List (Str × Str × Str) :=
  [ ("0x1B".toList, "video".toList, "h264".toList),
    ("0x10".toList, "video".toList, "mpeg4video".toList),
    ("0x24".toList, "video".toList, "hevc".toList),
    ("0x02".toList, "video".toList, "mpeg2video".toList),
    ("0x03".toList, "audio".toList, "mpeg1audio".toList),
    ("0x04".toList, "audio".toList, "mpeg2audio".toList),
    ("0x0F".toList, "audio".toList, "aac".toList),
    ("0x11".toList, "audio".toList, "aac_latm".toList),
    ("0x81".toList, "audio".toList, "ac3".toList),
    ("0x87".toList, "audio".toList, "eac3".toList),
    ("0x06".toList, "data".toList, "private".toList) ]

/-- The class and codec the specification gives a declaration with type code
`t` and description `d`. -/
def specClassCodec (t d : Str) : Str × Str :=
  match documentedTypes.find? (fun e => decide (t = e.1)) with
  | some e => e.2
  | none => ("other".toList, normalizedDesc d)

/-- A map order that visits the entries in the order of insertion. -/
def MapOrder.insertion : MapOrder := ⟨fun m => m, fun m => List.Perm.refl m⟩

/-- A map order that visits the entries in the reverse order of insertion. -/
def MapOrder.reversed : MapOrder := ⟨fun m => m.reverse, fun m => List.reverse_perm m⟩

/-- A fresh snapshot, as `ParseOutput` builds it and as the tests build it
(`&StreamMetrics{}`). -/
def emptyMetrics : StreamMetrics :=
  { StreamURL := []
    Description := []
    Status := false
    LastSeen := 0
    Bitrate := { TotalBPS := 0, NetBPS := 0 }
    PIDs := []
    ServiceInfo := { ServiceName := [], Provider := [], TSID := [], ServiceType := [] }
    CCErrors := []
    TSID := [] }

/-- The decimal value continued from an accumulator. -/
def decAcc (n : Nat) (s : Str) : Nat :=
  s.foldl (fun a c => a * 10 + (c.toNat - 48)) n

/-- A report whose total bitrate is `2^63`, written with thousands separators. -/
def overflowReport : Str :=
  "TS bitrate: 9,223,372,036,854,775,808 bits/s, net bitrate: 1 bits/s".toList

/-- The leftmost match of the bitrate pattern has a total or net field that,
with its commas removed, is not a valid base-10 signed 64-bit integer. -/
def MalformedFirstBitrate (output : Str) : Prop :=
  FindStringSubmatch bitrateRegex output ≠ [] ∧
    (isInt64Text (deleteCommas (sub (FindStringSubmatch bitrateRegex output) 1)) = false ∨
     isInt64Text (deleteCommas (sub (FindStringSubmatch bitrateRegex output) 2)) = false)

/-- A report with a well-formed bitrate line followed by one whose total field
consists of a comma only. -/
def twoBitrateLines : Str :=
  ("TS bitrate: 1 bits/s, net bitrate: 1 bits/s\n" ++
   "TS bitrate: , bits/s, net bitrate: 1 bits/s").toList

/-- A report that declares PID 102 twice, with different hex text. -/
def twoSpellings : Str :=
  ("  Elementary stream: type 0x1B (AVC video), PID: 0x66 (102)\n" ++
   "  Elementary stream: type 0x1B (AVC video), PID: 0x0066 (102)").toList

/-- A report that declares PID `0x0066` twice, with different type, number,
and language. -/
def redeclared : Str :=
  ("  Elementary stream: type 0x1B (AVC video), PID: 0x0066 (102)\n" ++
   "  - Descriptor 0: ISO-639 Language (0x0A, 10), 4 bytes\n" ++
   "    Language: rus, Type: 0x00 (undefined)\n" ++
   "  Elementary stream: type 0x03 (MPEG-1 Audio), PID: 0x0066 (7)\n" ++
   "    Language: kaz, Type: 0x00 (undefined)").toList

/-- The entries of a map under one key. -/
def entriesFor (h : Str) (m : PidMap) : PidMap := m.filter (fun e => decide (e.1 = h))

/-- The first declaration line of the report `redeclared`. -/
def redeclaredFirst : Str :=
  "  Elementary stream: type 0x1B (AVC video), PID: 0x0066 (102)".toList

/-- The lines of the report `redeclared` after the first one. -/
def redeclaredRest : List Str :=
  [ "  - Descriptor 0: ISO-639 Language (0x0A, 10), 4 bytes".toList,
    "    Language: rus, Type: 0x00 (undefined)".toList,
    "  Elementary stream: type 0x03 (MPEG-1 Audio), PID: 0x0066 (7)".toList,
    "    Language: kaz, Type: 0x00 (undefined)".toList ]

/-- The fields of a record that the window scan does not touch. -/
def SameIdentity (q p : PIDInfo) : Prop :=
  q.PID = p.PID ∧ q.PIDDecimal = p.PIDDecimal ∧ q.PIDType = p.PIDType ∧ q.Codec = p.Codec

/-- The type codes of the video class. -/
def videoCodes : List Str := ["0x1B".toList, "0x10".toList, "0x24".toList, "0x02".toList]

/-- The type codes of the audio class. -/
def audioCodes : List Str :=
  ["0x03".toList, "0x04".toList, "0x0F".toList, "0x11".toList, "0x81".toList, "0x87".toList]

/-- The snapshot `ParseOutput` starts from. -/
def initialMetrics (streamURL description : Str) (now0 : Int) : StreamMetrics :=
  { StreamURL := streamURL
    Description := description
    Status := false
    LastSeen := now0
    Bitrate := { TotalBPS := 0, NetBPS := 0 }
    PIDs := []
    ServiceInfo := { ServiceName := [], Provider := [], TSID := [], ServiceType := [] }
    CCErrors := []
    TSID := [] }

/-- A report whose service-type line has an empty description. -/
def emptyServiceType : Str := "  Service type: 0x01 ()".toList

/-- The three PID records of the test report. -/
def fixturePIDs : List (Str × PIDInfo) :=
  [ ("0x0066".toList,
      { PID := "0x0066".toList, PIDDecimal := 102, PIDType := "video".toList,
        Codec := "h264".toList, Language := [], IsSubtitle := false, SubtitleType := [] }),
    ("0x00CA".toList,
      { PID := "0x00CA".toList, PIDDecimal := 202, PIDType := "audio".toList,
        Codec := "mpeg1audio".toList, Language := "rus".toList, IsSubtitle := false,
        SubtitleType := [] }),
    ("0x012F".toList,
      { PID := "0x012F".toList, PIDDecimal := 303, PIDType := "audio".toList,
        Codec := "mpeg1audio".toList, Language := "kaz".toList, IsSubtitle := false,
        SubtitleType := [] }) ]

/-! ## `config.go` -/

/-- Go `config.Stream`. -/
structure Stream where
  URL : Str
  Description : Str
  deriving DecidableEq, Repr

/-- Go `config.Config`; `MetricsPort` is a Go `int`, `Timeout` a
`time.Duration` in nanoseconds. -/
structure Config where
  Interface : Str
  MetricsPort : Int
  Timeout : Int
  Streams : List Stream
  deriving DecidableEq, Repr

/-- The errors `Validate` builds with `fmt.Errorf`. -/
inductive ConfigError where
  | interfaceRequired
  | invalidMetricsPort (port : Int)
  | noStreams
  | urlRequired (i : Nat)
  | descriptionRequired (i : Nat)
  deriving DecidableEq, Repr

/-- The loop of `Validate` over the streams, from index `i` on. -/
def validateStreams : Nat → List Stream → Option ConfigError
  | _, [] => none
  | i, stream :: rest =>
    if stream.URL = [] then some (ConfigError.urlRequired i)
    else if stream.Description = [] then some (ConfigError.descriptionRequired i)
    else validateStreams (i + 1) rest

/-- Go `(*Config).Validate`: the configuration as the call leaves it (the
timeout may get its default) and the error (`none` is Go's nil). -/
def Config.Validate (c : Config) : Config × Option ConfigError :=
  if c.Interface = [] then (c, some ConfigError.interfaceRequired)
  else if c.MetricsPort ≤ 0 ∨ c.MetricsPort > 65535 then
    (c, some (ConfigError.invalidMetricsPort c.MetricsPort))
  else
    let c1 := if c.Timeout = 0 then { c with Timeout := 10 * 1000000000 } else c
    if c1.Streams.length = 0 then (c1, some ConfigError.noStreams)
    else (c1, validateStreams 0 c1.Streams)

/-- The case `valid config` of `TestValidate`. -/
def testValidConfig : Config :=
  { Interface := "172.22.2.154".toList, MetricsPort := 9090, Timeout := 10 * 1000000000,
    Streams := [{ URL := "233.198.134.1:3333".toList, Description := "Test".toList }] }

/-- The case `missing interface` of `TestValidate`. -/
def testMissingInterface : Config :=
  { Interface := [], MetricsPort := 9090, Timeout := 0,
    Streams := [{ URL := "233.198.134.1:3333".toList, Description := "Test".toList }] }

/-- The case `invalid port` of `TestValidate`. -/
def testInvalidPort : Config :=
  { Interface := "172.22.2.154".toList, MetricsPort := 99999, Timeout := 0,
    Streams := [{ URL := "233.198.134.1:3333".toList, Description := "Test".toList }] }

/-- The case `no streams` of `TestValidate`. -/
def testNoStreams : Config :=
  { Interface := "172.22.2.154".toList, MetricsPort := 9090, Timeout := 0, Streams := [] }

/-! ## `runner.go`: the watchdog snapshot and the line buffer -/

/-- The snapshot the watchdog of `runTSP` builds (`offlineMetrics`); the fields
the literal leaves out have their zero values. -/
def offlineMetrics (streamURL description : Str) (lastUpdate : Int) : StreamMetrics :=
  { StreamURL := streamURL
    Description := description
    Status := false
    LastSeen := lastUpdate
    Bitrate := { TotalBPS := 0, NetBPS := 0 }
    PIDs := []
    ServiceInfo := { ServiceName := [], Provider := [], TSID := [], ServiceType := [] }
    CCErrors := []
    TSID := [] }

/-- One tick of the watchdog of `runTSP`, up to the non-blocking send: the
snapshot it builds when `time.Since(lastUpdate) > 10*time.Second`, with `now`
the reading of `time.Now()`. -/
def watchdogSnapshot (streamURL description : Str) (now lastUpdate : Int) :
    Option StreamMetrics :=
  if timeSub now lastUpdate > 10 * 1000000000 then
    some (offlineMetrics streamURL description lastUpdate)
  else none

/-- The content of the `strings.Builder` of `runTSP`: a sequence of bytes. -/
abbrev Bytes := List (Fin 256)

/-- Go `strings.HasPrefix` on bytes. -/
def hasPrefixBytes : Bytes → Bytes → Bool
  | _, [] => true
  | [], _ :: _ => false
  | c :: s, p :: ps => decide (c = p) && hasPrefixBytes s ps

/-- Go `strings.Contains` on bytes. -/
def containsBytes : Bytes → Bytes → Bool
  | [], sub => hasPrefixBytes [] sub
  | c :: s, sub => hasPrefixBytes (c :: s) sub || containsBytes s sub

/-- The bytes of the text `bitrate_monitor:`. -/
def bitrateMarker : Bytes :=
  [98, 105, 116, 114, 97, 116, 101, 95, 109, 111, 110, 105, 116, 111, 114, 58]

/-- The constant `maxBufferSize` of `runTSP`. -/
def maxBufferSize : Int := 500 * 1024

/-- The truncation of `runTSP`: `keepFrom := len(content) - keep`, not below
zero, and the buffer becomes `content[keepFrom:]`. -/
def truncateTo (content : Bytes) (keep : Int) : Bytes :=
  let keepFrom : Int := (content.length : Int) - keep
  let keepFrom : Int := if keepFrom < 0 then 0 else keepFrom
  content.drop keepFrom.toNat

/-- What the `case line := <-linesChan` branch of `runTSP` does to the buffer:
the line and a newline are appended; on a line with the marker the buffer is
cut to its last `maxBufferSize/2` bytes when it is longer than
`maxBufferSize`; then it is cut to its last `maxBufferSize` bytes when it is
longer than `maxBufferSize*2`. -/
def lineStep (buffer line : Bytes) : Bytes :=
  let b1 := buffer ++ line ++ [10]
  let b2 :=
    if containsBytes line bitrateMarker then
      if (b1.length : Int) > maxBufferSize then truncateTo b1 (maxBufferSize / 2) else b1
    else b1
  if (b2.length : Int) > maxBufferSize * 2 then truncateTo b2 maxBufferSize else b2

/-! ## `float64` values that are integers -/

/-- How many times a natural number is halved before it is below `2^53`: the
exponent of the last place of its nearest `float64`. -/
def halvings : Nat → Nat → Nat
  | 0, _ => 0
  | fuel + 1, n => if n < 2 ^ 53 then 0 else halvings fuel (n / 2) + 1

/-- The `float64` nearest to a natural number (53-bit significand, ties to
even), as the natural number it is equal to.  It is the value Go gives
`float64(n)`; the model leaves out the infinity beyond `2^1024`. -/
def roundNat (n : Nat) : Nat :=
  let e := halvings n n
  let q := n / 2 ^ e
  let r := n % 2 ^ e
  if 2 * r > 2 ^ e ∨ (2 * r = 2 ^ e ∧ q % 2 = 1) then (q + 1) * 2 ^ e else q * 2 ^ e

/-- Go `float64(x)` for an integer `x`, as the integer the result is equal to. -/
def f64OfInt (x : Int) : Int :=
  if x < 0 then -((roundNat (-x).toNat : Nat) : Int) else ((roundNat x.toNat : Nat) : Int)

/-- A value the field `valInt` of a Prometheus counter can have: a `uint64`. -/
def IsCounterValue (v : Int) : Prop := 0 ≤ v ∧ v < 2 ^ 64

/-! ## `exporter.go`, over the Prometheus metric vectors -/

/-- The label values of one series of a metric vector, in the order of the
label names the vector was created with (`stream` first, in all six). -/
abbrev Labels := List Str

/-- A Prometheus `GaugeVec` or `CounterVec`: the series it holds, by label
values.  A gauge series has its `float64` value (a whole number in this
program).  A counter series has the `uint64` field `valInt` of the client
library, in which `Add` accumulates the deltas that are whole numbers; the
`float64` field `valBits` of the counter, for the other deltas, stays 0 in
this program. -/
abbrev Vec := Labels → Option Int

/-- Prometheus `DeletePartialMatch(prometheus.Labels{"stream": stream})`: every
series whose `stream` label has this value is deleted. -/
def vecDeleteStream (v : Vec) (stream : Str) : Vec :=
  fun k => if k.head? = some stream then none else v k

/-- Prometheus `WithLabelValues(lvs...).Set(x)` on a gauge vector. -/
def gaugeSet (v : Vec) (lvs : Labels) (x : Int) : Vec :=
  fun k => if k = lvs then some x else v k

/-- Prometheus `WithLabelValues(lvs...).Add(x)` on a counter vector, for a
`float64` `x` that is a whole number from 0 to `2^63`, as `float64(errors)` is
for every Go `int` that is not negative: a series that is missing is created
at 0 first, and `(*counter).Add` adds `uint64(x)` to the field `valInt` with
`atomic.AddUint64`, which wraps around at `2^64`. -/
def counterAdd (v : Vec) (lvs : Labels) (x : Int) : Vec :=
  fun k => if k = lvs then some (((v k).getD 0 + x) % 2 ^ 64) else v k

/-- Go `Exporter`: its six metric vectors. -/
structure Exporter where
  streamStatus : Vec
  streamBitrate : Vec
  streamPIDCount : Vec
  streamPIDInfo : Vec
  streamServiceInfo : Vec
  streamCCErrors : Vec

/-- The value `pidCounts[t]` of `UpdateMetrics`: how many records have type
`t`. -/
def pidCount (pids : List PIDInfo) (t : Str) : Int :=
  ((pids.filter (fun p => decide (p.PIDType = t))).length : Int)

/-- The label values of the PID-info series of a record. -/
def pidInfoLabels (m : StreamMetrics) (pid : PIDInfo) : Labels :=
  [m.StreamURL, m.Description, pid.PID, pid.PIDType, pid.Codec,
    if pid.Language = [] then "none".toList else pid.Language]

/-- The label values of the continuity-error counter of a PID. -/
def ccLabels (m : StreamMetrics) (pid : Str) : Labels :=
  [m.StreamURL, m.Description, pid]

/-- The loop of `UpdateMetrics` that publishes one PID-info series per record. -/
def publishPIDs (m : StreamMetrics) (v : Vec) : Vec :=
  m.PIDs.foldl (fun v pid => gaugeSet v (pidInfoLabels m pid) 1) v

/-- The loop of `UpdateMetrics` that creates the counters: `Add(0)` for every
record. -/
def initCounters (m : StreamMetrics) (v : Vec) : Vec :=
  m.PIDs.foldl (fun v pid => counterAdd v (ccLabels m pid.PID) 0) v

/-- The loop of `UpdateMetrics` over `m.CCErrors`, the entries in the order
the range visits them: `Add(float64(errors))` when `errors > 0`. -/
def addErrors (m : StreamMetrics) (v : Vec) : Vec :=
  m.CCErrors.foldl
    (fun v e => if e.2 > 0 then counterAdd v (ccLabels m e.1) (f64OfInt e.2) else v) v

/-- Go `(*Exporter).UpdateMetrics`. -/
def UpdateMetrics (e : Exporter) (m : StreamMetrics) : Exporter :=
  let stream := m.StreamURL
  let desc := m.Description
  let status : Int := if m.Status then 1 else 0
  let streamStatus := gaugeSet e.streamStatus [stream, desc] status
  let streamBitrate :=
    gaugeSet
      (gaugeSet e.streamBitrate [stream, desc, "total".toList] (f64OfInt m.Bitrate.TotalBPS))
      [stream, desc, "net".toList] (f64OfInt m.Bitrate.NetBPS)
  let streamPIDCount :=
    gaugeSet
      (gaugeSet
        (gaugeSet
          (gaugeSet e.streamPIDCount [stream, desc, "video".toList]
            (f64OfInt (pidCount m.PIDs "video".toList)))
          [stream, desc, "audio".toList] (f64OfInt (pidCount m.PIDs "audio".toList)))
        [stream, desc, "data".toList] (f64OfInt (pidCount m.PIDs "data".toList)))
      [stream, desc, "other".toList] (f64OfInt (pidCount m.PIDs "other".toList))
  let streamPIDInfo := publishPIDs m (vecDeleteStream e.streamPIDInfo stream)
  let streamServiceInfo :=
    if m.ServiceInfo.ServiceName ≠ [] then
      gaugeSet e.streamServiceInfo
        [stream, desc, m.ServiceInfo.ServiceName, m.ServiceInfo.Provider,
          if m.ServiceInfo.ServiceType = [] then "unknown".toList
          else m.ServiceInfo.ServiceType] 1
    else e.streamServiceInfo
  let streamCCErrors := addErrors m (initCounters m e.streamCCErrors)
  { streamStatus := streamStatus
    streamBitrate := streamBitrate
    streamPIDCount := streamPIDCount
    streamPIDInfo := streamPIDInfo
    streamServiceInfo := streamServiceInfo
    streamCCErrors := streamCCErrors }

/-- An exporter with no series. -/
def emptyExporter : Exporter :=
  { streamStatus := fun _ => none
    streamBitrate := fun _ => none
    streamPIDCount := fun _ => none
    streamPIDInfo := fun _ => none
    streamServiceInfo := fun _ => none
    streamCCErrors := fun _ => none }

/-- An exporter that holds two PID-info series: one of stream `s`, for a PID
`0x0001`, and one of stream `t`. -/
def staleExporter : Exporter :=
  { emptyExporter with
    streamPIDInfo := fun k =>
      if k = ["s".toList, "d".toList, "0x0001".toList, "video".toList, "h264".toList,
          "none".toList] then some 1
      else if k = ["t".toList, "d".toList, "0x0066".toList, "video".toList, "h264".toList,
          "none".toList] then some 1
      else none }

/-- A snapshot of stream `s` with two records: a video PID without a language
and an audio PID with the language `rus`. -/
def twoPIDSnapshot : StreamMetrics :=
  { emptyMetrics with
    StreamURL := "s".toList, Description := "d".toList,
    PIDs :=
      [ { PID := "0x0066".toList, PIDDecimal := 102, PIDType := "video".toList,
          Codec := "h264".toList, Language := [], IsSubtitle := false, SubtitleType := [] },
        { PID := "0x00CA".toList, PIDDecimal := 202, PIDType := "audio".toList,
          Codec := "mpeg1audio".toList, Language := "rus".toList, IsSubtitle := false,
          SubtitleType := [] } ] }

/-! ## Notions for the matcher -/

/-- The state of a match attempt after the text `cs` has been consumed. -/
def pushAll (st : MState) (cs : Str) : MState :=
  { whole := cs.reverse ++ st.whole
    cur := st.cur.map (fun g => cs.reverse ++ g)
    done := st.done }

/-- The text of a bitrate report with total field `d1` and net field `d2`. -/
def bitrateText (d1 d2 : Str) : Str :=
  "TS bitrate: ".toList ++ (d1 ++ (" bits/s, net bitrate: ".toList ++ (d2 ++ " bits/s".toList)))

/-- The text of a language line, from `Language:` on, with language code `w`. -/
def languageText (w : Str) : Str :=
  "Language: ".toList ++ (w ++ ", Type:".toList)

/-- A later bitrate report, as it arrives after the test report. -/
def laterReport : Str :=
  "\n* bitrate_monitor: 2026/01/26 22:38:40, TS bitrate: 9 bits/s, net bitrate: 8 bits/s\n".toList

/-! ## Notions for the language of a PID -/

/-- The line has a match of the language pattern `Language: (\w+), Type:`. -/
def matchesLanguage (l : Str) : Bool :=
  decide (FindStringSubmatch languageRegex l ≠ [])

/-- The language code of a line: the group of the leftmost match of the
language pattern. -/
def languageCode (l : Str) : Str := sub (FindStringSubmatch languageRegex l) 1

/-- The window the inner loop of `parsePIDs` scans: the lines after a
declaration, up to the first line that contains `Elementary stream:`. -/
def languageWindow (post : List Str) : List Str :=
  post.takeWhile (fun l => !Contains l "Elementary stream:".toList)

/-- The lines strictly between a declaration and the next line that matches
the declaration pattern (or the end of the text). -/
def declaredWindow (post : List Str) : List Str :=
  post.takeWhile (fun l => decide (FindStringSubmatch elementaryStreamRegex l = []))

/-- The language code of the first line of a window that matches the language
pattern, empty if there is none. -/
def firstLanguage (w : List Str) : Str :=
  match w.find? matchesLanguage with
  | some l => languageCode l
  | none => []

/-- The line directly after the first line of the window that contains
`Subtitling`, if the window has such a line and a line follows it. -/
def lineAfterFirstSubtitling : List Str → Option Str
  | [] => none
  | l :: rest =>
    if Contains l "Elementary stream:".toList then none
    else if Contains l "Subtitling".toList then rest.head?
    else lineAfterFirstSubtitling rest

/-- The language of a record whose scan continues over the lines `post` with
language `lang` and subtitle flag `isSub` so far. -/
def languageFrom (lang : Str) (isSub : Bool) (post : List Str) : Str :=
  let base := if lang = [] then firstLanguage (languageWindow post) else lang
  if isSub then base
  else
    match lineAfterFirstSubtitling post with
    | some nxt => if matchesLanguage nxt then languageCode nxt else base
    | none => base

/-- The language of a record, from the lines `post` after its declaration:
the code of the line directly after the first `Subtitling` line of the window
when that line matches the language pattern, and else the code of the first
line of the window that matches the language pattern, empty if there is none. -/
def specLanguage (post : List Str) : Str := languageFrom [] false post

/-- A report in which a language line comes before a `Subtitling` descriptor
with a language line of its own. -/
def subtitleOverride : Str :=
  ("  Elementary stream: type 0x06 (MPEG-2 PES private data), PID: 0x0BB8 (3000)\n" ++
   "    Language: rus, Type: 0x00 (undefined)\n" ++
   "  - Descriptor 1: Subtitling (0x59, 89), 8 bytes\n" ++
   "    Language: eng, Type: 0x10 (DVB subtitles, no aspect ratio)").toList

/-- The declaration line of `subtitleOverride`. -/
def subtitleOverrideFirst : Str :=
  "  Elementary stream: type 0x06 (MPEG-2 PES private data), PID: 0x0BB8 (3000)".toList

/-- The lines of `subtitleOverride` after its declaration line. -/
def subtitleOverrideRest : List Str :=
  [ "    Language: rus, Type: 0x00 (undefined)".toList,
    "  - Descriptor 1: Subtitling (0x59, 89), 8 bytes".toList,
    "    Language: eng, Type: 0x10 (DVB subtitles, no aspect ratio)".toList ]

/-- A declaration with the undocumented type code `0x99` and a description
that has capital letters outside ASCII. -/
def unknownCodeReport : Str :=
  "  Elementary stream: type 0x99 (ÉCOLE Ж Video), PID: 0x0BB9 (3001)".toList

/-! # Theorems -/

/-! ## `strconv`: the digit loop computes the decimal value -/

theorem maxUint64_eq : maxUint64 = 18446744073709551615 := by decide

theorem le_decAcc (s : Str) (n : Nat) : n ≤ decAcc n s := by
  induction s generalizing n with
  | nil => simp [decAcc]
  | cons c s ih =>
    have h := ih (n * 10 + (c.toNat - 48))
    simp only [decAcc, List.foldl_cons] at h ⊢
    omega

theorem isDigit_iff (c : Char) : isDigit c = true ↔ 48 ≤ c.toNat ∧ c.toNat ≤ 57 := by
  simp [isDigit]

theorem parseUintLoop_digits (s : Str) (n : Nat) (hn : n ≤ maxUint64)
    (hs : s.all isDigit = true) :
    parseUintLoop s n =
      if decAcc n s ≤ maxUint64 then (decAcc n s, none)
      else (maxUint64, some NumErr.ErrRange) := by
  induction s generalizing n with
  | nil => simp [parseUintLoop, decAcc, hn]
  | cons c s ih =>
    simp only [List.all_cons, Bool.and_eq_true] at hs
    obtain ⟨hc, hs⟩ := hs
    have hd := (isDigit_iff c).1 hc
    have hmono := le_decAcc s (n * 10 + (c.toNat - 48))
    rw [maxUint64_eq] at hn
    simp only [parseUintLoop, hc, if_true, decAcc, List.foldl_cons, maxUint64_eq] at hmono ⊢
    by_cases h1 : n ≥ 18446744073709551615 / 10 + 1
    · rw [if_pos h1, if_neg (by omega)]
    · rw [if_neg h1]
      have e10 : n * 10 % 2 ^ 64 = n * 10 := Nat.mod_eq_of_lt (by omega)
      simp only [e10]
      by_cases h2 : n * 10 + (c.toNat - 48) < 2 ^ 64
      · have e1 : (n * 10 + (c.toNat - 48)) % 2 ^ 64 = n * 10 + (c.toNat - 48) :=
          Nat.mod_eq_of_lt h2
        simp only [e1]
        rw [if_neg (by omega)]
        have := ih (n * 10 + (c.toNat - 48)) (by rw [maxUint64_eq]; omega) hs
        simpa only [decAcc, maxUint64_eq] using this
      · have e1 : (n * 10 + (c.toNat - 48)) % 2 ^ 64 < n * 10 := by omega
        rw [if_pos (Or.inl e1), if_neg (by omega)]

theorem parseUintLoop_nondigit (s : Str) (n : Nat) (hs : s.all isDigit = false) :
    parseUintLoop s n = (0, some NumErr.ErrSyntax) ∨
      parseUintLoop s n = (maxUint64, some NumErr.ErrRange) := by
  induction s generalizing n with
  | nil => simp at hs
  | cons c s ih =>
    simp only [parseUintLoop]
    by_cases hc : isDigit c = true
    · have hs2 : s.all isDigit = false := by
        simpa [List.all_cons, hc] using hs
      simp only [hc, if_true]
      split
      · exact Or.inr rfl
      · split
        · exact Or.inr rfl
        · exact ih _ hs2
    · simp [hc]

theorem decAcc_zero (s : Str) : decAcc 0 s = decimalValue s := rfl

/-- The three outcomes of `ParseUint`. -/
theorem ParseUint_cases (s : Str) :
    (s ≠ [] ∧ s.all isDigit = true ∧ decimalValue s ≤ maxUint64 ∧
        ParseUint s = (decimalValue s, none)) ∨
    (s ≠ [] ∧ s.all isDigit = true ∧ maxUint64 < decimalValue s ∧
        ParseUint s = (maxUint64, some NumErr.ErrRange)) ∨
    ((s = [] ∨ s.all isDigit = false) ∧
        (ParseUint s = (0, some NumErr.ErrSyntax) ∨
          ParseUint s = (maxUint64, some NumErr.ErrRange))) := by
  cases s with
  | nil => exact Or.inr (Or.inr ⟨Or.inl rfl, Or.inl rfl⟩)
  | cons c t =>
    have hU : ParseUint (c :: t) = parseUintLoop (c :: t) 0 := rfl
    by_cases hd : (c :: t).all isDigit = true
    · have h := parseUintLoop_digits (c :: t) 0 (by decide) hd
      rw [decAcc_zero] at h
      by_cases hv : decimalValue (c :: t) ≤ maxUint64
      · rw [if_pos hv] at h
        exact Or.inl ⟨by simp, hd, hv, by rw [hU, h]⟩
      · rw [if_neg hv] at h
        exact Or.inr (Or.inl ⟨by simp, hd, by omega, by rw [hU, h]⟩)
    · have hd2 : (c :: t).all isDigit = false := by simpa using hd
      have h := parseUintLoop_nondigit (c :: t) 0 hd2
      exact Or.inr (Or.inr ⟨Or.inr hd2, by rw [hU]; exact h⟩)

/-- `ParseInt` on a text that does not start with a sign. -/
theorem ParseInt_unsigned (s : Str) (c : Char) (t : Str) (hs : s = c :: t)
    (hp : c ≠ '+') (hm : c ≠ '-') :
    ParseInt s =
      match ParseUint s with
      | (_, some NumErr.ErrSyntax) => (0, some NumErr.ErrSyntax)
      | (un, _) =>
        if un ≥ 2 ^ 63 then (maxInt64, some NumErr.ErrRange) else ((un : Int), none) := by
  subst hs
  simp only [ParseInt, hp, hm, or_self, if_false, decide_False, Bool.false_eq_true,
    not_false_eq_true, true_and, false_and]

/-- `ParseInt` on a text that starts with a plus sign. -/
theorem ParseInt_plus (t : Str) :
    ParseInt ('+' :: t) =
      match ParseUint t with
      | (_, some NumErr.ErrSyntax) => (0, some NumErr.ErrSyntax)
      | (un, _) =>
        if un ≥ 2 ^ 63 then (maxInt64, some NumErr.ErrRange) else ((un : Int), none) := by
  have h : ('+' : Char) ≠ '-' := by decide
  simp only [ParseInt, h, true_or, if_true, decide_False, Bool.false_eq_true,
    not_false_eq_true, true_and, false_and, if_false]

/-- `ParseInt` on a text that starts with a minus sign. -/
theorem ParseInt_minus (t : Str) :
    ParseInt ('-' :: t) =
      match ParseUint t with
      | (_, some NumErr.ErrSyntax) => (0, some NumErr.ErrSyntax)
      | (un, _) =>
        if un > 2 ^ 63 then (minInt64, some NumErr.ErrRange) else (-(un : Int), none) := by
  simp only [ParseInt, decide_True, or_true, if_true, not_true_eq_false, false_and,
    if_false, true_and]

/-- `ParseInt` on a non-empty text of digits whose value fits: the value. -/
theorem ParseInt_digits (s : Str) (hne : s ≠ []) (hd : s.all isDigit = true)
    (hv : decimalValue s ≤ 2 ^ 63 - 1) :
    ParseInt s = ((decimalValue s : Int), none) := by
  cases s with
  | nil => exact absurd rfl hne
  | cons c t =>
    have hc : isDigit c = true := by
      simp only [List.all_cons, Bool.and_eq_true] at hd
      exact hd.1
    have hcn := (isDigit_iff c).1 hc
    have hp : c ≠ '+' := by
      intro h; subst h; revert hcn; decide
    have hm : c ≠ '-' := by
      intro h; subst h; revert hcn; decide
    rw [ParseInt_unsigned (c :: t) c t rfl hp hm]
    rcases ParseUint_cases (c :: t) with ⟨_, _, _, h⟩ | ⟨_, _, h2, _⟩ | ⟨h3, _⟩
    · rw [h]
      have : ¬ decimalValue (c :: t) ≥ 2 ^ 63 := by omega
      simp only [this, if_false]
    · rw [maxUint64_eq] at h2; omega
    · rcases h3 with h3 | h3
      · exact absurd h3 hne
      · rw [hd] at h3; exact absurd h3 (by simp)

/-- `ParseInt` succeeds exactly on the valid signed 64-bit decimal texts. -/
theorem ParseInt_ok_iff (s : Str) : (ParseInt s).2 = none ↔ isInt64Text s = true := by
  have hmax := maxUint64_eq
  cases s with
  | nil => simp [ParseInt, isInt64Text]
  | cons c t =>
    by_cases hm : c = '-'
    · subst hm
      have hI : isInt64Text ('-' :: t) =
          (decide (t ≠ []) && t.all isDigit && decide (decimalValue t ≤ 2 ^ 63)) := by
        simp [isInt64Text]
      rw [ParseInt_minus, hI]
      rcases ParseUint_cases t with ⟨h1, h2, _, h⟩ | ⟨h1, h2, h3, h⟩ | ⟨h3, h | h⟩
      · rw [h]; dsimp only
        split_ifs with hv <;> simp [h1, h2] <;> omega
      · rw [h]; dsimp only
        split_ifs with hv <;> simp [h1, h2] <;> omega
      · rw [h]
        rcases h3 with h3 | h3 <;> simp [h3]
      · rw [h]; dsimp only
        split_ifs with hv
        · rcases h3 with h3 | h3 <;> simp [h3]
        · exact absurd (by rw [hmax]; decide) hv
    · by_cases hp : c = '+'
      · subst hp
        have hI : isInt64Text ('+' :: t) =
            (decide (t ≠ []) && t.all isDigit && decide (decimalValue t ≤ 2 ^ 63 - 1)) := by
          simp [isInt64Text]
        rw [ParseInt_plus, hI]
        rcases ParseUint_cases t with ⟨h1, h2, _, h⟩ | ⟨h1, h2, h3, h⟩ | ⟨h3, h | h⟩
        · rw [h]; dsimp only
          split_ifs with hv <;> simp [h1, h2] <;> omega
        · rw [h]; dsimp only
          split_ifs with hv <;> simp [h1, h2] <;> omega
        · rw [h]
          rcases h3 with h3 | h3 <;> simp [h3]
        · rw [h]; dsimp only
          split_ifs with hv
          · rcases h3 with h3 | h3 <;> simp [h3]
          · exact absurd (by rw [hmax]; decide) hv
      · rw [ParseInt_unsigned (c :: t) c t rfl hp hm]
        have hI : isInt64Text (c :: t) =
            ((c :: t).all isDigit && decide (decimalValue (c :: t) ≤ 2 ^ 63 - 1)) := by
          simp [isInt64Text, hm, hp]
        rw [hI]
        rcases ParseUint_cases (c :: t) with ⟨h1, h2, _, h⟩ | ⟨h1, h2, h3, h⟩ | ⟨h3, h | h⟩
        · rw [h]; dsimp only
          split_ifs with hv <;> simp [h2] <;> omega
        · rw [h]; dsimp only
          split_ifs with hv <;> simp [h2] <;> omega
        · rw [h]
          rcases h3 with h3 | h3
          · exact absurd h3 (by simp)
          · simp [h3]
        · rw [h]; dsimp only
          split_ifs with hv
          · rcases h3 with h3 | h3
            · exact absurd h3 (by simp)
            · simp [h3]
          · exact absurd (by rw [hmax]; decide) hv

/-! ## Bitrate extraction -/

theorem ReplaceAll_comma (s : Str) : ReplaceAll s ',' [] = deleteCommas s := by
  induction s with
  | nil => rfl
  | cons c s ih =>
    simp only [ReplaceAll, deleteCommas, List.flatMap_cons, List.filter_cons] at ih ⊢
    by_cases hc : c = ','
    · simp [hc, ih]
    · simp [hc, ih]

theorem deleteCommas_all_digits (s : Str)
    (h : ∀ g ∈ pieces ',' s, g.all isDigit = true) :
    (deleteCommas s).all isDigit = true := by
  induction s with
  | nil => rfl
  | cons c s ih =>
    by_cases hc : c = ','
    · have hp : pieces ',' (c :: s) = [] :: pieces ',' s := by simp [pieces, hc]
      rw [hp] at h
      have : deleteCommas (c :: s) = deleteCommas s := by simp [deleteCommas, hc]
      rw [this]
      exact ih (fun g hg => h g (List.mem_cons_of_mem _ hg))
    · have hd : deleteCommas (c :: s) = c :: deleteCommas s := by simp [deleteCommas, hc]
      rw [hd]
      rcases hps : pieces ',' s with _ | ⟨g, gs⟩
      · have hp : pieces ',' (c :: s) = [[c]] := by simp [pieces, hc, hps]
        rw [hp] at h
        have h1 := h [c] (by simp)
        have h2 := ih (by rw [hps]; intro g hg; cases hg)
        simp only [List.all_cons, List.all_nil, Bool.and_true] at h1
        simp [h1, h2]
      · have hp : pieces ',' (c :: s) = (c :: g) :: gs := by simp [pieces, hc, hps]
        rw [hp] at h
        have h1 := h (c :: g) (by simp)
        simp only [List.all_cons, Bool.and_eq_true] at h1
        have h2 := ih (by
          rw [hps]; intro g1 hg1
          rcases List.mem_cons.1 hg1 with e | e
          · rw [e]; exact h1.2
          · exact h g1 (List.mem_cons_of_mem _ e))
        simp [h1.1, h2]

theorem isGrouped_digits (s : Str) (h : isGrouped s = true) :
    deleteCommas s ≠ [] ∧ (deleteCommas s).all isDigit = true := by
  unfold isGrouped at h
  rcases hps : pieces ',' s with _ | ⟨g, gs⟩
  · rw [hps] at h; exact absurd h (by simp)
  · rw [hps] at h
    simp only [Bool.and_eq_true, decide_eq_true_eq, List.all_eq_true] at h
    obtain ⟨⟨hlen, hg⟩, hgs⟩ := h
    constructor
    · cases s with
      | nil =>
        simp only [pieces] at hps
        injection hps with e1 e2
        rw [← e1] at hlen; simp at hlen
      | cons c t =>
        by_cases hc : c = ','
        · simp only [pieces, hc, if_true] at hps
          injection hps with e1 e2
          rw [← e1] at hlen; simp at hlen
        · simp [deleteCommas, hc]
    · apply deleteCommas_all_digits
      rw [hps]
      intro g1 hg1
      rcases List.mem_cons.1 hg1 with e | e
      · rw [e]; exact List.all_eq_true.2 hg
      · exact List.all_eq_true.2 (hgs g1 e).2

/-- The failure of `parseBitrate`, in terms of the leftmost match. -/
theorem parseBitrate_error_iff (output : Str) (metrics : StreamMetrics) :
    (∃ e, parseBitrate output metrics = Except.error e) ↔
      (FindStringSubmatch bitrateRegex output ≠ [] ∧
        (isInt64Text (deleteCommas (sub (FindStringSubmatch bitrateRegex output) 1)) = false ∨
         isInt64Text (deleteCommas (sub (FindStringSubmatch bitrateRegex output) 2)) = false)) := by
  unfold parseBitrate
  simp only [ReplaceAll_comma]
  generalize FindStringSubmatch bitrateRegex output = ms
  have h1 := ParseInt_ok_iff (deleteCommas (sub ms 1))
  have h2 := ParseInt_ok_iff (deleteCommas (sub ms 2))
  by_cases hms : ms = []
  · simp [hms]
  · have hl : ¬ ms.length = 0 := by simpa using hms
    simp only [hl, if_false]
    rcases hT : ParseInt (deleteCommas (sub ms 1)) with ⟨tv, te⟩
    rcases hN : ParseInt (deleteCommas (sub ms 2)) with ⟨nv, ne⟩
    rw [hT] at h1
    rw [hN] at h2
    cases te with
    | some e1 =>
      have : isInt64Text (deleteCommas (sub ms 1)) = false := by
        cases hb : isInt64Text (deleteCommas (sub ms 1)) with
        | false => rfl
        | true => exact absurd (h1.2 hb) (by simp)
      simp [hms, this]
    | none =>
      have ht : isInt64Text (deleteCommas (sub ms 1)) = true := h1.1 rfl
      cases ne with
      | some e2 =>
        have : isInt64Text (deleteCommas (sub ms 2)) = false := by
          cases hb : isInt64Text (deleteCommas (sub ms 2)) with
          | false => rfl
          | true => exact absurd (h2.2 hb) (by simp)
        simp [hms, this]
      | none =>
        have hn : isInt64Text (deleteCommas (sub ms 2)) = true := h2.1 rfl
        simp [hms, ht, hn]

/-- Either `parseBitrate` fails or it changes nothing but the bitrate. -/
theorem parseBitrate_ok_shape (output : Str) (metrics m : StreamMetrics)
    (h : parseBitrate output metrics = Except.ok m) :
    ∃ b, m = { metrics with Bitrate := b } := by
  unfold parseBitrate at h
  simp only at h
  split at h
  · injection h with h; exact ⟨metrics.Bitrate, h ▸ rfl⟩
  · split at h
    · cases h
    · split at h
      · cases h
      · injection h with h; exact ⟨_, h.symm⟩

/-- What `parseBitrate` does on a match whose comma-free fields are non-empty
texts of digits with values that fit. -/
theorem parseBitrate_of_match (output : Str) (metrics : StreamMetrics) (w f1 f2 : Str)
    (h : FindStringSubmatch bitrateRegex output = [w, f1, f2])
    (n1 : deleteCommas f1 ≠ []) (d1 : (deleteCommas f1).all isDigit = true)
    (n2 : deleteCommas f2 ≠ []) (d2 : (deleteCommas f2).all isDigit = true)
    (v1 : decimalValue (deleteCommas f1) ≤ 2 ^ 63 - 1)
    (v2 : decimalValue (deleteCommas f2) ≤ 2 ^ 63 - 1) :
    parseBitrate output metrics =
      Except.ok { metrics with
        Bitrate := { TotalBPS := (decimalValue (deleteCommas f1) : Int),
                     NetBPS := (decimalValue (deleteCommas f2) : Int) } } := by
  have p1 := ParseInt_digits _ n1 d1 v1
  have p2 := ParseInt_digits _ n2 d2 v2
  simp [parseBitrate, h, sub, ReplaceAll_comma, p1, p2]

/-- C1 (amended): when the text has no match of the bitrate pattern,
`parseBitrate` returns no error and leaves the snapshot (so a zero bitrate) as
it is; when the leftmost match has two fields that are digit groups with
thousands separators and whose comma-free values are at most `2^63 - 1`, total
and net become the decimal values of the fields with every comma deleted. -/
theorem parseBitrate_spec (output : Str) (metrics : StreamMetrics) :
    (FindStringSubmatch bitrateRegex output = [] →
      parseBitrate output metrics = Except.ok metrics) ∧
    (∀ w f1 f2 : Str, FindStringSubmatch bitrateRegex output = [w, f1, f2] →
      isGrouped f1 = true → isGrouped f2 = true →
      decimalValue (deleteCommas f1) ≤ 2 ^ 63 - 1 →
      decimalValue (deleteCommas f2) ≤ 2 ^ 63 - 1 →
      parseBitrate output metrics =
        Except.ok { metrics with
          Bitrate := { TotalBPS := (decimalValue (deleteCommas f1) : Int),
                       NetBPS := (decimalValue (deleteCommas f2) : Int) } }) := by
  constructor
  · intro h
    simp [parseBitrate, h]
  · intro w f1 f2 h g1 g2 v1 v2
    obtain ⟨n1, d1⟩ := isGrouped_digits f1 g1
    obtain ⟨n2, d2⟩ := isGrouped_digits f2 g2
    exact parseBitrate_of_match output metrics w f1 f2 h n1 d1 n2 d2 v1 v2

/-- C1, witness: the bitrate line of the test report. -/
theorem parseBitrate_spec_witness :
    parseBitrate testOutput1 emptyMetrics =
      Except.ok { emptyMetrics with Bitrate := { TotalBPS := 5077945, NetBPS := 4758039 } } :=
  (parseBitrate_spec testOutput1 emptyMetrics).2
    "TS bitrate: 5,077,945 bits/s, net bitrate: 4,758,039 bits/s".toList
    "5,077,945".toList "4,758,039".toList
    (by decide) (by decide) (by decide) (by decide) (by decide)

/-- C1, counterexample: both fields of the match are digit groups with
thousands separators, yet `parseBitrate` fails with a range error and sets
neither value. -/
theorem parseBitrate_overflow_counterexample :
    FindStringSubmatch bitrateRegex overflowReport =
        [overflowReport, "9,223,372,036,854,775,808".toList, "1".toList] ∧
      isGrouped "9,223,372,036,854,775,808".toList = true ∧
      isGrouped "1".toList = true ∧
      parseBitrate overflowReport emptyMetrics =
        Except.error (Error.wrap "failed to parse total bitrate" (Error.num NumErr.ErrRange)) := by
  decide

/-- `parsePIDs` never fails. -/
theorem parsePIDs_ok (ord : MapOrder) (output : Str) (metrics : StreamMetrics) :
    parsePIDs ord output metrics =
      Except.ok { metrics with
        PIDs := metrics.PIDs ++
          (ord.range (scanLines [] (Split '\n' output))).map Prod.snd } := rfl

/-- C2 (amended): `ParseOutput` returns an error, and no snapshot, if and only
if the leftmost match of the bitrate pattern has a total or net field that,
after removing commas, is not a valid base-10 signed 64-bit integer; on every
other text it returns a snapshot. -/
theorem ParseOutput_error_iff (ord : MapOrder) (output streamURL description : Str)
    (now0 now1 : Int) :
    ((∃ e, ParseOutput ord output streamURL description now0 now1 = Except.error e) ↔
        MalformedFirstBitrate output) ∧
    ((∃ m, ParseOutput ord output streamURL description now0 now1 = Except.ok m) ↔
        ¬ MalformedFirstBitrate output) := by
  have key := fun metrics => parseBitrate_error_iff output metrics
  have hE : (∃ e, ParseOutput ord output streamURL description now0 now1 = Except.error e) ↔
      MalformedFirstBitrate output := by
    unfold ParseOutput
    simp only [parsePIDs_ok]
    rw [MalformedFirstBitrate]
    split
    · rename_i err h
      exact ⟨fun _ => (key _).1 ⟨err, h⟩, fun _ => ⟨_, rfl⟩⟩
    · rename_i m1 h
      constructor
      · rintro ⟨e, he⟩; cases he
      · intro hb
        obtain ⟨e, he⟩ := (key _).2 hb
        rw [h] at he; cases he
  refine ⟨hE, ?_⟩
  rw [← hE]
  rcases h : ParseOutput ord output streamURL description now0 now1 with e | m
  · simp
  · simp

/-- C2, counterexample: the text contains a match of the bitrate pattern whose
total field is a comma only, not a valid integer once the comma is removed,
but the match is not the leftmost one and `ParseOutput` succeeds. -/
theorem ParseOutput_later_malformed_counterexample :
    BitrateMatchIn twoBitrateLines ",".toList "1".toList ∧
      isInt64Text (deleteCommas ",".toList) = false ∧
      ∃ m, ParseOutput MapOrder.insertion twoBitrateLines [] [] 0 0 = Except.ok m := by
  refine ⟨⟨"TS bitrate: 1 bits/s, net bitrate: 1 bits/s\n".toList,
    "TS bitrate: , bits/s, net bitrate: 1 bits/s".toList,
    "TS bitrate: , bits/s, net bitrate: 1 bits/s".toList, by decide, by decide⟩,
    by decide, ?_⟩
  exact ⟨_, rfl⟩

/-! ## Status -/

theorem timeSub_lt_timeout (t u : Int) : timeSub t u < timeout ↔ t - u < 5000000000 := by
  unfold timeSub timeout maxInt64 minInt64
  split_ifs <;> omega

/-- When `UpdateStatus` reports a stream as online. -/
theorem UpdateStatus_Status_iff (now : Int) (s : StreamMetrics) :
    (UpdateStatus now s).Status = true ↔
      (s.Bitrate.TotalBPS > 0 ∧ s.PIDs ≠ [] ∧ now - s.LastSeen < 5 * 1000000000) := by
  simp only [UpdateStatus, Bool.and_eq_true, decide_eq_true_eq, timeSub_lt_timeout]
  constructor
  · rintro ⟨⟨h1, h2⟩, h3⟩
    exact ⟨h1, List.length_pos.1 h3, by omega⟩
  · rintro ⟨h1, h2, h3⟩
    exact ⟨⟨h1, by omega⟩, List.length_pos.2 h2⟩

/-- C8: `UpdateStatus` sets `Status` to true if and only if the total bitrate
is positive, the PID list is non-empty and `now` minus `LastSeen` is less than
5 seconds (in nanoseconds); the net bitrate does not influence the result, and
no other field is modified. -/
theorem UpdateStatus_spec (now : Int) (s : StreamMetrics) :
    ((UpdateStatus now s).Status = true ↔
      (s.Bitrate.TotalBPS > 0 ∧ s.PIDs ≠ [] ∧ now - s.LastSeen < 5 * 1000000000)) ∧
    (∀ net : Int,
      (UpdateStatus now { s with Bitrate := { s.Bitrate with NetBPS := net } }).Status =
        (UpdateStatus now s).Status) ∧
    UpdateStatus now s = { s with Status := (UpdateStatus now s).Status } := by
  exact ⟨UpdateStatus_Status_iff now s, fun _ => rfl, rfl⟩

/-! ## PID enumeration -/

theorem mapSet_of_not_has (m : PidMap) (k : Str) (v : PIDInfo) (h : mapHas m k = false) :
    mapSet m k v = m ++ [(k, v)] := by
  induction m with
  | nil => rfl
  | cons e m ih =>
    obtain ⟨k1, v1⟩ := e
    simp only [mapHas, List.any_cons, Bool.or_eq_false_iff, decide_eq_false_iff_not] at h
    have ih2 := ih h.2
    simp only [mapSet, h.1, if_false, ih2, List.cons_append]

theorem mapHas_eq_false_iff (m : PidMap) (k : Str) :
    mapHas m k = false ↔ entriesFor k m = [] := by
  induction m with
  | nil => exact ⟨fun _ => rfl, fun _ => rfl⟩
  | cons e m ih =>
    simp only [mapHas, entriesFor, List.any_cons, List.filter_cons] at ih ⊢
    by_cases he : e.1 = k
    · simp only [he, decide_True, Bool.true_or, if_true]
      exact ⟨fun h => absurd h (by decide), fun h => absurd h (List.cons_ne_nil _ _)⟩
    · simp only [he, decide_False, Bool.false_or, if_false, Bool.false_eq_true]
      exact ih

theorem mapHas_append (m n : PidMap) (k : Str) :
    mapHas (m ++ n) k = (mapHas m k || mapHas n k) := by
  simp only [mapHas, List.any_append]

/-- One step of the outer loop on a line that declares a new identifier. -/
theorem scanLines_new (m : PidMap) (line : Str) (rest : List Str)
    (hm : FindStringSubmatch elementaryStreamRegex line ≠ [])
    (hk : mapHas m (sub (FindStringSubmatch elementaryStreamRegex line) 3) = false) :
    scanLines m (line :: rest) =
      scanLines (m ++ [(sub (FindStringSubmatch elementaryStreamRegex line) 3,
        scanWindow (newPID (FindStringSubmatch elementaryStreamRegex line)) rest)]) rest := by
  have hl : ¬ (FindStringSubmatch elementaryStreamRegex line).length = 0 := by
    simpa using hm
  simp only [scanLines, hl, if_false, hk, Bool.false_eq_true]
  rw [mapSet_of_not_has _ _ _ hk]

/-- One step of the outer loop on a line that declares nothing new. -/
theorem scanLines_skip (m : PidMap) (line : Str) (rest : List Str)
    (h : FindStringSubmatch elementaryStreamRegex line = [] ∨
      mapHas m (sub (FindStringSubmatch elementaryStreamRegex line) 3) = true) :
    scanLines m (line :: rest) = scanLines m rest := by
  rcases h with h | h
  · simp [scanLines, h]
  · simp [scanLines, h]

/-- The two cases of one step of the outer loop. -/
theorem scanLines_step (m : PidMap) (line : Str) (rest : List Str) :
    scanLines m (line :: rest) = scanLines m rest ∨
    (FindStringSubmatch elementaryStreamRegex line ≠ [] ∧
      mapHas m (sub (FindStringSubmatch elementaryStreamRegex line) 3) = false ∧
      scanLines m (line :: rest) =
        scanLines (m ++ [(sub (FindStringSubmatch elementaryStreamRegex line) 3,
          scanWindow (newPID (FindStringSubmatch elementaryStreamRegex line)) rest)]) rest) := by
  by_cases hm : FindStringSubmatch elementaryStreamRegex line = []
  · exact Or.inl (scanLines_skip m line rest (Or.inl hm))
  · by_cases hk : mapHas m (sub (FindStringSubmatch elementaryStreamRegex line) 3) = true
    · exact Or.inl (scanLines_skip m line rest (Or.inr hk))
    · have hk2 : mapHas m (sub (FindStringSubmatch elementaryStreamRegex line) 3) = false := by
        simpa using hk
      exact Or.inr ⟨hm, hk2, scanLines_new m line rest hm hk2⟩

/-- An identifier already in the map keeps its entry to the end of the scan. -/
theorem entriesFor_scanLines_of_has (h : Str) (ls : List Str) (m : PidMap)
    (hh : mapHas m h = true) : entriesFor h (scanLines m ls) = entriesFor h m := by
  induction ls generalizing m with
  | nil => rfl
  | cons line rest ih =>
    rcases scanLines_step m line rest with e | ⟨_, hk, e⟩
    · rw [e]; exact ih m hh
    · rw [e, ih _ (by rw [mapHas_append, hh]; rfl)]
      have hne : ¬ sub (FindStringSubmatch elementaryStreamRegex line) 3 = h := by
        intro e2; rw [e2, hh] at hk; cases hk
      simp [entriesFor, List.filter_append, hne]

/-- Lines that do not declare the identifier leave it out of the map. -/
theorem scanLines_prefix (h : Str) (pre rest : List Str)
    (hpre : ∀ l ∈ pre, FindStringSubmatch elementaryStreamRegex l = [] ∨
      sub (FindStringSubmatch elementaryStreamRegex l) 3 ≠ h)
    (m : PidMap) (hm : mapHas m h = false) :
    ∃ m1, scanLines m (pre ++ rest) = scanLines m1 rest ∧ mapHas m1 h = false := by
  induction pre generalizing m with
  | nil => exact ⟨m, rfl, hm⟩
  | cons line pre ih =>
    have ih2 := ih (fun l hl => hpre l (List.mem_cons_of_mem _ hl))
    rcases scanLines_step m line (pre ++ rest) with e | ⟨hmt, _, e⟩
    · rw [List.cons_append, e]; exact ih2 m hm
    · rw [List.cons_append, e]
      apply ih2
      rcases hpre line (List.mem_cons_self _ _) with h1 | h1
      · exact absurd h1 hmt
      · rw [mapHas_append, hm]
        simp [mapHas, h1]

theorem setLanguage_fixed (p : PIDInfo) (l : Str) : SameIdentity (setLanguage p l) p := by
  unfold setLanguage SameIdentity
  simp only
  split <;> simp

theorem languageStep_fixed (p : PIDInfo) (l : Str) : SameIdentity (languageStep p l) p := by
  unfold languageStep
  split
  · exact setLanguage_fixed p l
  · exact ⟨rfl, rfl, rfl, rfl⟩

theorem subtitleStep_fixed (p : PIDInfo) (l : Str) (rest : List Str) :
    SameIdentity (subtitleStep p l rest) p := by
  unfold subtitleStep
  split
  · simp only
    split
    · split
      · exact setLanguage_fixed _ _
      · exact ⟨rfl, rfl, rfl, rfl⟩
    · exact ⟨rfl, rfl, rfl, rfl⟩
  · exact ⟨rfl, rfl, rfl, rfl⟩

theorem SameIdentity.trans {a b c : PIDInfo} (h1 : SameIdentity a b) (h2 : SameIdentity b c) :
    SameIdentity a c :=
  ⟨h1.1.trans h2.1, h1.2.1.trans h2.2.1, h1.2.2.1.trans h2.2.2.1, h1.2.2.2.trans h2.2.2.2⟩

/-- The window scan changes language and subtitle fields only. -/
theorem scanWindow_fixed (ls : List Str) (p : PIDInfo) : SameIdentity (scanWindow p ls) p := by
  induction ls generalizing p with
  | nil => exact ⟨rfl, rfl, rfl, rfl⟩
  | cons l rest ih =>
    simp only [scanWindow]
    split
    · exact ⟨rfl, rfl, rfl, rfl⟩
    · exact (ih _).trans ((subtitleStep_fixed _ l rest).trans (languageStep_fixed p l))

/-- Every entry the scan adds comes from a declaration line and the lines
after it. -/
theorem scanLines_mem (ls : List Str) (m : PidMap) (e : Str × PIDInfo)
    (he : e ∈ scanLines m ls) :
    e ∈ m ∨ ∃ line ∈ ls, ∃ post : List Str,
      FindStringSubmatch elementaryStreamRegex line ≠ [] ∧
      e = (sub (FindStringSubmatch elementaryStreamRegex line) 3,
        scanWindow (newPID (FindStringSubmatch elementaryStreamRegex line)) post) := by
  induction ls generalizing m with
  | nil => exact Or.inl he
  | cons line rest ih =>
    rcases scanLines_step m line rest with e1 | ⟨hm, _, e1⟩
    · rw [e1] at he
      rcases ih m he with h | ⟨l, hl, post, h⟩
      · exact Or.inl h
      · exact Or.inr ⟨l, List.mem_cons_of_mem _ hl, post, h⟩
    · rw [e1] at he
      rcases ih _ he with h | ⟨l, hl, post, h⟩
      · rcases List.mem_append.1 h with h | h
        · exact Or.inl h
        · exact Or.inr ⟨line, List.mem_cons_self _ _, rest, hm, List.mem_singleton.1 h⟩
      · exact Or.inr ⟨l, List.mem_cons_of_mem _ hl, post, h⟩

theorem not_mem_keys_of_mapHas (m : PidMap) (k : Str) (h : mapHas m k = false) :
    k ∉ m.map Prod.fst := by
  induction m with
  | nil => exact List.not_mem_nil _
  | cons e m ih =>
    simp only [mapHas, List.any_cons, Bool.or_eq_false_iff, decide_eq_false_iff_not] at h
    intro hk
    rcases List.mem_cons.1 hk with hk | hk
    · exact h.1 hk.symm
    · exact ih h.2 hk

/-- The scan keeps the keys of the map distinct. -/
theorem scanLines_keys_nodup (ls : List Str) (m : PidMap) (hm : (m.map Prod.fst).Nodup) :
    ((scanLines m ls).map Prod.fst).Nodup := by
  induction ls generalizing m with
  | nil => exact hm
  | cons line rest ih =>
    rcases scanLines_step m line rest with e1 | ⟨_, hk, e1⟩
    · rw [e1]; exact ih m hm
    · rw [e1]
      apply ih
      rw [List.map_append, List.map_singleton]
      exact List.Nodup.append hm (List.nodup_singleton _)
        (List.disjoint_singleton.2 (not_mem_keys_of_mapHas m _ hk))

/-- Every record of the scan is stored under its own PID identifier. -/
theorem scanLines_entry_PID (ls : List Str) (e : Str × PIDInfo)
    (he : e ∈ scanLines [] ls) : e.2.PID = e.1 := by
  rcases scanLines_mem ls [] e he with h | ⟨l, _, post, _, h⟩
  · cases h
  · rw [h]
    exact (scanWindow_fixed post _).1

theorem filter_PID_eq_entriesFor (h : Str) (m : PidMap) (hm : ∀ e ∈ m, e.2.PID = e.1) :
    (m.map Prod.snd).filter (fun r => decide (r.PID = h)) = (entriesFor h m).map Prod.snd := by
  induction m with
  | nil => rfl
  | cons e m ih =>
    have h1 := hm e (List.mem_cons_self _ _)
    have ih2 := ih (fun e he => hm e (List.mem_cons_of_mem _ he))
    simp only [entriesFor] at ih2
    simp only [List.map_cons, List.filter_cons, entriesFor, h1]
    by_cases hk : e.1 = h
    · simp only [hk, decide_True, if_true, List.map_cons, ih2]
    · simp only [hk, decide_False, if_false, Bool.false_eq_true, ih2]

theorem map_PID_eq_keys (m : PidMap) (hm : ∀ e ∈ m, e.2.PID = e.1) :
    (m.map Prod.snd).map (fun r => r.PID) = m.map Prod.fst := by
  induction m with
  | nil => rfl
  | cons e m ih =>
    simp only [List.map_cons, hm e (List.mem_cons_self _ _),
      ih (fun e he => hm e (List.mem_cons_of_mem _ he))]

/-- The map after the scan holds, for the identifier of a first declaration,
exactly the record of that declaration. -/
theorem entriesFor_first_declaration (pre : List Str) (line : Str) (post : List Str)
    (hmatch : FindStringSubmatch elementaryStreamRegex line ≠ [])
    (hfirst : ∀ l ∈ pre, FindStringSubmatch elementaryStreamRegex l = [] ∨
      sub (FindStringSubmatch elementaryStreamRegex l) 3 ≠
        sub (FindStringSubmatch elementaryStreamRegex line) 3) :
    entriesFor (sub (FindStringSubmatch elementaryStreamRegex line) 3)
        (scanLines [] (pre ++ line :: post)) =
      [(sub (FindStringSubmatch elementaryStreamRegex line) 3,
        scanWindow (newPID (FindStringSubmatch elementaryStreamRegex line)) post)] := by
  obtain ⟨m1, e1, h1⟩ := scanLines_prefix _ pre (line :: post) hfirst [] rfl
  rw [e1, scanLines_new m1 line post hmatch h1]
  rw [entriesFor_scanLines_of_has]
  · have := (mapHas_eq_false_iff m1 _).1 h1
    simp only [entriesFor] at this
    simp only [entriesFor, List.filter_append, this, List.nil_append, List.filter_cons,
      decide_True, if_true, List.filter_nil]
  · rw [mapHas_append]
    simp [mapHas]

/-- C3: when the lines of the text split as `pre`, a declaration line, `post`,
and no line of `pre` declares the same PID identifier, the records `parsePIDs`
appends contain exactly one record with that identifier: the record built from
this first declaration line and scanned over the lines after it.  Later
declarations of the identifier (they are among `post`) contribute nothing. -/
theorem parsePIDs_first_declaration_wins (ord : MapOrder) (output : Str)
    (metrics : StreamMetrics) (pre : List Str) (line : Str) (post : List Str)
    (hsplit : Split '\n' output = pre ++ line :: post)
    (hmatch : FindStringSubmatch elementaryStreamRegex line ≠ [])
    (hfirst : ∀ l ∈ pre, FindStringSubmatch elementaryStreamRegex l = [] ∨
      sub (FindStringSubmatch elementaryStreamRegex l) 3 ≠
        sub (FindStringSubmatch elementaryStreamRegex line) 3) :
    ∃ new : List PIDInfo,
      parsePIDs ord output metrics =
        Except.ok { metrics with PIDs := metrics.PIDs ++ new } ∧
      new.filter
          (fun r => decide (r.PID = sub (FindStringSubmatch elementaryStreamRegex line) 3)) =
        [scanWindow (newPID (FindStringSubmatch elementaryStreamRegex line)) post] := by
  refine ⟨_, parsePIDs_ok ord output metrics, ?_⟩
  rw [hsplit]
  have hperm := ((ord.perm (scanLines [] (pre ++ line :: post))).map Prod.snd).filter
    (fun r => decide (r.PID = sub (FindStringSubmatch elementaryStreamRegex line) 3))
  rw [filter_PID_eq_entriesFor _ _ (fun e he => scanLines_entry_PID _ e he),
    entriesFor_first_declaration pre line post hmatch hfirst] at hperm
  exact List.perm_singleton.1 hperm

/-- C3, witness: in the report `redeclared` the identifier `0x0066` is declared
as video with number 102 and language `rus`, then again as audio with number 7
and language `kaz`; whatever the map order, the one record is the first one. -/
theorem parsePIDs_first_declaration_wins_witness :
    (∃ new : List PIDInfo,
      parsePIDs MapOrder.reversed redeclared emptyMetrics =
        Except.ok { emptyMetrics with PIDs := emptyMetrics.PIDs ++ new } ∧
      new.filter
          (fun r => decide (r.PID = sub (FindStringSubmatch elementaryStreamRegex redeclaredFirst) 3)) =
        [scanWindow (newPID (FindStringSubmatch elementaryStreamRegex redeclaredFirst))
          redeclaredRest]) ∧
    sub (FindStringSubmatch elementaryStreamRegex redeclaredFirst) 3 = "0x0066".toList ∧
    scanWindow (newPID (FindStringSubmatch elementaryStreamRegex redeclaredFirst)) redeclaredRest =
      { PID := "0x0066".toList, PIDDecimal := 102, PIDType := "video".toList,
        Codec := "h264".toList, Language := "rus".toList, IsSubtitle := false,
        SubtitleType := [] } :=
  ⟨parsePIDs_first_declaration_wins MapOrder.reversed redeclared emptyMetrics []
      redeclaredFirst redeclaredRest (by decide) (by decide)
      (fun l hl => absurd hl (List.not_mem_nil l)),
    by decide, by decide⟩

/-! ## The shape of a successful `ParseOutput` -/

theorem parseServiceInfo_PIDs (output : Str) (x : StreamMetrics) :
    (parseServiceInfo output x).PIDs = x.PIDs := by
  unfold parseServiceInfo
  simp only
  split_ifs <;> rfl

/-- A snapshot `ParseOutput` returns is the initial one with some bitrate and
the scanned records, passed through `parseServiceInfo` and `UpdateStatus`. -/
theorem ParseOutput_ok_form (ord : MapOrder) (output streamURL description : Str)
    (now0 now1 : Int) (m : StreamMetrics)
    (h : ParseOutput ord output streamURL description now0 now1 = Except.ok m) :
    ∃ b : BitrateInfo,
      m = UpdateStatus now1 (parseServiceInfo output
        { initialMetrics streamURL description now0 with
          Bitrate := b,
          PIDs := (ord.range (scanLines [] (Split '\n' output))).map Prod.snd }) := by
  unfold ParseOutput at h
  simp only [parsePIDs_ok] at h
  split at h
  · cases h
  · rename_i m1 hb
    obtain ⟨b, hb2⟩ := parseBitrate_ok_shape _ _ _ hb
    injection h with h
    refine ⟨b, ?_⟩
    rw [← h, hb2]
    rfl

theorem ParseOutput_ok_PIDs (ord : MapOrder) (output streamURL description : Str)
    (now0 now1 : Int) (m : StreamMetrics)
    (h : ParseOutput ord output streamURL description now0 now1 = Except.ok m) :
    m.PIDs = (ord.range (scanLines [] (Split '\n' output))).map Prod.snd := by
  obtain ⟨b, hm⟩ := ParseOutput_ok_form ord output streamURL description now0 now1 m h
  rw [hm]
  show (parseServiceInfo output _).PIDs = _
  rw [parseServiceInfo_PIDs]

/-- C4 (amended): a snapshot returned by `ParseOutput` contains at most one
record per PID identifier as written in the text (the hex text): no two
records of `PIDs` have the same `PID` field. -/
theorem ParseOutput_PID_identifiers_distinct (ord : MapOrder)
    (output streamURL description : Str) (now0 now1 : Int) (m : StreamMetrics)
    (h : ParseOutput ord output streamURL description now0 now1 = Except.ok m) :
    (m.PIDs.map (fun r => r.PID)).Nodup := by
  rw [ParseOutput_ok_PIDs ord output streamURL description now0 now1 m h]
  have hperm := ((ord.perm (scanLines [] (Split '\n' output))).map Prod.snd).map
    (fun r => r.PID)
  rw [hperm.nodup_iff, map_PID_eq_keys _ (fun e he => scanLines_entry_PID _ e he)]
  exact scanLines_keys_nodup _ [] List.nodup_nil

/-- C4, witness: the report `twoSpellings` parses, and its two records have
distinct identifiers. -/
theorem ParseOutput_PID_identifiers_distinct_witness :
    ∃ m, ParseOutput MapOrder.insertion twoSpellings [] [] 0 0 = Except.ok m ∧
      (m.PIDs.map (fun r => r.PID)).Nodup :=
  ⟨_, rfl, ParseOutput_PID_identifiers_distinct MapOrder.insertion twoSpellings [] [] 0 0 _ rfl⟩

/-- C4, counterexample: the report `twoSpellings` declares PID 102 as `0x66`
and as `0x0066`; the snapshot has two records with the number 102. -/
theorem ParseOutput_same_number_counterexample :
    ∃ m, ParseOutput MapOrder.insertion twoSpellings [] [] 0 0 = Except.ok m ∧
      m.PIDs.map (fun r => (r.PID, r.PIDDecimal)) =
        [("0x66".toList, 102), ("0x0066".toList, 102)] :=
  ⟨_, rfl, by decide⟩

/-- C10: with a map order other than the order of insertion, here the reverse
one, the records of the test report come out with the `kaz` audio PID at index
0 and the video PID at index 2. -/
theorem parsePIDs_reversed_order :
    ∃ m, parsePIDs MapOrder.reversed testOutput1 emptyMetrics = Except.ok m ∧
      m.PIDs.map (fun r => (r.PID, r.PIDType, r.Language)) =
        [ ("0x012F".toList, "audio".toList, "kaz".toList),
          ("0x00CA".toList, "audio".toList, "rus".toList),
          ("0x0066".toList, "video".toList, []) ] :=
  ⟨_, rfl, by decide⟩

/-! ## Class and codec -/

/-! ### Lower case -/

theorem sorted_caseRanges : sortedFrom 0 caseRanges = true := by decide!

theorem sorted_caseRanges_tail : sortedFrom 127 caseRanges.tail = true := by decide!

theorem allPairs_caseRanges :
    allPairs caseRanges =
      (capitalLetters.zip smallLetters).map (fun p => (p.1.toNat, p.2.toNat)) := by decide!

theorem toLowerCase_below (rs : List (Nat × Nat × Int)) (b n : Nat)
    (hs : sortedFrom b rs = true) (hn : n ≤ b) : toLowerCase n rs = n := by
  induction rs generalizing b with
  | nil => rfl
  | cons r rest ih =>
    obtain ⟨lo, hi, delta⟩ := r
    simp only [sortedFrom, Bool.and_eq_true, decide_eq_true_eq] at hs
    obtain ⟨⟨h1, h2⟩, h3⟩ := hs
    have hne : ¬ (lo ≤ n ∧ n ≤ hi) := by omega
    rw [toLowerCase, if_neg hne]
    exact ih hi h3 (by omega)

theorem imageOf_rangePairs (f : Nat → Nat) (L : List Nat) (qs : List (Nat × Nat)) (n : Nat) :
    imageOf (((L.map (fun k => (k, f k))).filter (fun p => decide (p.1 ≠ p.2))) ++ qs) n =
      if n ∈ L ∧ f n ≠ n then f n else imageOf qs n := by
  induction L with
  | nil => simp
  | cons k L ih =>
    by_cases hk : f k = k
    · have e : ((k :: L).map (fun k => (k, f k))).filter (fun p => decide (p.1 ≠ p.2)) =
          (L.map (fun k => (k, f k))).filter (fun p => decide (p.1 ≠ p.2)) := by
        simp [List.filter_cons, hk]
      rw [e, ih]
      by_cases hn : n = k
      · subst hn
        simp [hk]
      · simp [hn]
    · have e : ((k :: L).map (fun k => (k, f k))).filter (fun p => decide (p.1 ≠ p.2)) =
          (k, f k) :: (L.map (fun k => (k, f k))).filter (fun p => decide (p.1 ≠ p.2)) := by
        have : k ≠ f k := fun h => hk h.symm
        simp [List.filter_cons, this]
      rw [e, List.cons_append]
      show (if n = k then f k else _) = _
      rw [ih]
      by_cases hn : n = k
      · subst hn
        simp [hk]
      · simp [hn]

theorem toLowerCase_eq_imageOf (rs : List (Nat × Nat × Int)) (b n : Nat)
    (hs : sortedFrom b rs = true) : toLowerCase n rs = imageOf (allPairs rs) n := by
  induction rs generalizing b with
  | nil => rfl
  | cons r rest ih =>
    obtain ⟨lo, hi, delta⟩ := r
    simp only [sortedFrom, Bool.and_eq_true, decide_eq_true_eq] at hs
    obtain ⟨⟨h1, h2⟩, h3⟩ := hs
    have e : allPairs ((lo, hi, delta) :: rest) =
        ((List.range' lo (hi + 1 - lo)).map
          (fun k => (k, toLowerCase k [(lo, hi, delta)]))).filter
            (fun p => decide (p.1 ≠ p.2)) ++ allPairs rest := by
      simp [allPairs, rangePairs, List.flatMap_cons]
    rw [e, imageOf_rangePairs (fun k => toLowerCase k [(lo, hi, delta)])]
    have hmem : n ∈ List.range' lo (hi + 1 - lo) ↔ lo ≤ n ∧ n ≤ hi := by
      rw [List.mem_range'_1]
      omega
    by_cases hin : lo ≤ n ∧ n ≤ hi
    · have hone : toLowerCase n ((lo, hi, delta) :: rest) = toLowerCase n [(lo, hi, delta)] := by
        simp only [toLowerCase, hin, and_self, if_true]
      rw [hone]
      by_cases hf : toLowerCase n [(lo, hi, delta)] = n
      · rw [if_neg (fun h => h.2 hf), hf, ← ih hi h3]
        exact (toLowerCase_below rest hi n h3 hin.2).symm
      · rw [if_pos ⟨hmem.2 hin, hf⟩]
    · rw [if_neg (fun h => hin (hmem.1 h.1)), ← ih hi h3]
      rw [toLowerCase, if_neg hin]

theorem smallOf_eq_imageOf (us ls : Str) (c : Char) :
    smallOf us ls c =
      Char.ofNat (imageOf ((us.zip ls).map (fun p => (p.1.toNat, p.2.toNat))) c.toNat) := by
  induction us generalizing ls with
  | nil => simp [smallOf, imageOf, Char.ofNat_toNat]
  | cons u us ih =>
    cases ls with
    | nil => simp [smallOf, imageOf, Char.ofNat_toNat]
    | cons l ls =>
      simp only [smallOf, List.zip_cons_cons, List.map_cons, imageOf]
      by_cases h : c = u
      · subst h
        simp [Char.ofNat_toNat]
      · have : c.toNat ≠ u.toNat := fun e =>
          h (by rw [← Char.ofNat_toNat c, e, Char.ofNat_toNat])
        rw [if_neg h, if_neg this]
        exact ih ls

/-- The lower case of Go is the lower case of the tables of letters. -/
theorem toLowerRune_eq (c : Char) : toLowerRune c = lowerCased c := by
  have h1 : toLowerRune c = Char.ofNat (toLowerCase c.toNat caseRanges) := by
    unfold toLowerRune
    by_cases ha : c.toNat ≤ 127
    · rw [if_pos ha]
      have hc : caseRanges = (0x41, 0x5A, 32) :: caseRanges.tail := rfl
      rw [hc]
      by_cases hu : 65 ≤ c.toNat ∧ c.toNat ≤ 90
      · rw [if_pos hu]
        have hd : ¬ ((32 : Int) > maxRune) := by decide
        rw [toLowerCase, if_pos hu, if_neg hd]
        congr 1
      · rw [if_neg hu, toLowerCase, if_neg hu,
          toLowerCase_below _ 127 _ sorted_caseRanges_tail ha, Char.ofNat_toNat]
    · rw [if_neg ha]
  rw [h1, toLowerCase_eq_imageOf caseRanges 0 _ sorted_caseRanges, allPairs_caseRanges]
  exact (smallOf_eq_imageOf capitalLetters smallLetters c).symm

theorem ToLower_ReplaceAll_space (d : Str) :
    ToLower (ReplaceAll d ' ' "_".toList) = normalizedDesc d := by
  induction d with
  | nil => rfl
  | cons c d ih =>
    simp only [ToLower, ReplaceAll, normalizedDesc, List.flatMap_cons, List.map_append,
      List.map_cons] at ih ⊢
    rw [ih]
    by_cases hc : c = ' '
    · subst hc
      have h : List.map toLowerRune "_".toList = ['_'] := by decide
      simp only [if_true, h, List.singleton_append]
    · simp only [hc, if_false, List.map_cons, List.map_nil, List.singleton_append,
        toLowerRune_eq]

/-- The class and codec of a new record, for every type code and description. -/
theorem newPID_class_codec (ms : List Str) :
    ((newPID ms).PIDType, (newPID ms).Codec) = specClassCodec (sub ms 1) (sub ms 2) ∧
    ((newPID ms).PIDType = "video".toList ↔ sub ms 1 ∈ videoCodes) ∧
    ((newPID ms).PIDType = "audio".toList ↔ sub ms 1 ∈ audioCodes) ∧
    (sub ms 1 = "0x06".toList → (newPID ms).PIDType = "data".toList) ∧
    (sub ms 1 ∉ videoCodes → sub ms 1 ∉ audioCodes → sub ms 1 ≠ "0x06".toList →
      (newPID ms).PIDType = "other".toList ∧ (newPID ms).Codec = normalizedDesc (sub ms 2)) := by
  have hP : (newPID ms).PIDType = GetPIDType (sub ms 1) := rfl
  have hC : (newPID ms).Codec =
      if mapGet StreamTypeMap (sub ms 1) = [] then
        ToLower (ReplaceAll (sub ms 2) ' ' "_".toList)
      else mapGet StreamTypeMap (sub ms 1) := rfl
  rw [hP, hC]
  generalize sub ms 1 = t
  generalize sub ms 2 = d
  by_cases h1 : t = "0x1B".toList
  · subst h1; exact ⟨rfl, by decide, by decide, by decide, fun h => absurd h (by decide)⟩
  by_cases h2 : t = "0x10".toList
  · subst h2; exact ⟨rfl, by decide, by decide, by decide, fun h => absurd h (by decide)⟩
  by_cases h3 : t = "0x24".toList
  · subst h3; exact ⟨rfl, by decide, by decide, by decide, fun h => absurd h (by decide)⟩
  by_cases h4 : t = "0x02".toList
  · subst h4; exact ⟨rfl, by decide, by decide, by decide, fun h => absurd h (by decide)⟩
  by_cases h5 : t = "0x03".toList
  · subst h5; exact ⟨rfl, by decide, by decide, by decide, fun _ h => absurd h (by decide)⟩
  by_cases h6 : t = "0x04".toList
  · subst h6; exact ⟨rfl, by decide, by decide, by decide, fun _ h => absurd h (by decide)⟩
  by_cases h7 : t = "0x0F".toList
  · subst h7; exact ⟨rfl, by decide, by decide, by decide, fun _ h => absurd h (by decide)⟩
  by_cases h8 : t = "0x11".toList
  · subst h8; exact ⟨rfl, by decide, by decide, by decide, fun _ h => absurd h (by decide)⟩
  by_cases h9 : t = "0x81".toList
  · subst h9; exact ⟨rfl, by decide, by decide, by decide, fun _ h => absurd h (by decide)⟩
  by_cases h10 : t = "0x87".toList
  · subst h10; exact ⟨rfl, by decide, by decide, by decide, fun _ h => absurd h (by decide)⟩
  by_cases h11 : t = "0x06".toList
  · subst h11; exact ⟨rfl, by decide, by decide, by decide, fun _ _ h => absurd rfl h⟩
  have hG : GetPIDType t = "other".toList := by
    simp only [GetPIDType, h1, h2, h3, h4, h5, h6, h7, h8, h9, h10, h11, or_self, if_false]
  have hM : mapGet StreamTypeMap t = [] := by
    simp only [StreamTypeMap, mapGet, h1, h2, h3, h4, h5, h6, h7, h8, h9, h10, h11, if_false]
  have hS : specClassCodec t d = ("other".toList, normalizedDesc d) := by
    simp only [specClassCodec, documentedTypes, List.find?, h1, h2, h3, h4, h5, h6, h7, h8,
      h9, h10, h11, decide_False]
  rw [hG, hM, hS, if_pos rfl, ToLower_ReplaceAll_space]
  refine ⟨rfl, ?_, ?_, fun h => absurd h h11, fun _ _ _ => ⟨rfl, rfl⟩⟩
  · constructor
    · intro h; exact absurd h (by decide)
    · intro h
      simp only [videoCodes, List.mem_cons, List.mem_nil_iff, or_false, h1, h2, h3, h4,
        or_self] at h
  · constructor
    · intro h; exact absurd h (by decide)
    · intro h
      simp only [audioCodes, List.mem_cons, List.mem_nil_iff, or_false, h5, h6, h7, h8, h9,
        h10, or_self] at h

/-- C5: every record `parsePIDs` appends comes from a declaration line of the
text with type code `t` and description `d`, and for that line: the class is
`video` exactly when `t` is one of `0x1B`, `0x10`, `0x24`, `0x02`, `audio`
exactly when `t` is one of `0x03`, `0x04`, `0x0F`, `0x11`, `0x81`, `0x87`,
`data` when `t` is `0x06`, and `other` for every remaining code; class and
codec are those of the table of the eleven documented codes and, for an
undocumented code, the codec is `d` lower-cased with every space replaced by an
underscore. -/
theorem parsePIDs_class_codec (ord : MapOrder) (output : Str) (metrics : StreamMetrics) :
    ∃ new : List PIDInfo,
      parsePIDs ord output metrics =
        Except.ok { metrics with PIDs := metrics.PIDs ++ new } ∧
      ∀ r ∈ new, ∃ line ∈ Split '\n' output, ∃ t d : Str,
        FindStringSubmatch elementaryStreamRegex line ≠ [] ∧
        t = sub (FindStringSubmatch elementaryStreamRegex line) 1 ∧
        d = sub (FindStringSubmatch elementaryStreamRegex line) 2 ∧
        r.PID = sub (FindStringSubmatch elementaryStreamRegex line) 3 ∧
        (r.PIDType, r.Codec) = specClassCodec t d ∧
        (r.PIDType = "video".toList ↔ t ∈ videoCodes) ∧
        (r.PIDType = "audio".toList ↔ t ∈ audioCodes) ∧
        (t = "0x06".toList → r.PIDType = "data".toList) ∧
        (t ∉ videoCodes → t ∉ audioCodes → t ≠ "0x06".toList →
          r.PIDType = "other".toList ∧ r.Codec = normalizedDesc d) := by
  refine ⟨_, parsePIDs_ok ord output metrics, ?_⟩
  intro r hr
  obtain ⟨e, he, rfl⟩ := List.mem_map.1 hr
  have he2 : e ∈ scanLines [] (Split '\n' output) := (ord.perm _).mem_iff.1 he
  rcases scanLines_mem _ [] e he2 with h | ⟨line, hl, post, hm, h⟩
  · cases h
  · refine ⟨line, hl, _, _, hm, rfl, rfl, ?_⟩
    obtain ⟨f1, _, f3, f4⟩ := scanWindow_fixed post
      (newPID (FindStringSubmatch elementaryStreamRegex line))
    rw [h]
    simp only
    rw [f1, f3, f4]
    exact ⟨rfl, newPID_class_codec _⟩

/-- C5, witness: a declaration with the undocumented type code `0x99` and the
description `ÉCOLE Ж Video` gives a record of class `other` whose codec is the
description in lower case with underscores, `école_ж_video`. -/
theorem parsePIDs_class_codec_witness :
    (∃ new : List PIDInfo,
      parsePIDs MapOrder.insertion unknownCodeReport emptyMetrics =
        Except.ok { emptyMetrics with PIDs := emptyMetrics.PIDs ++ new } ∧
      ∀ r ∈ new, ∃ line ∈ Split '\n' unknownCodeReport, ∃ t d : Str,
        FindStringSubmatch elementaryStreamRegex line ≠ [] ∧
        t = sub (FindStringSubmatch elementaryStreamRegex line) 1 ∧
        d = sub (FindStringSubmatch elementaryStreamRegex line) 2 ∧
        r.PID = sub (FindStringSubmatch elementaryStreamRegex line) 3 ∧
        (r.PIDType, r.Codec) = specClassCodec t d ∧
        (r.PIDType = "video".toList ↔ t ∈ videoCodes) ∧
        (r.PIDType = "audio".toList ↔ t ∈ audioCodes) ∧
        (t = "0x06".toList → r.PIDType = "data".toList) ∧
        (t ∉ videoCodes → t ∉ audioCodes → t ≠ "0x06".toList →
          r.PIDType = "other".toList ∧ r.Codec = normalizedDesc d)) ∧
    sub (FindStringSubmatch elementaryStreamRegex unknownCodeReport) 1 = "0x99".toList ∧
    sub (FindStringSubmatch elementaryStreamRegex unknownCodeReport) 2 =
      "ÉCOLE Ж Video".toList ∧
    normalizedDesc "ÉCOLE Ж Video".toList = "école_ж_video".toList ∧
    specClassCodec "0x99".toList "ÉCOLE Ж Video".toList =
      ("other".toList, "école_ж_video".toList) ∧
    specClassCodec "0x1B".toList "AVC video".toList = ("video".toList, "h264".toList) ∧
    ∃ m, parsePIDs MapOrder.insertion unknownCodeReport emptyMetrics = Except.ok m ∧
      m.PIDs.map (fun r => (r.PID, r.PIDType, r.Codec)) =
        [("0x0BB9".toList, "other".toList, "école_ж_video".toList)] :=
  ⟨parsePIDs_class_codec MapOrder.insertion unknownCodeReport emptyMetrics,
    by decide, by decide, by decide!, by decide!, by decide, _, rfl, by decide⟩

/-! ## Service classification -/

theorem toUpperRune_eq_H (c : Char) : toUpperRune c = 'H' ↔ (c = 'h' ∨ c = 'H') := by
  have hc : c = Char.ofNat c.toNat := (Char.ofNat_toNat c).symm
  by_cases h : 97 ≤ c.toNat ∧ c.toNat ≤ 122
  · unfold toUpperRune
    rw [if_pos h]
    obtain ⟨h1, h2⟩ := h
    generalize c.toNat = n at hc h1 h2
    subst hc
    interval_cases n <;> decide
  · have n1 : c ≠ 'h' := by
      intro e; subst e; exact h (by decide)
    unfold toUpperRune
    rw [if_neg h]
    split_ifs with h1 h2
    · exact ⟨fun e => absurd e (by decide),
        fun e => e.elim (fun e => absurd e n1) (fun e => by subst e; exact absurd h1 (by decide))⟩
    · exact ⟨fun e => absurd e (by decide),
        fun e => e.elim (fun e => absurd e n1) (fun e => by subst e; exact absurd h2 (by decide))⟩
    · exact ⟨fun e => Or.inr e, fun e => e.elim (fun e => absurd e n1) id⟩

theorem toUpperRune_eq_D (c : Char) : toUpperRune c = 'D' ↔ (c = 'd' ∨ c = 'D') := by
  have hc : c = Char.ofNat c.toNat := (Char.ofNat_toNat c).symm
  by_cases h : 97 ≤ c.toNat ∧ c.toNat ≤ 122
  · unfold toUpperRune
    rw [if_pos h]
    obtain ⟨h1, h2⟩ := h
    generalize c.toNat = n at hc h1 h2
    subst hc
    interval_cases n <;> decide
  · have n1 : c ≠ 'd' := by
      intro e; subst e; exact h (by decide)
    unfold toUpperRune
    rw [if_neg h]
    split_ifs with h1 h2
    · exact ⟨fun e => absurd e (by decide),
        fun e => e.elim (fun e => absurd e n1) (fun e => by subst e; exact absurd h1 (by decide))⟩
    · exact ⟨fun e => absurd e (by decide),
        fun e => e.elim (fun e => absurd e n1) (fun e => by subst e; exact absurd h2 (by decide))⟩
    · exact ⟨fun e => Or.inr e, fun e => e.elim (fun e => absurd e n1) id⟩

theorem hd_cases (p q r s A B C D : Prop) :
    (((p ∨ q) ∧ (r ∨ s)) ∨ (((A ∨ B) ∨ C) ∨ D)) ↔
      ((((p ∧ r) ∨ A) ∨ ((q ∧ r) ∨ B)) ∨ ((p ∧ s) ∨ C)) ∨ ((q ∧ s) ∨ D) := by
  tauto

theorem Contains_pair_single (x y c : Char) : Contains [c] [x, y] = false := by
  simp [Contains, HasPrefix]

theorem Contains_pair_cons (x y c1 c2 : Char) (s : Str) :
    Contains (c1 :: c2 :: s) [x, y] =
      ((decide (c1 = x) && decide (c2 = y)) || Contains (c2 :: s) [x, y]) := by
  have : HasPrefix (c1 :: c2 :: s) [x, y] = (decide (c1 = x) && decide (c2 = y)) := by
    simp [HasPrefix]
  rw [Contains, this]

/-- Upper-casing and looking for `HD` finds `HD` in any letter case. -/
theorem Contains_ToUpper_HD (d : Str) :
    Contains (ToUpper d) "HD".toList = containsHD d := by
  have e1 : "HD".toList = ['H', 'D'] := rfl
  have e2 : "hd".toList = ['h', 'd'] := rfl
  have e3 : "Hd".toList = ['H', 'd'] := rfl
  have e4 : "hD".toList = ['h', 'D'] := rfl
  unfold containsHD
  rw [e1, e2, e3, e4]
  induction d with
  | nil => rfl
  | cons c1 t ih =>
    cases t with
    | nil => simp [ToUpper, Contains_pair_single]
    | cons c2 s =>
      have ih2 : Contains (toUpperRune c2 :: List.map toUpperRune s) ['H', 'D'] = _ := ih
      simp only [ToUpper, List.map_cons, Contains_pair_cons] at ih2 ⊢
      rw [ih2]
      have hH := toUpperRune_eq_H c1
      have hD := toUpperRune_eq_D c2
      rw [Bool.eq_iff_iff]
      simp only [Bool.or_eq_true, Bool.and_eq_true, decide_eq_true_eq, hH, hD]
      exact hd_cases _ _ _ _ _ _ _ _

/-- The service type `parseServiceInfo` leaves in the snapshot. -/
theorem parseServiceInfo_ServiceType (output : Str) (x : StreamMetrics) :
    (parseServiceInfo output x).ServiceInfo.ServiceType =
      if FindStringSubmatch serviceTypeRegex output = [] then x.ServiceInfo.ServiceType
      else if containsHD (sub (FindStringSubmatch serviceTypeRegex output) 2) then "HD".toList
      else "SD".toList := by
  unfold parseServiceInfo
  simp only [Contains_ToUpper_HD]
  by_cases h : FindStringSubmatch serviceTypeRegex output = []
  · rw [if_pos h]
    simp only [h, List.length_nil, gt_iff_lt, lt_self_iff_false, if_false]
    split_ifs <;> rfl
  · rw [if_neg h]
    have hl : (FindStringSubmatch serviceTypeRegex output).length > 0 := List.length_pos.2 h
    simp only [hl, if_true]
    split_ifs <;> rfl

/-- C6: when the leftmost match of the service-type pattern has description
`d`, `parseServiceInfo` sets `ServiceType` to `HD` if `d` contains `HD` in any
letter case (`hd`, `Hd`, `hD`, `HD`) and to `SD` otherwise. -/
theorem parseServiceInfo_HD_or_SD (output : Str) (metrics : StreamMetrics) (w code d : Str)
    (h : FindStringSubmatch serviceTypeRegex output = [w, code, d]) :
    (parseServiceInfo output metrics).ServiceInfo.ServiceType =
      if containsHD d then "HD".toList else "SD".toList := by
  rw [parseServiceInfo_ServiceType, h, if_neg (List.cons_ne_nil _ _)]
  rfl

/-- C6, witness: the service-type line of the test report gives `HD`. -/
theorem parseServiceInfo_HD_or_SD_witness :
    (parseServiceInfo testOutput1 emptyMetrics).ServiceInfo.ServiceType =
        (if containsHD "Advanced codec HD digital television service".toList then "HD".toList
          else "SD".toList) ∧
      containsHD "Advanced codec HD digital television service".toList = true :=
  ⟨parseServiceInfo_HD_or_SD testOutput1 emptyMetrics
      "Service type: 0x19 (Advanced codec HD digital television service)".toList
      "0x19".toList "Advanced codec HD digital television service".toList (by decide),
    by decide⟩

/-- C7 (amended): in a snapshot returned by `ParseOutput` the service type is
the empty text when the text has no match of the service-type pattern, and
otherwise it is `HD` when the description of the leftmost match contains `HD`
in any letter case and `SD` when it does not. -/
theorem ParseOutput_ServiceType (ord : MapOrder) (output streamURL description : Str)
    (now0 now1 : Int) (m : StreamMetrics)
    (h : ParseOutput ord output streamURL description now0 now1 = Except.ok m) :
    (FindStringSubmatch serviceTypeRegex output = [] → m.ServiceInfo.ServiceType = []) ∧
    (FindStringSubmatch serviceTypeRegex output ≠ [] →
      m.ServiceInfo.ServiceType =
        if containsHD (sub (FindStringSubmatch serviceTypeRegex output) 2) then "HD".toList
        else "SD".toList) := by
  obtain ⟨b, hm⟩ := ParseOutput_ok_form ord output streamURL description now0 now1 m h
  have hs : m.ServiceInfo.ServiceType = (parseServiceInfo output
      { initialMetrics streamURL description now0 with
        Bitrate := b,
        PIDs := (ord.range (scanLines [] (Split '\n' output))).map Prod.snd }).ServiceInfo.ServiceType := by
    rw [hm]; rfl
  rw [hs, parseServiceInfo_ServiceType]
  constructor
  · intro h0; rw [if_pos h0]; rfl
  · intro h0; rw [if_neg h0]

/-- C7, witness: the test report parses with service type `HD`. -/
theorem ParseOutput_ServiceType_witness :
    ∃ m, ParseOutput MapOrder.insertion testOutput1 [] [] 0 0 = Except.ok m ∧
      m.ServiceInfo.ServiceType = "HD".toList := by
  refine ⟨_, rfl, ?_⟩
  have h := (ParseOutput_ServiceType MapOrder.insertion testOutput1 [] [] 0 0 _ rfl).2 (by decide)
  rw [h]
  decide

/-- C7, counterexample: on a report whose service-type line has an empty
description, so no match of the pattern, `ParseOutput` succeeds and the service
type is the empty text, neither `HD` nor `SD`. -/
theorem ParseOutput_no_service_type_counterexample :
    ∃ m, ParseOutput MapOrder.insertion emptyServiceType [] [] 0 0 = Except.ok m ∧
      m.ServiceInfo.ServiceType = [] ∧
      m.ServiceInfo.ServiceType ≠ "HD".toList ∧ m.ServiceInfo.ServiceType ≠ "SD".toList :=
  ⟨_, rfl, by decide⟩

/-! ## The test report, end to end -/

theorem ParseOutput_eq (ord : MapOrder) (output streamURL description : Str)
    (now0 now1 : Int) :
    ParseOutput ord output streamURL description now0 now1 =
      match parseBitrate output (initialMetrics streamURL description now0) with
      | Except.error err => Except.error (Error.wrap "failed to parse bitrate" err)
      | Except.ok m1 =>
        Except.ok (UpdateStatus now1 (parseServiceInfo output
          { m1 with
            PIDs := m1.PIDs ++ (ord.range (scanLines [] (Split '\n' output))).map Prod.snd })) :=
  rfl

/-- The fields `parseServiceInfo` does not touch. -/
theorem parseServiceInfo_fixed (output : Str) (x : StreamMetrics) :
    parseServiceInfo output x =
      { x with
        ServiceInfo := (parseServiceInfo output x).ServiceInfo,
        TSID := (parseServiceInfo output x).TSID } := by
  unfold parseServiceInfo
  simp only
  split_ifs <;> rfl

/-- The transport-stream identifier `parseServiceInfo` leaves in the snapshot. -/
theorem parseServiceInfo_TSID (output : Str) (x : StreamMetrics) :
    (parseServiceInfo output x).TSID =
      if FindStringSubmatch tsidRegex output = [] then x.TSID
      else sub (FindStringSubmatch tsidRegex output) 1 := by
  unfold parseServiceInfo
  by_cases h : FindStringSubmatch tsidRegex output = []
  · rw [if_pos h]
    simp only [h, List.length_nil, gt_iff_lt, lt_self_iff_false, if_false]
    split_ifs <;> rfl
  · rw [if_neg h]
    have hl : (FindStringSubmatch tsidRegex output).length > 0 := List.length_pos.2 h
    simp only [hl, if_true]
    split_ifs <;> rfl

/-- The service name and provider `parseServiceInfo` leaves in the snapshot. -/
theorem parseServiceInfo_names (output : Str) (x : StreamMetrics) :
    ((parseServiceInfo output x).ServiceInfo.ServiceName,
        (parseServiceInfo output x).ServiceInfo.Provider) =
      if FindStringSubmatch serviceRegex output = [] then
        (x.ServiceInfo.ServiceName, x.ServiceInfo.Provider)
      else (sub (FindStringSubmatch serviceRegex output) 1,
        sub (FindStringSubmatch serviceRegex output) 2) := by
  unfold parseServiceInfo
  by_cases h : FindStringSubmatch serviceRegex output = []
  · rw [if_pos h]
    simp only [h, List.length_nil, gt_iff_lt, lt_self_iff_false, if_false]
    split_ifs <;> rfl
  · rw [if_neg h]
    have hl : (FindStringSubmatch serviceRegex output).length > 0 := List.length_pos.2 h
    simp only [hl, if_true]
    split_ifs <;> rfl

theorem scanLines_testOutput1 : scanLines [] (Split '\n' testOutput1) = fixturePIDs := by
  decide

/-- C9: `ParseOutput` on the test report `testOutput1`, with the status
evaluated less than 5 seconds after the snapshot is built, succeeds with total
5077945, net 4758039, exactly 3 PID records (the video PID `0x0066`, the audio
PID `0x00CA` with language `rus` and the audio PID `0x012F` with language
`kaz`, in the order of the map), TSID `0x000C`, service name `Silk Way`,
provider `OTCNET`, service type `HD`, status true, and the stream URL and
description passed in. -/
theorem ParseOutput_fixture (ord : MapOrder) (streamURL description : Str) (now0 now1 : Int)
    (hnow : now1 - now0 < 5 * 1000000000) :
    ∃ m, ParseOutput ord testOutput1 streamURL description now0 now1 = Except.ok m ∧
      m.Bitrate.TotalBPS = 5077945 ∧ m.Bitrate.NetBPS = 4758039 ∧
      m.PIDs.length = 3 ∧ m.PIDs.Perm (fixturePIDs.map Prod.snd) ∧
      m.TSID = "0x000C".toList ∧
      m.ServiceInfo.ServiceName = "Silk Way".toList ∧
      m.ServiceInfo.Provider = "OTCNET".toList ∧
      m.ServiceInfo.ServiceType = "HD".toList ∧
      m.Status = true ∧ m.StreamURL = streamURL ∧ m.Description = description := by
  have hb := parseBitrate_of_match testOutput1 (initialMetrics streamURL description now0)
    "TS bitrate: 5,077,945 bits/s, net bitrate: 4,758,039 bits/s".toList
    "5,077,945".toList "4,758,039".toList
    (by decide) (by decide) (by decide) (by decide) (by decide) (by decide) (by decide)
  have hperm : ((ord.range fixturePIDs).map Prod.snd).Perm (fixturePIDs.map Prod.snd) :=
    (ord.perm fixturePIDs).map Prod.snd
  rw [ParseOutput_eq, hb]
  simp only [scanLines_testOutput1]
  refine ⟨_, rfl, ?_⟩
  generalize hx : ({ initialMetrics streamURL description now0 with
      Bitrate := { TotalBPS := (decimalValue (deleteCommas "5,077,945".toList) : Int),
                   NetBPS := (decimalValue (deleteCommas "4,758,039".toList) : Int) },
      PIDs := (initialMetrics streamURL description now0).PIDs ++
        (ord.range fixturePIDs).map Prod.snd } : StreamMetrics) = x
  have x1 : x.Bitrate.TotalBPS = 5077945 := by
    rw [← hx]
    show ((decimalValue (deleteCommas "5,077,945".toList) : Nat) : Int) = 5077945
    decide
  have x2 : x.Bitrate.NetBPS = 4758039 := by
    rw [← hx]
    show ((decimalValue (deleteCommas "4,758,039".toList) : Nat) : Int) = 4758039
    decide
  have x3 : x.PIDs = (ord.range fixturePIDs).map Prod.snd := by rw [← hx]; rfl
  have x4 : x.StreamURL = streamURL := by rw [← hx]; rfl
  have x5 : x.Description = description := by rw [← hx]; rfl
  have x6 : x.LastSeen = now0 := by rw [← hx]; rfl
  have hfix := parseServiceInfo_fixed testOutput1 x
  have hT := parseServiceInfo_TSID testOutput1 x
  have hN := parseServiceInfo_names testOutput1 x
  have hS := parseServiceInfo_ServiceType testOutput1 x
  have t1 : FindStringSubmatch tsidRegex testOutput1 =
      ["Transport Stream Id: 0x000C (12)".toList, "0x000C".toList, "12".toList] := by decide
  have t2 : FindStringSubmatch serviceRegex testOutput1 =
      ["Service: \"Silk Way\", Provider: \"OTCNET\"".toList, "Silk Way".toList,
        "OTCNET".toList] := by decide
  have t3 : FindStringSubmatch serviceTypeRegex testOutput1 =
      ["Service type: 0x19 (Advanced codec HD digital television service)".toList,
        "0x19".toList, "Advanced codec HD digital television service".toList] := by decide
  have t4 : containsHD "Advanced codec HD digital television service".toList = true := by
    decide
  rw [t1, if_neg (List.cons_ne_nil _ _)] at hT
  rw [t2, if_neg (List.cons_ne_nil _ _)] at hN
  rw [t3, if_neg (List.cons_ne_nil _ _)] at hS
  have hS2 : (parseServiceInfo testOutput1 x).ServiceInfo.ServiceType = "HD".toList := by
    rw [hS]
    show (if containsHD "Advanced codec HD digital television service".toList = true then
      "HD".toList else "SD".toList) = "HD".toList
    rw [if_pos t4]
  have hN1 := congrArg Prod.fst hN
  have hN2 := congrArg Prod.snd hN
  have hP : (parseServiceInfo testOutput1 x).PIDs = (ord.range fixturePIDs).map Prod.snd := by
    rw [parseServiceInfo_PIDs, x3]
  have hB : (parseServiceInfo testOutput1 x).Bitrate = x.Bitrate := by rw [hfix]
  have hL : (parseServiceInfo testOutput1 x).LastSeen = now0 := by rw [hfix]; exact x6
  have hlen : ((ord.range fixturePIDs).map Prod.snd).length = 3 := hperm.length_eq
  have hT2 : (parseServiceInfo testOutput1 x).TSID = "0x000C".toList := hT
  have hN3 : (parseServiceInfo testOutput1 x).ServiceInfo.ServiceName = "Silk Way".toList := hN1
  have hN4 : (parseServiceInfo testOutput1 x).ServiceInfo.Provider = "OTCNET".toList := hN2
  have hU : (parseServiceInfo testOutput1 x).StreamURL = streamURL := by rw [hfix]; exact x4
  have hD : (parseServiceInfo testOutput1 x).Description = description := by
    rw [hfix]; exact x5
  have hB1 : (parseServiceInfo testOutput1 x).Bitrate.TotalBPS = 5077945 := by rw [hB, x1]
  have hB2 : (parseServiceInfo testOutput1 x).Bitrate.NetBPS = 4758039 := by rw [hB, x2]
  clear hfix hT hN hS hN1 hN2 hB
  generalize parseServiceInfo testOutput1 x = y at *
  have hSt : (UpdateStatus now1 y).Status = true := by
    rw [UpdateStatus_Status_iff, hB1, hP, hL]
    refine ⟨by omega, ?_, hnow⟩
    intro h0
    rw [h0] at hlen
    cases hlen
  refine ⟨hB1, hB2, ?_, ?_, hT2, hN3, hN4, hS2, hSt, hU, hD⟩
  · show y.PIDs.length = 3
    rw [hP, hlen]
  · show y.PIDs.Perm _
    rw [hP]; exact hperm

/-- C9, witness: the status is evaluated one millisecond after the snapshot is
built. -/
theorem ParseOutput_fixture_witness :
    ∃ m, ParseOutput MapOrder.insertion testOutput1 "233.198.134.1:3333".toList
        "Test Stream".toList 0 1000000 = Except.ok m ∧
      m.Bitrate.TotalBPS = 5077945 ∧ m.Bitrate.NetBPS = 4758039 ∧
      m.PIDs.length = 3 ∧ m.PIDs.Perm (fixturePIDs.map Prod.snd) ∧
      m.TSID = "0x000C".toList ∧
      m.ServiceInfo.ServiceName = "Silk Way".toList ∧
      m.ServiceInfo.Provider = "OTCNET".toList ∧
      m.ServiceInfo.ServiceType = "HD".toList ∧
      m.Status = true ∧ m.StreamURL = "233.198.134.1:3333".toList ∧
      m.Description = "Test Stream".toList :=
  ParseOutput_fixture MapOrder.insertion "233.198.134.1:3333".toList "Test Stream".toList
    0 1000000 (by decide)

/-! ## Configuration -/

theorem validateStreams_none_iff (streams : List Stream) (i : Nat) :
    validateStreams i streams = none ↔
      ∀ s ∈ streams, s.URL ≠ [] ∧ s.Description ≠ [] := by
  induction streams generalizing i with
  | nil => simp [validateStreams]
  | cons s rest ih =>
    simp only [validateStreams, List.mem_cons, forall_eq_or_imp]
    by_cases h1 : s.URL = []
    · simp [h1]
    · by_cases h2 : s.Description = []
      · simp [h1, h2]
      · simp only [h1, h2, if_false, ne_eq, not_false_eq_true, and_self, true_and]
        exact ih (i + 1)

/-- C12: `Validate` returns no error if and only if the interface is
non-empty, the metrics port is from 1 to 65535, the stream list is non-empty
and every stream has a non-empty URL and a non-empty description; of the cases
of `TestValidate`, the fully populated configuration is accepted and the ones
with a missing interface, with port 99999 and with no streams are rejected. -/
theorem Validate_spec :
    (∀ c : Config, c.Validate.2 = none ↔
      (c.Interface ≠ [] ∧ 1 ≤ c.MetricsPort ∧ c.MetricsPort ≤ 65535 ∧ c.Streams ≠ [] ∧
        ∀ s ∈ c.Streams, s.URL ≠ [] ∧ s.Description ≠ [])) ∧
    testValidConfig.Validate.2 = none ∧
    testMissingInterface.Validate.2 = some ConfigError.interfaceRequired ∧
    testInvalidPort.Validate.2 = some (ConfigError.invalidMetricsPort 99999) ∧
    testNoStreams.Validate.2 = some ConfigError.noStreams := by
  refine ⟨?_, by decide, by decide, by decide, by decide⟩
  intro c
  unfold Config.Validate
  by_cases h1 : c.Interface = []
  · simp [h1]
  · by_cases h2 : c.MetricsPort ≤ 0 ∨ c.MetricsPort > 65535
    · simp only [h1, h2, if_false, if_true]
      constructor
      · intro h; cases h
      · rintro ⟨_, h3, h4, _⟩
        omega
    · have hs : ∀ c1 : Config, c1.Streams = c.Streams →
          ((if c1.Streams.length = 0 then (c1, some ConfigError.noStreams)
            else (c1, validateStreams 0 c1.Streams)).2 = none ↔
          (c.Streams ≠ [] ∧ ∀ s ∈ c.Streams, s.URL ≠ [] ∧ s.Description ≠ [])) := by
        intro c1 e
        rw [e]
        by_cases h3 : c.Streams = []
        · simp [h3]
        · have h4 : ¬ c.Streams.length = 0 := by simpa using h3
          simp only [h4, if_false, validateStreams_none_iff, ne_eq, h3, not_false_eq_true,
            true_and]
      simp only [h1, h2, if_false]
      have hp : 1 ≤ c.MetricsPort ∧ c.MetricsPort ≤ 65535 := by omega
      simp only [ne_eq, h1, not_false_eq_true, hp.1, hp.2, true_and]
      apply hs
      split_ifs <;> rfl

/-! ## The watchdog -/

theorem timeSub_gt_ten (t u : Int) :
    timeSub t u > 10 * 1000000000 ↔ t - u > 10 * 1000000000 := by
  unfold timeSub maxInt64 minInt64
  split_ifs <;> omega

/-- C15: the watchdog builds a snapshot exactly when more than 10 seconds have
elapsed since `lastUpdate`; the snapshot has the identity of the supervisor,
`Status` false, no PID records, zero total and net bitrate, no continuity-error
deltas and `LastSeen` equal to `lastUpdate`; and `UpdateStatus` at any time
leaves its `Status` false. -/
theorem watchdogSnapshot_offline (streamURL description : Str) (now lastUpdate : Int) :
    watchdogSnapshot streamURL description now lastUpdate =
        (if now - lastUpdate > 10 * 1000000000 then
          some (offlineMetrics streamURL description lastUpdate)
        else none) ∧
    (offlineMetrics streamURL description lastUpdate).StreamURL = streamURL ∧
    (offlineMetrics streamURL description lastUpdate).Description = description ∧
    (offlineMetrics streamURL description lastUpdate).Status = false ∧
    (offlineMetrics streamURL description lastUpdate).PIDs = [] ∧
    (offlineMetrics streamURL description lastUpdate).Bitrate = { TotalBPS := 0, NetBPS := 0 } ∧
    (offlineMetrics streamURL description lastUpdate).CCErrors = [] ∧
    (offlineMetrics streamURL description lastUpdate).LastSeen = lastUpdate ∧
    ∀ t : Int,
      (UpdateStatus t (offlineMetrics streamURL description lastUpdate)).Status = false := by
  refine ⟨?_, rfl, rfl, rfl, rfl, rfl, rfl, rfl, fun t => ?_⟩
  · unfold watchdogSnapshot
    by_cases h : now - lastUpdate > 10 * 1000000000
    · rw [if_pos h, if_pos ((timeSub_gt_ten _ _).2 h)]
    · rw [if_neg h, if_neg (fun h2 => h ((timeSub_gt_ten _ _).1 h2))]
  · simp [UpdateStatus, offlineMetrics]

/-! ## The line buffer -/

theorem truncateTo_suffix (content : Bytes) (keep : Int) :
    truncateTo content keep <:+ content := by
  unfold truncateTo
  exact List.drop_suffix _ _

theorem truncateTo_eq (content : Bytes) (keep : Nat) (h : keep ≤ content.length) :
    truncateTo content (keep : Int) = content.drop (content.length - keep) ∧
      (truncateTo content (keep : Int)).length = keep := by
  unfold truncateTo
  have h1 : ¬ ((content.length : Int) - (keep : Int) < 0) := by omega
  have h2 : ((content.length : Int) - (keep : Int)).toNat = content.length - keep := by omega
  simp only [h1, if_false, h2, List.length_drop]
  constructor
  · trivial
  · omega

/-- C16: after the per-line step the buffer is a suffix of the old content
followed by the line and a newline; it has at most `2 * 512000` bytes; and
after a step whose line contains the marker `bitrate_monitor:` it has at most
512000 bytes, and is exactly the last 256000 bytes of the old content, line
and newline when these were more than 512000 bytes. -/
theorem lineStep_bounded (buffer line : Bytes) :
    lineStep buffer line <:+ buffer ++ line ++ [10] ∧
    (lineStep buffer line).length ≤ 2 * 512000 ∧
    (containsBytes line bitrateMarker = true →
      (lineStep buffer line).length ≤ 512000 ∧
      ((buffer ++ line ++ [10]).length > 512000 →
        lineStep buffer line =
            (buffer ++ line ++ [10]).drop ((buffer ++ line ++ [10]).length - 256000) ∧
          (lineStep buffer line).length = 256000)) := by
  have hmax : maxBufferSize = 512000 := by decide
  have hhalf : maxBufferSize / 2 = ((256000 : Nat) : Int) := by decide
  have hfull : maxBufferSize = ((512000 : Nat) : Int) := by decide
  unfold lineStep
  generalize buffer ++ line ++ [10] = b1
  by_cases hm : containsBytes line bitrateMarker = true
  · simp only [hm, if_true]
    by_cases h1 : (b1.length : Int) > maxBufferSize
    · have hlen : 256000 ≤ b1.length := by rw [hmax] at h1; omega
      obtain ⟨e1, e2⟩ := truncateTo_eq b1 256000 hlen
      simp only [h1, if_true, hhalf, e2]
      have h2 : ¬ (((256000 : Nat) : Int) > maxBufferSize * 2) := by rw [hmax]; omega
      simp only [h2, if_false, e2]
      refine ⟨truncateTo_suffix _ _, by omega, fun _ => ⟨by omega, fun _ => ⟨e1, trivial⟩⟩⟩
    · simp only [h1, if_false]
      have h2 : ¬ ((b1.length : Int) > maxBufferSize * 2) := by rw [hmax] at h1 ⊢; omega
      simp only [h2, if_false]
      rw [hmax] at h1
      refine ⟨List.suffix_refl _, by omega, fun _ => ⟨by omega, fun h3 => ?_⟩⟩
      omega
  · simp only [hm, if_false, Bool.false_eq_true]
    by_cases h2 : (b1.length : Int) > maxBufferSize * 2
    · have hlen : 512000 ≤ b1.length := by rw [hmax] at h2; omega
      obtain ⟨_, e2⟩ := truncateTo_eq b1 512000 hlen
      rw [if_pos h2, hfull]
      refine ⟨truncateTo_suffix _ _, by rw [e2]; omega, fun h => absurd h (by simp)⟩
    · rw [if_neg h2]
      rw [hmax] at h2
      refine ⟨List.suffix_refl _, by omega, fun h => absurd h (by simp)⟩

/-! ## `float64` rounding -/

theorem halvings_spec (fuel : Nat) : ∀ n : Nat, n < 2 ^ 53 * 2 ^ fuel →
    n / 2 ^ halvings fuel n < 2 ^ 53 ∧
      (halvings fuel n ≠ 0 → 2 ^ 53 ≤ n / 2 ^ (halvings fuel n - 1)) := by
  induction fuel with
  | zero =>
    intro n h
    simp only [halvings, pow_zero, Nat.div_one, ne_eq, not_true_eq_false, false_implies,
      and_true]
    simpa using h
  | succ fuel ih =>
    intro n h
    by_cases hn : n < 2 ^ 53
    · simp only [halvings, hn, if_true, pow_zero, Nat.div_one, ne_eq, not_true_eq_false,
        false_implies, and_true]
    · have h2 : n / 2 < 2 ^ 53 * 2 ^ fuel := by
        rw [pow_succ] at h
        omega
      obtain ⟨a, b⟩ := ih (n / 2) h2
      simp only [halvings, hn, if_false, Nat.add_sub_cancel]
      constructor
      · rw [pow_succ, mul_comm, ← Nat.div_div_eq_div_mul]
        exact a
      · intro _
        by_cases he : halvings fuel (n / 2) = 0
        · rw [he]; simpa using hn
        · have := b he
          have e1 : 2 ^ halvings fuel (n / 2) = 2 * 2 ^ (halvings fuel (n / 2) - 1) := by
            rw [← pow_succ']
            congr 1
            omega
          rw [e1, ← Nat.div_div_eq_div_mul]
          exact this

/-- The exponent of a natural number as a float64. -/
theorem expo_spec (n : Nat) :
    n / 2 ^ halvings n n < 2 ^ 53 ∧
      (halvings n n ≠ 0 → 2 ^ 53 ≤ n / 2 ^ (halvings n n - 1)) := by
  apply halvings_spec
  have : n < 2 ^ n := Nat.lt_two_pow n
  calc n < 2 ^ n := this
    _ ≤ 2 ^ 53 * 2 ^ n := Nat.le_mul_of_pos_left _ (by positivity)

theorem roundNat_ge_floor (n : Nat) : n / 2 ^ halvings n n * 2 ^ halvings n n ≤ roundNat n := by
  unfold roundNat
  simp only
  split
  · exact Nat.mul_le_mul_right _ (Nat.le_succ _)
  · exact le_refl _

theorem roundNat_dvd (n : Nat) : 2 ^ halvings n n ∣ roundNat n := by
  unfold roundNat
  simp only
  split <;> exact Dvd.intro_left _ rfl

/-- A float64 value is not above the float64 nearest to a larger number. -/
theorem le_roundNat (x y : Nat) (hx : roundNat x = x) (hxy : x ≤ y) : x ≤ roundNat y := by
  refine le_trans ?_ (roundNat_ge_floor y)
  obtain ⟨qy_lt, hy⟩ := expo_spec y
  obtain ⟨qx_lt, hx2⟩ := expo_spec x
  generalize hey : halvings y y = ey at *
  generalize hex : halvings x x = ex at *
  by_cases h0 : ey = 0
  · subst h0; simpa using hxy
  · have hy1 := hy h0
    have hpos : 0 < 2 ^ (ey - 1) := by positivity
    have e1 : 2 ^ ey = 2 * 2 ^ (ey - 1) := by
      rw [← pow_succ']; congr 1; omega
    -- the floor of y is at least 2^53 * 2^(ey-1)
    have hfloor : 2 ^ 53 * 2 ^ (ey - 1) ≤ y / 2 ^ ey * 2 ^ ey := by
      have : 2 ^ 52 ≤ y / 2 ^ ey := by
        rw [e1, mul_comm, ← Nat.div_div_eq_div_mul]
        omega
      calc 2 ^ 53 * 2 ^ (ey - 1) = 2 ^ 52 * (2 * 2 ^ (ey - 1)) := by ring
        _ = 2 ^ 52 * 2 ^ ey := by rw [e1]
        _ ≤ y / 2 ^ ey * 2 ^ ey := Nat.mul_le_mul_right _ this
    by_cases hxs : x < 2 ^ 53
    · calc x ≤ 2 ^ 53 * 1 := by omega
        _ ≤ 2 ^ 53 * 2 ^ (ey - 1) := Nat.mul_le_mul_left _ hpos
        _ ≤ _ := hfloor
    · have hex0 : ex ≠ 0 := by
        intro h; subst h
        simp at qx_lt; omega
      have hx3 := hx2 hex0
      have hxlt : x < 2 ^ 53 * 2 ^ ex := by
        exact (Nat.div_lt_iff_lt_mul (by positivity)).1 qx_lt
      have hylt : y < 2 ^ 53 * 2 ^ ey := (Nat.div_lt_iff_lt_mul (by positivity)).1 qy_lt
      rcases Nat.lt_trichotomy ex ey with hlt | heq | hgt
      · have : 2 ^ ex ≤ 2 ^ (ey - 1) := Nat.pow_le_pow_right (by decide) (by omega)
        calc x ≤ 2 ^ 53 * 2 ^ ex := le_of_lt hxlt
          _ ≤ 2 ^ 53 * 2 ^ (ey - 1) := Nat.mul_le_mul_left _ this
          _ ≤ _ := hfloor
      · subst heq
        have hd : 2 ^ ex ∣ x := by
          have := roundNat_dvd x
          rw [hx, hex] at this
          exact this
        obtain ⟨k, hk⟩ := hd
        have : k ≤ y / 2 ^ ex := by
          rw [Nat.le_div_iff_mul_le (by positivity)]
          rw [hk, mul_comm] at hxy
          exact hxy
        calc x = k * 2 ^ ex := by rw [hk, mul_comm]
          _ ≤ y / 2 ^ ex * 2 ^ ex := Nat.mul_le_mul_right _ this
      · exfalso
        have h1 : 2 ^ 53 * 2 ^ (ex - 1) ≤ x := by
          have := Nat.div_mul_le_self x (2 ^ (ex - 1))
          calc 2 ^ 53 * 2 ^ (ex - 1) ≤ x / 2 ^ (ex - 1) * 2 ^ (ex - 1) :=
                Nat.mul_le_mul_right _ hx3
            _ ≤ x := this
        have h2 : 2 ^ ey ≤ 2 ^ (ex - 1) := Nat.pow_le_pow_right (by decide) (by omega)
        have h3 : 2 ^ 53 * 2 ^ ey ≤ 2 ^ 53 * 2 ^ (ex - 1) := Nat.mul_le_mul_left _ h2
        omega

theorem IsCounterValue_zero : IsCounterValue 0 := ⟨le_refl _, by norm_num⟩

/-- `Add(0)` leaves the total as it is. -/
theorem counter_add_zero (v : Int) (h : IsCounterValue v) : (v + 0) % 2 ^ 64 = v := by
  rw [add_zero]
  exact Int.emod_eq_of_lt h.1 h.2

/-! ## The metrics sink -/

theorem foldl_gaugeSet_apply (m : StreamMetrics) (pids : List PIDInfo) (v : Vec)
    (k : Labels) :
    (pids.foldl (fun v pid => gaugeSet v (pidInfoLabels m pid) 1) v) k =
      if k ∈ pids.map (pidInfoLabels m) then some 1 else v k := by
  induction pids generalizing v with
  | nil => simp
  | cons p rest ih =>
    rw [List.foldl_cons, ih]
    simp only [List.map_cons, List.mem_cons, gaugeSet]
    by_cases h1 : k ∈ rest.map (pidInfoLabels m)
    · simp [h1]
    · by_cases h2 : k = pidInfoLabels m p
      · simp [h1, h2]
      · simp [h1, h2]

theorem head_pidInfoLabels (m : StreamMetrics) (pids : List PIDInfo) (k : Labels)
    (h : k ∈ pids.map (pidInfoLabels m)) : k.head? = some m.StreamURL := by
  obtain ⟨p, _, rfl⟩ := List.mem_map.1 h
  rfl

/-- C13: after `UpdateMetrics(m)` the PID-info series whose `stream` label is
`m.StreamURL` are exactly the series with the label values (stream,
description, pid, class, codec, language), the language `none` when the record
has none, of the records of `m.PIDs`, each with value 1, so no series of this
stream from an earlier update survives unless it is published again; and the
PID-info series of other streams are unchanged. -/
theorem UpdateMetrics_pidInfo (e : Exporter) (m : StreamMetrics) :
    ∀ k : Labels,
      (k.head? = some m.StreamURL →
        (UpdateMetrics e m).streamPIDInfo k =
          if k ∈ m.PIDs.map (fun r =>
              [m.StreamURL, m.Description, r.PID, r.PIDType, r.Codec,
                if r.Language = [] then "none".toList else r.Language])
          then some 1 else none) ∧
      (k.head? ≠ some m.StreamURL →
        (UpdateMetrics e m).streamPIDInfo k = e.streamPIDInfo k) := by
  intro k
  have h : (UpdateMetrics e m).streamPIDInfo k =
      if k ∈ m.PIDs.map (pidInfoLabels m) then some 1
      else vecDeleteStream e.streamPIDInfo m.StreamURL k :=
    foldl_gaugeSet_apply m m.PIDs _ k
  have hl : (fun r : PIDInfo =>
      [m.StreamURL, m.Description, r.PID, r.PIDType, r.Codec,
        if r.Language = [] then "none".toList else r.Language]) = pidInfoLabels m := rfl
  rw [hl]
  constructor
  · intro hk
    rw [h]
    simp only [vecDeleteStream, hk, if_true]
  · intro hk
    rw [h, if_neg (fun hm => hk (head_pidInfoLabels m m.PIDs k hm))]
    simp only [vecDeleteStream, hk, if_false]

/-- C13, witness: an exporter holds a series of stream `s` for PID `0x0001` and
a series of stream `t`; after the update with a snapshot of stream `s` that has
the PIDs `0x0066` (no language) and `0x00CA` (`rus`), the series of stream `s`
are the two of the snapshot, the first with the language `none`, the series of
PID `0x0001` is gone and the series of stream `t` is still there. -/
theorem UpdateMetrics_pidInfo_witness :
    (∀ k : Labels,
      (k.head? = some twoPIDSnapshot.StreamURL →
        (UpdateMetrics staleExporter twoPIDSnapshot).streamPIDInfo k =
          if k ∈ twoPIDSnapshot.PIDs.map (fun r =>
              [twoPIDSnapshot.StreamURL, twoPIDSnapshot.Description, r.PID, r.PIDType, r.Codec,
                if r.Language = [] then "none".toList else r.Language])
          then some 1 else none) ∧
      (k.head? ≠ some twoPIDSnapshot.StreamURL →
        (UpdateMetrics staleExporter twoPIDSnapshot).streamPIDInfo k =
          staleExporter.streamPIDInfo k)) ∧
    (UpdateMetrics staleExporter twoPIDSnapshot).streamPIDInfo
        ["s".toList, "d".toList, "0x0066".toList, "video".toList, "h264".toList,
          "none".toList] = some 1 ∧
    (UpdateMetrics staleExporter twoPIDSnapshot).streamPIDInfo
        ["s".toList, "d".toList, "0x00CA".toList, "audio".toList, "mpeg1audio".toList,
          "rus".toList] = some 1 ∧
    (UpdateMetrics staleExporter twoPIDSnapshot).streamPIDInfo
        ["s".toList, "d".toList, "0x0066".toList, "video".toList, "h264".toList, []] = none ∧
    staleExporter.streamPIDInfo
        ["s".toList, "d".toList, "0x0001".toList, "video".toList, "h264".toList,
          "none".toList] = some 1 ∧
    (UpdateMetrics staleExporter twoPIDSnapshot).streamPIDInfo
        ["s".toList, "d".toList, "0x0001".toList, "video".toList, "h264".toList,
          "none".toList] = none ∧
    (UpdateMetrics staleExporter twoPIDSnapshot).streamPIDInfo
        ["t".toList, "d".toList, "0x0066".toList, "video".toList, "h264".toList,
          "none".toList] = some 1 :=
  ⟨UpdateMetrics_pidInfo staleExporter twoPIDSnapshot, by decide, by decide, by decide,
    by decide, by decide, by decide⟩

theorem getD_counter_value (v : Vec) (k : Labels)
    (hk : ∀ x, v k = some x → IsCounterValue x) : IsCounterValue ((v k).getD 0) := by
  cases h : v k with
  | none => exact IsCounterValue_zero
  | some x => exact hk x h

/-- The loop that creates the counters leaves every counter as it is and
creates the missing ones of the records at 0. -/
theorem foldl_initCounters_apply (m : StreamMetrics) (pids : List PIDInfo) (v : Vec)
    (k : Labels) (hk : ∀ x, v k = some x → IsCounterValue x) :
    (pids.foldl (fun v pid => counterAdd v (ccLabels m pid.PID) 0) v) k =
      if k ∈ pids.map (fun p => ccLabels m p.PID) then some ((v k).getD 0) else v k := by
  induction pids generalizing v with
  | nil => simp
  | cons p rest ih =>
    have hg := getD_counter_value v k hk
    have hz := counter_add_zero _ hg
    have hv1 : counterAdd v (ccLabels m p.PID) 0 k =
        if k = ccLabels m p.PID then some ((v k).getD 0) else v k := by
      simp only [counterAdd, hz]
    have hk1 : ∀ x, counterAdd v (ccLabels m p.PID) 0 k = some x → IsCounterValue x := by
      intro x hx
      rw [hv1] at hx
      by_cases h2 : k = ccLabels m p.PID
      · rw [if_pos h2] at hx
        injection hx with hx
        rw [← hx]; exact hg
      · rw [if_neg h2] at hx
        exact hk x hx
    rw [List.foldl_cons, ih _ hk1, hv1]
    simp only [List.map_cons, List.mem_cons]
    by_cases h1 : k ∈ rest.map (fun p => ccLabels m p.PID)
    · by_cases h2 : k = ccLabels m p.PID
      · simp [h1, h2]
      · simp [h1, h2]
    · by_cases h2 : k = ccLabels m p.PID
      · simp [h1, h2]
      · simp [h1, h2]

/-- The loop over the deltas does not touch a series without a positive delta. -/
theorem foldl_addErrors_other (m : StreamMetrics) (cc : List (Str × Int)) (v : Vec)
    (k : Labels) (hk : ∀ pid d, (pid, d) ∈ cc → 0 < d → k ≠ ccLabels m pid) :
    (cc.foldl
      (fun v e => if e.2 > 0 then counterAdd v (ccLabels m e.1) (f64OfInt e.2) else v) v) k =
      v k := by
  induction cc generalizing v with
  | nil => rfl
  | cons e rest ih =>
    rw [List.foldl_cons, ih _ (fun pid d h hd => hk pid d (List.mem_cons_of_mem _ h) hd)]
    by_cases hd : e.2 > 0
    · have := hk e.1 e.2 (List.mem_cons_self _ _) hd
      simp only [hd, if_true, counterAdd, this, if_false]
    · simp only [hd, if_false]

theorem UpdateMetrics_cc (e : Exporter) (m : StreamMetrics) :
    (UpdateMetrics e m).streamCCErrors = addErrors m (initCounters m e.streamCCErrors) := rfl

/-- The counter of a series without a positive delta after `UpdateMetrics`. -/
theorem UpdateMetrics_cc_other (e : Exporter) (m : StreamMetrics) (k : Labels)
    (hval : ∀ x, e.streamCCErrors k = some x → IsCounterValue x)
    (hk : ∀ pid d, (pid, d) ∈ m.CCErrors → 0 < d → k ≠ ccLabels m pid) :
    (UpdateMetrics e m).streamCCErrors k =
      if k ∈ m.PIDs.map (fun p => ccLabels m p.PID) then some ((e.streamCCErrors k).getD 0)
      else e.streamCCErrors k := by
  rw [UpdateMetrics_cc]
  unfold addErrors initCounters
  rw [foldl_addErrors_other m _ _ k hk, foldl_initCounters_apply m _ _ k hval]

theorem ParseOutput_ok_CCErrors (ord : MapOrder) (output streamURL description : Str)
    (now0 now1 : Int) (m : StreamMetrics)
    (h : ParseOutput ord output streamURL description now0 now1 = Except.ok m) :
    m.CCErrors = [] := by
  obtain ⟨b, hm⟩ := ParseOutput_ok_form ord output streamURL description now0 now1 m h
  rw [hm]
  show (parseServiceInfo output _).CCErrors = []
  rw [parseServiceInfo_fixed]
  rfl

/-- C18: the `CCErrors` map of every snapshot `ParseOutput` returns is empty,
and so is the one of the watchdog snapshot; and for a snapshot with an empty
`CCErrors` map `UpdateMetrics` leaves every continuity-error counter at the
value it had, creates the missing counters of the PIDs of the snapshot at 0,
and creates no other. -/
theorem no_continuity_error_delta :
    (∀ (ord : MapOrder) (output streamURL description : Str) (now0 now1 : Int)
        (m : StreamMetrics),
      ParseOutput ord output streamURL description now0 now1 = Except.ok m →
        m.CCErrors = []) ∧
    (∀ (streamURL description : Str) (lastUpdate : Int),
      (offlineMetrics streamURL description lastUpdate).CCErrors = []) ∧
    (∀ (e : Exporter) (m : StreamMetrics), m.CCErrors = [] →
      (∀ k x, e.streamCCErrors k = some x → IsCounterValue x) →
      ∀ k : Labels,
        (∀ x, e.streamCCErrors k = some x →
          (UpdateMetrics e m).streamCCErrors k = some x) ∧
        (e.streamCCErrors k = none →
          (UpdateMetrics e m).streamCCErrors k =
            if k ∈ m.PIDs.map (fun p => ccLabels m p.PID) then some 0 else none)) := by
  refine ⟨ParseOutput_ok_CCErrors, fun _ _ _ => rfl, ?_⟩
  intro e m hcc hval k
  have hk : ∀ pid d, (pid, d) ∈ m.CCErrors → 0 < d → k ≠ ccLabels m pid := by
    intro pid d hmem
    rw [hcc] at hmem
    cases hmem
  have h := UpdateMetrics_cc_other e m k (hval k) hk
  constructor
  · intro x hx
    rw [h, hx]
    split <;> rfl
  · intro hnone
    rw [h, hnone]
    rfl

/-- C18, witness: the snapshot parsed from the test report has no
continuity-error delta. -/
theorem no_continuity_error_delta_witness :
    ∃ m, ParseOutput MapOrder.insertion testOutput1 [] [] 0 0 = Except.ok m ∧
      m.CCErrors = [] :=
  ⟨_, rfl, no_continuity_error_delta.1 MapOrder.insertion testOutput1 [] [] 0 0 _ rfl⟩

/-! ## The matcher -/

theorem pushAll_nil (st : MState) : pushAll st [] = st := by
  cases st with
  | mk w c d =>
    cases c <;> simp [pushAll]

theorem pushAll_push (st : MState) (c : Char) (cs : Str) :
    pushAll (st.push c) cs = pushAll st (c :: cs) := by
  cases st with
  | mk w cur d =>
    cases cur <;> simp [pushAll, MState.push]

theorem run_nil (s : Str) (st : MState) : run [] s st = some st := by
  cases s <;> rfl

theorem run_lit_nil (c : Char) (ns : List Node) (st : MState) :
    run (Node.lit c :: ns) [] st = none := rfl

theorem run_lit_cons (c : Char) (ns : List Node) (x : Char) (xs : Str) (st : MState) :
    run (Node.lit c :: ns) (x :: xs) st =
      if x = c then run ns xs (st.push x) else none := rfl

theorem run_plus_nil (cls : Char → Bool) (ns : List Node) (st : MState) :
    run (Node.plus cls :: ns) [] st = none := rfl

theorem run_plus_cons (cls : Char → Bool) (ns : List Node) (x : Char) (xs : Str)
    (st : MState) :
    run (Node.plus cls :: ns) (x :: xs) st =
      if cls x then loop cls (run ns) xs (st.push x) else none := rfl

theorem run_gopen (ns : List Node) (s : Str) (st : MState) :
    run (Node.gopen :: ns) s st = run ns s { st with cur := some [] } := by
  cases s <;> rfl

theorem run_gclose (ns : List Node) (s : Str) (st : MState) :
    run (Node.gclose :: ns) s st =
      run ns s { st with cur := none, done := (st.cur.getD []).reverse :: st.done } := by
  cases s <;> rfl

theorem loop_nil (cls : Char → Bool) (k : Str → MState → Option MState) (st : MState) :
    loop cls k [] st = k [] st := rfl

theorem loop_cons (cls : Char → Bool) (k : Str → MState → Option MState) (c : Char)
    (s : Str) (st : MState) :
    loop cls k (c :: s) st =
      if cls c then
        match loop cls k s (st.push c) with
        | some r => some r
        | none => k (c :: s) st
      else k (c :: s) st := rfl

/-- Literal characters of a pattern consume the same characters of the text. -/
theorem run_lits_append (cs : Str) (rest : List Node) (s : Str) (st : MState) :
    run (cs.map Node.lit ++ rest) (cs ++ s) st = run rest s (pushAll st cs) := by
  induction cs generalizing st with
  | nil => simp [pushAll_nil]
  | cons c cs ih =>
    show run (Node.lit c :: (cs.map Node.lit ++ rest)) (c :: (cs ++ s)) st = _
    rw [run_lit_cons, if_pos rfl, ih, pushAll_push]

theorem run_lits_sound (cs : Str) (rest : List Node) (s : Str) (st r : MState)
    (h : run (cs.map Node.lit ++ rest) s st = some r) :
    ∃ s1, s = cs ++ s1 ∧ run rest s1 (pushAll st cs) = some r := by
  induction cs generalizing s st with
  | nil => exact ⟨s, rfl, by simpa [pushAll_nil] using h⟩
  | cons c cs ih =>
    have h1 : run (Node.lit c :: (cs.map Node.lit ++ rest)) s st = some r := h
    cases s with
    | nil => rw [run_lit_nil] at h1; cases h1
    | cons x xs =>
      rw [run_lit_cons] at h1
      by_cases hx : x = c
      · subst hx
        rw [if_pos rfl] at h1
        obtain ⟨s1, e, hr⟩ := ih xs (st.push x) h1
        exact ⟨s1, by rw [e]; rfl, by rw [← pushAll_push]; exact hr⟩
      · rw [if_neg hx] at h1
        cases h1

/-- A greedy repetition that succeeds consumed some run of class characters
and then the continuation succeeded. -/
theorem loop_sound (cls : Char → Bool) (k : Str → MState → Option MState) (s : Str)
    (st r : MState) (h : loop cls k s st = some r) :
    ∃ d t, s = d ++ t ∧ (∀ c ∈ d, cls c = true) ∧ k t (pushAll st d) = some r := by
  induction s generalizing st with
  | nil =>
    exact ⟨[], [], rfl, fun c hc => absurd hc (List.not_mem_nil c),
      by rw [pushAll_nil]; exact h⟩
  | cons c s ih =>
    rw [loop_cons] at h
    by_cases hc : cls c = true
    · rw [if_pos hc] at h
      cases hl : loop cls k s (st.push c) with
      | some r1 =>
        rw [hl] at h
        injection h with h
        subst h
        obtain ⟨d, t, e, hd, hk⟩ := ih (st.push c) hl
        refine ⟨c :: d, t, by rw [e]; rfl, ?_, by rw [← pushAll_push]; exact hk⟩
        intro x hx
        rcases List.mem_cons.1 hx with hx | hx
        · rw [hx]; exact hc
        · exact hd x hx
      | none =>
        rw [hl] at h
        exact ⟨[], c :: s, rfl, fun x hx => absurd hx (List.not_mem_nil x),
          by rw [pushAll_nil]; exact h⟩
    · rw [if_neg hc] at h
      exact ⟨[], c :: s, rfl, fun x hx => absurd hx (List.not_mem_nil x),
        by rw [pushAll_nil]; exact h⟩

/-- A greedy repetition takes a whole run of class characters when the
continuation succeeds after it. -/
theorem loop_greedy (cls : Char → Bool) (k : Str → MState → Option MState) (d t : Str)
    (st r : MState) (hd : ∀ c ∈ d, cls c = true)
    (ht : ∀ x t1, t = x :: t1 → cls x = false)
    (hk : k t (pushAll st d) = some r) :
    loop cls k (d ++ t) st = some r := by
  induction d generalizing st with
  | nil =>
    rw [pushAll_nil] at hk
    cases t with
    | nil => exact hk
    | cons x t1 =>
      show loop cls k (x :: t1) st = some r
      rw [loop_cons, ht x t1 rfl]
      exact hk
  | cons c d ih =>
    have hc := hd c (List.mem_cons_self _ _)
    have := ih (st.push c) (fun x hx => hd x (List.mem_cons_of_mem _ hx))
      (by rw [pushAll_push]; exact hk)
    show loop cls k (c :: (d ++ t)) st = some r
    rw [loop_cons, if_pos hc, this]

theorem run_plus_sound (cls : Char → Bool) (ns : List Node) (s : Str) (st r : MState)
    (h : run (Node.plus cls :: ns) s st = some r) :
    ∃ d t, s = d ++ t ∧ d ≠ [] ∧ (∀ c ∈ d, cls c = true) ∧
      run ns t (pushAll st d) = some r := by
  cases s with
  | nil => rw [run_plus_nil] at h; cases h
  | cons x xs =>
    rw [run_plus_cons] at h
    by_cases hx : cls x = true
    · rw [if_pos hx] at h
      obtain ⟨d, t, e, hd, hk⟩ := loop_sound cls (run ns) xs (st.push x) r h
      refine ⟨x :: d, t, by rw [e]; rfl, List.cons_ne_nil _ _, ?_,
        by rw [← pushAll_push]; exact hk⟩
      intro c hc
      rcases List.mem_cons.1 hc with hc | hc
      · rw [hc]; exact hx
      · exact hd c hc
    · rw [if_neg hx] at h
      cases h

theorem run_plus_greedy (cls : Char → Bool) (ns : List Node) (d t : Str) (st r : MState)
    (hne : d ≠ []) (hd : ∀ c ∈ d, cls c = true)
    (ht : ∀ x t1, t = x :: t1 → cls x = false)
    (hk : run ns t (pushAll st d) = some r) :
    run (Node.plus cls :: ns) (d ++ t) st = some r := by
  cases d with
  | nil => exact absurd rfl hne
  | cons x d =>
    have hx := hd x (List.mem_cons_self _ _)
    show run (Node.plus cls :: ns) (x :: (d ++ t)) st = some r
    rw [run_plus_cons, if_pos hx]
    exact loop_greedy cls (run ns) d t (st.push x) r
      (fun c hc => hd c (List.mem_cons_of_mem _ hc)) ht (by rw [pushAll_push]; exact hk)

/-- A literal text followed by a capture group around a `+` class, outside a
group: what a successful match consumed. -/
theorem run_segment_sound (cs : Str) (cls : Char → Bool) (ns : List Node) (s : Str)
    (w : Str) (done : List Str) (r : MState)
    (h : run (cs.map Node.lit ++ (Node.gopen :: Node.plus cls :: Node.gclose :: ns)) s
      ⟨w, none, done⟩ = some r) :
    ∃ d t, s = cs ++ (d ++ t) ∧ d ≠ [] ∧ (∀ c ∈ d, cls c = true) ∧
      run ns t ⟨d.reverse ++ (cs.reverse ++ w), none, d :: done⟩ = some r := by
  obtain ⟨s1, e1, h1⟩ := run_lits_sound cs _ s _ r h
  rw [run_gopen] at h1
  obtain ⟨d, t, e2, hne, hd, h2⟩ := run_plus_sound cls _ s1 _ r h1
  rw [run_gclose] at h2
  refine ⟨d, t, by rw [e1, e2], hne, hd, ?_⟩
  simpa [pushAll] using h2

theorem run_segment_greedy (cs : Str) (cls : Char → Bool) (ns : List Node) (d t : Str)
    (w : Str) (done : List Str) (r : MState)
    (hne : d ≠ []) (hd : ∀ c ∈ d, cls c = true)
    (ht : ∀ x t1, t = x :: t1 → cls x = false)
    (hk : run ns t ⟨d.reverse ++ (cs.reverse ++ w), none, d :: done⟩ = some r) :
    run (cs.map Node.lit ++ (Node.gopen :: Node.plus cls :: Node.gclose :: ns))
      (cs ++ (d ++ t)) ⟨w, none, done⟩ = some r := by
  rw [run_lits_append, run_gopen]
  apply run_plus_greedy cls _ d t _ r hne hd ht
  rw [run_gclose]
  simpa [pushAll] using hk

/-- The leftmost match is a match at the start of some suffix of the text. -/
theorem FindStringSubmatch_sound (re : List Node) (s : Str)
    (h : FindStringSubmatch re s ≠ []) :
    ∃ u t, s = u ++ t ∧ matchAt re t ≠ [] ∧ FindStringSubmatch re s = matchAt re t := by
  induction s with
  | nil => exact ⟨[], [], rfl, h, rfl⟩
  | cons c s ih =>
    cases hm : matchAt re (c :: s) with
    | nil =>
      have e : FindStringSubmatch re (c :: s) = FindStringSubmatch re s := by
        simp only [FindStringSubmatch, hm]
      rw [e] at h ⊢
      obtain ⟨u, t, e1, h1, h2⟩ := ih h
      exact ⟨c :: u, t, by rw [e1]; rfl, h1, h2⟩
    | cons m ms =>
      have e : FindStringSubmatch re (c :: s) = m :: ms := by
        simp only [FindStringSubmatch, hm]
      exact ⟨[], c :: s, rfl, by rw [hm]; exact List.cons_ne_nil _ _, by rw [e, hm]⟩

/-! ## The bitrate pattern -/

theorem bitrateRegex_eq :
    bitrateRegex =
      "TS bitrate: ".toList.map Node.lit ++
        (Node.gopen :: Node.plus isDigitOrComma :: Node.gclose ::
          (" bits/s, net bitrate: ".toList.map Node.lit ++
            (Node.gopen :: Node.plus isDigitOrComma :: Node.gclose ::
              (" bits/s".toList.map Node.lit ++ [])))) := by
  simp [bitrateRegex, lits]

theorem bitrateText_append (d1 d2 rest : Str) :
    bitrateText d1 d2 ++ rest =
      "TS bitrate: ".toList ++ (d1 ++ (" bits/s, net bitrate: ".toList ++
        (d2 ++ (" bits/s".toList ++ rest)))) := by
  simp [bitrateText]

theorem space_not_digitOrComma (X : Str) (p : String) (hp : p.toList.head? = some ' ') :
    ∀ x t1, p.toList ++ X = x :: t1 → isDigitOrComma x = false := by
  intro x t1 h
  cases hl : p.toList with
  | nil => rw [hl] at hp; cases hp
  | cons c cs =>
    rw [hl] at hp h
    simp only [List.head?_cons, Option.some.injEq] at hp
    simp only [List.cons_append, List.cons.injEq] at h
    rw [← h.1, hp]
    decide

/-- A text that starts with a bitrate report matches the bitrate pattern at
its start, with the two fields of the report. -/
theorem matchAt_bitrate_complete (d1 d2 rest : Str)
    (n1 : d1 ≠ []) (h1 : ∀ c ∈ d1, isDigitOrComma c = true)
    (n2 : d2 ≠ []) (h2 : ∀ c ∈ d2, isDigitOrComma c = true) :
    matchAt bitrateRegex (bitrateText d1 d2 ++ rest) = [bitrateText d1 d2, d1, d2] := by
  have hfinal : ∀ st : MState,
      run (" bits/s".toList.map Node.lit ++ []) (" bits/s".toList ++ rest) st =
        some (pushAll st " bits/s".toList) := by
    intro st
    rw [run_lits_append, run_nil]
  have hB := run_segment_greedy " bits/s, net bitrate: ".toList isDigitOrComma _ d2
    (" bits/s".toList ++ rest)
    (d1.reverse ++ ("TS bitrate: ".toList.reverse ++ [])) [d1] _ n2 h2
    (space_not_digitOrComma rest " bits/s" rfl) (hfinal _)
  have hA := run_segment_greedy "TS bitrate: ".toList isDigitOrComma _ d1
    (" bits/s, net bitrate: ".toList ++ (d2 ++ (" bits/s".toList ++ rest)))
    [] [] _ n1 h1
    (space_not_digitOrComma _ " bits/s, net bitrate: " rfl) hB
  unfold matchAt
  rw [bitrateText_append, bitrateRegex_eq, hA]
  simp [pushAll, bitrateText]

/-- A match of the bitrate pattern at the start of a text is a bitrate report
with two non-empty fields of digits and commas. -/
theorem matchAt_bitrate_sound (s : Str) (h : matchAt bitrateRegex s ≠ []) :
    ∃ d1 d2 rest, s = bitrateText d1 d2 ++ rest ∧
      d1 ≠ [] ∧ (∀ c ∈ d1, isDigitOrComma c = true) ∧
      d2 ≠ [] ∧ (∀ c ∈ d2, isDigitOrComma c = true) := by
  unfold matchAt at h
  cases hr : run bitrateRegex s ⟨[], none, []⟩ with
  | none => rw [hr] at h; exact absurd rfl h
  | some r =>
    rw [bitrateRegex_eq] at hr
    obtain ⟨d1, t1, e1, n1, c1, hr1⟩ := run_segment_sound _ _ _ _ _ _ _ hr
    obtain ⟨d2, t2, e2, n2, c2, hr2⟩ := run_segment_sound _ _ _ _ _ _ _ hr1
    obtain ⟨rest, e3, _⟩ := run_lits_sound _ _ _ _ _ hr2
    exact ⟨d1, d2, rest, by rw [bitrateText_append, e1, e2, e3], n1, c1, n2, c2⟩

theorem bitrateText_cons (d1 d2 : Str) :
    bitrateText d1 d2 =
      'T' :: ("S bitrate: ".toList ++ (d1 ++ (" bits/s, net bitrate: ".toList ++
        (d2 ++ " bits/s".toList)))) := rfl

/-- The capital `T` occurs in a bitrate report at its start only. -/
theorem bitrateText_no_T (d1 d2 : Str)
    (h1 : ∀ c ∈ d1, isDigitOrComma c = true) (h2 : ∀ c ∈ d2, isDigitOrComma c = true)
    (u v : Str) (h : bitrateText d1 d2 = u ++ 'T' :: v) : u = [] := by
  cases u with
  | nil => rfl
  | cons c u =>
    exfalso
    rw [bitrateText_cons] at h
    simp only [List.cons_append, List.cons.injEq] at h
    have hmem : 'T' ∈ "S bitrate: ".toList ++ (d1 ++ (" bits/s, net bitrate: ".toList ++
        (d2 ++ " bits/s".toList))) := by
      rw [h.2]; exact List.mem_append_right _ (List.mem_cons_self _ _)
    rcases List.mem_append.1 hmem with hm | hm
    · revert hm; decide
    rcases List.mem_append.1 hm with hm | hm
    · have := h1 _ hm; revert this; decide
    rcases List.mem_append.1 hm with hm | hm
    · revert hm; decide
    rcases List.mem_append.1 hm with hm | hm
    · have := h2 _ hm; revert this; decide
    · revert hm; decide

/-- A match of the bitrate pattern at the start of a text is the same match at
the start of every extension of the text. -/
theorem matchAt_bitrate_append (s b : Str) (h : matchAt bitrateRegex s ≠ []) :
    matchAt bitrateRegex (s ++ b) = matchAt bitrateRegex s := by
  obtain ⟨d1, d2, rest, e, n1, c1, n2, c2⟩ := matchAt_bitrate_sound s h
  rw [e, List.append_assoc, matchAt_bitrate_complete d1 d2 _ n1 c1 n2 c2,
    matchAt_bitrate_complete d1 d2 _ n1 c1 n2 c2]

/-- No match of the bitrate pattern starts before a match and ends after it. -/
theorem matchAt_bitrate_not_earlier (c : Char) (s b : Str)
    (h0 : matchAt bitrateRegex (c :: s) = [])
    (hs : FindStringSubmatch bitrateRegex s ≠ []) :
    matchAt bitrateRegex (c :: s ++ b) = [] := by
  by_contra hne
  obtain ⟨d1, d2, rest, e, n1, c1, n2, c2⟩ := matchAt_bitrate_sound _ hne
  obtain ⟨u, t, e2, ht, _⟩ := FindStringSubmatch_sound bitrateRegex s hs
  obtain ⟨f1, f2, rest2, e3, m1, g1, m2, g2⟩ := matchAt_bitrate_sound t ht
  -- a match at the start of `c :: s` is excluded
  have hno : ∀ z : Str, c :: s ≠ bitrateText d1 d2 ++ z := by
    intro z hz
    rw [hz, matchAt_bitrate_complete d1 d2 z n1 c1 n2 c2] at h0
    cases h0
  have e4 : (c :: u) ++ ('T' :: ((bitrateText f1 f2).tail ++ rest2 ++ b)) =
      bitrateText d1 d2 ++ rest := by
    rw [← e, e2, e3, bitrateText_cons]
    simp
  have hcs : c :: s = (c :: u) ++ t := by rw [e2]; rfl
  rcases List.append_eq_append_iff.1 e4 with ⟨z, hz1, hz2⟩ | ⟨z, hz1, hz2⟩
  · cases z with
    | nil =>
      apply hno t
      rw [hcs, hz1, List.append_nil]
    | cons x z =>
      simp only [List.cons_append, List.cons.injEq] at hz2
      rw [← hz2.1] at hz1
      have := bitrateText_no_T d1 d2 c1 c2 (c :: u) z hz1
      cases this
  · -- the earlier match ends inside `c :: u`
    apply hno (z ++ t)
    rw [hcs, hz1, List.append_assoc]

/-- The leftmost bitrate match of a text that has one is the leftmost bitrate
match of every extension of the text. -/
theorem FindStringSubmatch_bitrate_append (a b : Str)
    (h : FindStringSubmatch bitrateRegex a ≠ []) :
    FindStringSubmatch bitrateRegex (a ++ b) = FindStringSubmatch bitrateRegex a := by
  induction a with
  | nil =>
    have hm : matchAt bitrateRegex [] ≠ [] := h
    obtain ⟨d1, d2, rest, e, _⟩ := matchAt_bitrate_sound [] hm
    rw [bitrateText_cons] at e
    cases e
  | cons c s ih =>
    cases hm : matchAt bitrateRegex (c :: s) with
    | nil =>
      have e1 : FindStringSubmatch bitrateRegex (c :: s) =
          FindStringSubmatch bitrateRegex s := by
        simp only [FindStringSubmatch, hm]
      rw [e1] at h ⊢
      have h2 := matchAt_bitrate_not_earlier c s b hm h
      have e2 : FindStringSubmatch bitrateRegex (c :: s ++ b) =
          FindStringSubmatch bitrateRegex (s ++ b) := by
        show FindStringSubmatch bitrateRegex (c :: (s ++ b)) = _
        have h3 : matchAt bitrateRegex (c :: (s ++ b)) = [] := h2
        simp only [FindStringSubmatch, h3]
      rw [e2]
      exact ih h
    | cons m ms =>
      have hne : matchAt bitrateRegex (c :: s) ≠ [] := by
        rw [hm]; exact List.cons_ne_nil _ _
      have h2 := matchAt_bitrate_append (c :: s) b hne
      have e1 : FindStringSubmatch bitrateRegex (c :: s) = m :: ms := by
        simp only [FindStringSubmatch, hm]
      have h3 : matchAt bitrateRegex (c :: (s ++ b)) = m :: ms := by
        rw [← hm, ← h2]; rfl
      rw [e1]
      show FindStringSubmatch bitrateRegex (c :: (s ++ b)) = _
      simp only [FindStringSubmatch, h3]

theorem parseBitrate_congr (o1 o2 : Str) (metrics : StreamMetrics)
    (h : FindStringSubmatch bitrateRegex o1 = FindStringSubmatch bitrateRegex o2) :
    parseBitrate o1 metrics = parseBitrate o2 metrics := by
  unfold parseBitrate
  rw [h]

/-- The bitrate `parseBitrate` leaves does not depend on the other fields of
the snapshot it is given. -/
theorem parseBitrate_bitrate (output : Str) (x y x1 y1 : StreamMetrics)
    (hx : parseBitrate output x = Except.ok x1) (hy : parseBitrate output y = Except.ok y1)
    (hb : x.Bitrate = y.Bitrate) : x1.Bitrate = y1.Bitrate := by
  unfold parseBitrate at hx hy
  simp only at hx hy
  split at hx
  · rename_i h0
    rw [if_pos h0] at hy
    injection hx with hx
    injection hy with hy
    rw [← hx, ← hy, hb]
  · rename_i h0
    rw [if_neg h0] at hy
    split at hx
    · cases hx
    · rename_i tv ht
      rw [ht] at hy
      simp only at hy
      split at hx
      · cases hx
      · rename_i nv hn
        rw [hn] at hy
        simp only at hy
        injection hx with hx
        injection hy with hy
        rw [← hx, ← hy]

theorem ParseOutput_error_parseBitrate (ord : MapOrder) (output streamURL description : Str)
    (now0 now1 : Int) :
    (∃ e, ParseOutput ord output streamURL description now0 now1 = Except.error e) ↔
      ∃ e, parseBitrate output (initialMetrics streamURL description now0) = Except.error e := by
  rw [ParseOutput_eq]
  cases parseBitrate output (initialMetrics streamURL description now0) with
  | error e => exact ⟨fun _ => ⟨e, rfl⟩, fun _ => ⟨_, rfl⟩⟩
  | ok m1 =>
    constructor
    · rintro ⟨e, he⟩; cases he
    · rintro ⟨e, he⟩; cases he

theorem ParseOutput_ok_bitrate (ord : MapOrder) (output streamURL description : Str)
    (now0 now1 : Int) (m : StreamMetrics)
    (h : ParseOutput ord output streamURL description now0 now1 = Except.ok m) :
    ∃ m1, parseBitrate output (initialMetrics streamURL description now0) = Except.ok m1 ∧
      m.Bitrate = m1.Bitrate := by
  rw [ParseOutput_eq] at h
  cases hb : parseBitrate output (initialMetrics streamURL description now0) with
  | error e => rw [hb] at h; cases h
  | ok m1 =>
    rw [hb] at h
    injection h with h
    refine ⟨m1, rfl, ?_⟩
    rw [← h]
    show (parseServiceInfo output _).Bitrate = _
    rw [parseServiceInfo_fixed]

/-- C17: when the text `a` contains a match of the bitrate pattern,
`parseBitrate` on `a` followed by any text `b` has the outcome it has on `a`
alone, the same values or the same failure.  So `ParseOutput` on the longer
text, at any later time, returns the bitrate values it returned on `a`, and it
fails whenever it failed on `a`. -/
theorem parseBitrate_earliest_report (a b : Str)
    (h : FindStringSubmatch bitrateRegex a ≠ []) :
    (∀ metrics : StreamMetrics, parseBitrate (a ++ b) metrics = parseBitrate a metrics) ∧
    (∀ (ord ord1 : MapOrder) (streamURL description : Str) (now0 now1 later0 later1 : Int)
        (m m1 : StreamMetrics),
      ParseOutput ord a streamURL description now0 now1 = Except.ok m →
      ParseOutput ord1 (a ++ b) streamURL description later0 later1 = Except.ok m1 →
      m1.Bitrate = m.Bitrate) ∧
    (∀ (ord ord1 : MapOrder) (streamURL description : Str) (now0 now1 later0 later1 : Int),
      (∃ e, ParseOutput ord a streamURL description now0 now1 = Except.error e) →
      ∃ e, ParseOutput ord1 (a ++ b) streamURL description later0 later1 = Except.error e) := by
  have hf := FindStringSubmatch_bitrate_append a b h
  have hp : ∀ metrics : StreamMetrics, parseBitrate (a ++ b) metrics = parseBitrate a metrics :=
    fun metrics => parseBitrate_congr _ _ metrics hf
  refine ⟨hp, ?_, ?_⟩
  · intro ord ord1 streamURL description now0 now1 later0 later1 m m1 hm hm1
    obtain ⟨x, hx, ex⟩ := ParseOutput_ok_bitrate _ _ _ _ _ _ _ hm
    obtain ⟨y, hy, ey⟩ := ParseOutput_ok_bitrate _ _ _ _ _ _ _ hm1
    rw [hp] at hy
    rw [ex, ey]
    exact parseBitrate_bitrate a _ _ _ _ hy hx rfl
  · intro ord ord1 streamURL description now0 now1 later0 later1 he
    rw [ParseOutput_error_parseBitrate] at he ⊢
    rw [hp]
    rw [parseBitrate_error_iff] at he ⊢
    exact he

/-- C17, witness: the test report followed by a later bitrate report still
gives the bitrate of the test report. -/
theorem parseBitrate_earliest_report_witness :
    parseBitrate (testOutput1 ++ laterReport) emptyMetrics =
      parseBitrate testOutput1 emptyMetrics :=
  (parseBitrate_earliest_report testOutput1 laterReport (by decide)).1 emptyMetrics

/-! ## The language of a PID -/

theorem languageRegex_eq :
    languageRegex =
      "Language: ".toList.map Node.lit ++
        (Node.gopen :: Node.plus isWord :: Node.gclose ::
          (", Type:".toList.map Node.lit ++ [])) := by
  simp [languageRegex, lits]

/-- A match of the language pattern at the start of a text: the match and its
group, which is not empty. -/
theorem matchAt_language_sound (t : Str) (h : matchAt languageRegex t ≠ []) :
    ∃ w rest, t = languageText w ++ rest ∧ w ≠ [] ∧
      matchAt languageRegex t = [languageText w, w] := by
  unfold matchAt at h ⊢
  cases hr : run languageRegex t ⟨[], none, []⟩ with
  | none => rw [hr] at h; exact absurd rfl h
  | some r =>
    have hr0 := hr
    rw [languageRegex_eq] at hr0
    obtain ⟨w, t1, e1, n1, _, hr1⟩ := run_segment_sound _ _ _ _ _ _ _ hr0
    obtain ⟨rest, e2, hr2⟩ := run_lits_sound _ _ _ _ _ hr1
    rw [run_nil] at hr2
    injection hr2 with hr2
    refine ⟨w, rest, by rw [e1, e2]; simp [languageText], n1, ?_⟩
    rw [← hr2]
    simp [pushAll, languageText]

theorem HasPrefix_append (p v : Str) : HasPrefix (p ++ v) p = true := by
  induction p with
  | nil => cases v <;> rfl
  | cons c p ih => simp [HasPrefix, ih]

theorem Contains_of_HasPrefix (x p : Str) (h : HasPrefix x p = true) :
    Contains x p = true := by
  cases x with
  | nil => exact h
  | cons c x => simp [Contains, h]

theorem Contains_append_left (u x p : Str) (h : Contains x p = true) :
    Contains (u ++ x) p = true := by
  induction u with
  | nil => exact h
  | cons c u ih =>
    show Contains (c :: (u ++ x)) p = true
    simp [Contains, ih]

/-- A line that matches the language pattern has a non-empty language code
and contains the text `Language:`. -/
theorem matchesLanguage_facts (l : Str) (h : matchesLanguage l = true) :
    languageCode l ≠ [] ∧ Contains l "Language:".toList = true ∧
      (FindStringSubmatch languageRegex l).length > 0 := by
  have hne : FindStringSubmatch languageRegex l ≠ [] := by
    simpa [matchesLanguage] using h
  obtain ⟨u, t, e, hm, hf⟩ := FindStringSubmatch_sound languageRegex l hne
  obtain ⟨w, rest, e2, hw, hv⟩ := matchAt_language_sound t hm
  refine ⟨?_, ?_, List.length_pos.2 hne⟩
  · unfold languageCode
    rw [hf, hv]
    exact hw
  · rw [e, e2]
    apply Contains_append_left
    apply Contains_of_HasPrefix
    have : languageText w ++ rest =
        "Language:".toList ++ (' ' :: (w ++ (", Type:".toList ++ rest))) := by
      simp [languageText]
    rw [this]
    exact HasPrefix_append _ _

theorem not_matchesLanguage_length (l : Str) (h : matchesLanguage l = false) :
    ¬ (FindStringSubmatch languageRegex l).length > 0 := by
  have : FindStringSubmatch languageRegex l = [] := by
    simpa [matchesLanguage] using h
  rw [this]
  simp

theorem setLanguage_eq (p : PIDInfo) (l : Str) :
    setLanguage p l =
      if matchesLanguage l then { p with Language := languageCode l } else p := by
  unfold setLanguage
  simp only
  cases h : matchesLanguage l with
  | true =>
    rw [if_pos (matchesLanguage_facts l h).2.2]
    rfl
  | false =>
    rw [if_neg (not_matchesLanguage_length l h)]
    rfl

theorem languageStep_eq (p : PIDInfo) (l : Str) :
    languageStep p l =
      if p.Language = [] ∧ matchesLanguage l = true then { p with Language := languageCode l }
      else p := by
  unfold languageStep
  rw [setLanguage_eq]
  cases h : matchesLanguage l with
  | true =>
    have hc := (matchesLanguage_facts l h).2.1
    simp only [hc, true_and, if_true, and_true]
  | false =>
    simp only [Bool.false_eq_true, if_false, and_false, ite_self]

theorem subtitleStep_eq (p : PIDInfo) (l : Str) (rest : List Str) :
    subtitleStep p l rest =
      if Contains l "Subtitling".toList = true ∧ p.IsSubtitle = false then
        match rest.head? with
        | some nxt =>
          if matchesLanguage nxt then
            { p with IsSubtitle := true, SubtitleType := "dvb_subtitle".toList,
                     Language := languageCode nxt }
          else { p with IsSubtitle := true, SubtitleType := "dvb_subtitle".toList }
        | none => { p with IsSubtitle := true, SubtitleType := "dvb_subtitle".toList }
      else p := by
  unfold subtitleStep
  by_cases h : Contains l "Subtitling".toList = true ∧ p.IsSubtitle = false
  · rw [if_pos h, if_pos h]
    cases rest with
    | nil => rfl
    | cons nxt tl =>
      simp only [List.head?_cons, setLanguage_eq]
      cases hm : matchesLanguage nxt with
      | true =>
        have hc := (matchesLanguage_facts nxt hm).2.1
        simp only [hc, if_true]
      | false =>
        simp only [Bool.false_eq_true, if_false, ite_self]
  · rw [if_neg h, if_neg h]

theorem firstLanguage_cons (l : Str) (w : List Str) :
    firstLanguage (l :: w) =
      if matchesLanguage l then languageCode l else firstLanguage w := by
  unfold firstLanguage
  cases h : matchesLanguage l with
  | true => simp [List.find?, h]
  | false => simp [List.find?, h]

theorem languageFrom_stop (lang : Str) (isSub : Bool) (post : List Str)
    (h : languageWindow post = []) (h2 : lineAfterFirstSubtitling post = none) :
    languageFrom lang isSub post = lang := by
  unfold languageFrom
  rw [h, h2]
  have : firstLanguage [] = [] := rfl
  rw [this]
  by_cases hl : lang = []
  · cases isSub <;> simp [hl]
  · cases isSub <;> simp [hl]

/-- The language the window scan leaves, from the language and the subtitle
flag at its start. -/
theorem scanWindow_Language (post : List Str) (p : PIDInfo) :
    (scanWindow p post).Language = languageFrom p.Language p.IsSubtitle post := by
  induction post generalizing p with
  | nil =>
    rw [languageFrom_stop _ _ [] rfl rfl]
    rfl
  | cons l rest ih =>
    by_cases hes : Contains l "Elementary stream:".toList = true
    · have h1 : languageWindow (l :: rest) = [] := by
        unfold languageWindow
        rw [List.takeWhile_cons]
        simp only [hes, Bool.not_true, Bool.false_eq_true, if_false]
      have h2 : lineAfterFirstSubtitling (l :: rest) = none := by
        rw [lineAfterFirstSubtitling, if_pos hes]
      rw [languageFrom_stop _ _ _ h1 h2, scanWindow, if_pos hes]
    · have hes2 : Contains l "Elementary stream:".toList = false := by
        cases h : Contains l "Elementary stream:".toList with
        | true => exact absurd h hes
        | false => rfl
      have hW : languageWindow (l :: rest) = l :: languageWindow rest := by
        unfold languageWindow
        rw [List.takeWhile_cons]
        simp only [hes2, Bool.not_false, if_true]
      have hA : lineAfterFirstSubtitling (l :: rest) =
          if Contains l "Subtitling".toList then rest.head?
          else lineAfterFirstSubtitling rest := by
        rw [lineAfterFirstSubtitling, if_neg hes]
      have hsw : scanWindow p (l :: rest) =
          scanWindow (subtitleStep (languageStep p l) l rest) rest := by
        rw [scanWindow, if_neg hes]
      rw [hsw, ih, languageStep_eq, subtitleStep_eq]
      unfold languageFrom
      rw [hW, hA, firstLanguage_cons]
      have hcode : matchesLanguage l = true → languageCode l ≠ [] :=
        fun h => (matchesLanguage_facts l h).1
      have hnext : ∀ nxt, matchesLanguage nxt = true → languageCode nxt ≠ [] :=
        fun nxt h => (matchesLanguage_facts nxt h).1
      generalize Contains l "Subtitling".toList = cs
      cases hi : p.IsSubtitle <;> cases hm : matchesLanguage l <;>
        by_cases hl : p.Language = [] <;>
        cases cs <;>
        cases hh : rest.head? <;>
        simp [hi, hm, hl, hh, hcode, hnext]
      all_goals
        rename_i nxt
        cases hn : matchesLanguage nxt <;> simp [hn, hl, hnext nxt, hcode]
      intro h0
      exact absurd h0 (hcode hm)

/-- The language of a record scanned from a fresh declaration, unfolded. -/
theorem specLanguage_eq (post : List Str) :
    specLanguage post =
      match lineAfterFirstSubtitling post with
      | some nxt =>
        if matchesLanguage nxt then languageCode nxt else firstLanguage (languageWindow post)
      | none => firstLanguage (languageWindow post) := rfl

/-- The record of a fresh declaration has the language `specLanguage` of the
lines after it. -/
theorem scanWindow_newPID_Language (ms : List Str) (post : List Str) :
    (scanWindow (newPID ms) post).Language = specLanguage post :=
  scanWindow_Language post (newPID ms)

/-- The language of the record of a first declaration: when the lines of the
text split as `pre`, a declaration line, `post`, and no line of `pre` declares
the same PID identifier, the one record with that identifier has the language
`specLanguage post`. -/
theorem parsePIDs_language (ord : MapOrder) (output : Str)
    (metrics : StreamMetrics) (pre : List Str) (line : Str) (post : List Str)
    (hsplit : Split '\n' output = pre ++ line :: post)
    (hmatch : FindStringSubmatch elementaryStreamRegex line ≠ [])
    (hfirst : ∀ l ∈ pre, FindStringSubmatch elementaryStreamRegex l = [] ∨
      sub (FindStringSubmatch elementaryStreamRegex l) 3 ≠
        sub (FindStringSubmatch elementaryStreamRegex line) 3) :
    ∃ (new : List PIDInfo) (r : PIDInfo),
      parsePIDs ord output metrics =
        Except.ok { metrics with PIDs := metrics.PIDs ++ new } ∧
      new.filter
          (fun r => decide (r.PID = sub (FindStringSubmatch elementaryStreamRegex line) 3)) =
        [r] ∧
      r.Language = specLanguage post := by
  refine ⟨_, scanWindow (newPID (FindStringSubmatch elementaryStreamRegex line)) post,
    parsePIDs_ok ord output metrics, ?_, ?_⟩
  · rw [hsplit]
    have hperm := ((ord.perm (scanLines [] (pre ++ line :: post))).map Prod.snd).filter
      (fun r => decide (r.PID = sub (FindStringSubmatch elementaryStreamRegex line) 3))
    rw [filter_PID_eq_entriesFor _ _ (fun e he => scanLines_entry_PID _ e he),
      entriesFor_first_declaration pre line post hmatch hfirst] at hperm
    exact List.perm_singleton.1 hperm
  · rw [scanWindow_newPID_Language]

/-- C11: the report `subtitleOverride` has one declaration, and the window of
lines between it and the end of the text has the language line `rus` first and
after it a `Subtitling` descriptor followed by the language line `eng`.  The
first line of the window that matches the language pattern has the code `rus`,
but the record `parsePIDs` builds has the language `eng`: the assignment in the
`Subtitling` branch has replaced the language that was already attached. -/
theorem parsePIDs_subtitle_overwrites_language :
    Split '\n' subtitleOverride = subtitleOverrideFirst :: subtitleOverrideRest ∧
    FindStringSubmatch elementaryStreamRegex subtitleOverrideFirst ≠ [] ∧
    declaredWindow subtitleOverrideRest = subtitleOverrideRest ∧
    firstLanguage (declaredWindow subtitleOverrideRest) = "rus".toList ∧
    (languageStep (newPID (FindStringSubmatch elementaryStreamRegex subtitleOverrideFirst))
        "    Language: rus, Type: 0x00 (undefined)".toList).Language = "rus".toList ∧
    ∀ ord : MapOrder, ∃ m, parsePIDs ord subtitleOverride emptyMetrics = Except.ok m ∧
      m.PIDs.map (fun r => (r.PID, r.IsSubtitle, r.Language)) =
        [("0x0BB8".toList, true, "eng".toList)] := by
  refine ⟨by decide, by decide, by decide, by decide, by decide, fun ord => ?_⟩
  refine ⟨_, parsePIDs_ok ord subtitleOverride emptyMetrics, ?_⟩
  have h : scanLines [] (Split '\n' subtitleOverride) =
      [("0x0BB8".toList,
        { PID := "0x0BB8".toList, PIDDecimal := 3000, PIDType := "data".toList,
          Codec := "private".toList, Language := "eng".toList, IsSubtitle := true,
          SubtitleType := "dvb_subtitle".toList })] := by decide
  have hp := ord.perm (scanLines [] (Split '\n' subtitleOverride))
  rw [h] at hp
  show ((emptyMetrics.PIDs ++ (ord.range (scanLines [] (Split '\n' subtitleOverride))).map
    Prod.snd).map (fun r => (r.PID, r.IsSubtitle, r.Language))) = _
  rw [h, List.perm_singleton.1 hp]
  rfl

end TSMonitor
